import Mathlib

/-
  Verification development for the triangular-grid navigation core of the
  MirrorMurder repository (grid_system.js, character.js, grid_graph.js,
  game_state.js, movement_system.js).

  The JavaScript code is shallowly embedded: classes become structures,
  mutation becomes explicit state passing, JS strings used as enums become
  inductive types, and fallible operations return Option / Except.
-/

namespace MirrorMurder

/-- Side names of a triangle: the JS strings "left", "right", "third". -/
inductive Side where
  | left
  | right
  | third
deriving DecidableEq

/-- Side states: the SideType enum of grid_system.js ("empty" / "mirror"). -/
inductive SideState where
  | empty
  | mirror
deriving DecidableEq

/-- Movement directions: the MovementDirection enum of character.js. -/
inductive Direction where
  | forward_left
  | forward_right
deriving DecidableEq

/-- The three side states of a triangle (the JS object this.sides). -/
structure SideStates where
  left : SideState
  right : SideState
  third : SideState
deriving DecidableEq

/-- Read one side of a sides record. -/
def SideStates.get (ss : SideStates) : Side → SideState
  | Side.left => ss.left
  | Side.right => ss.right
  | Side.third => ss.third

/-- Replace one side of a sides record. -/
def SideStates.set (ss : SideStates) : Side → SideState → SideStates
  | Side.left, v => { ss with left := v }
  | Side.right, v => { ss with right := v }
  | Side.third, v => { ss with third := v }

/-- A triangle cell of grid_system.js. Its row and col coordinates are the
position at which it is stored in the grid (the JS fields row and col always
equal the key under which TriangularGrid stores the triangle); the neighbor
references are recomputed from the grid shape by setupNeighbors, embedded
below as TriangularGrid.neighborCoords. -/
structure Triangle where
  pointsUp : Bool
  sides : SideStates
deriving DecidableEq

/-- Triangle.getSideState of grid_system.js. -/
def Triangle.getSideState (t : Triangle) (s : Side) : SideState :=
  t.sides.get s

/-- Triangle.getNeighborCorrespondingSide of grid_system.js: left and right
swap, third maps to third.  (The JS method ignores this.) -/
def getNeighborCorrespondingSide : Side → Side
  | Side.left => Side.right
  | Side.right => Side.left
  | Side.third => Side.third

/-- The TriangularGrid of grid_system.js: a jagged list of rows of triangles.
The JS flat lookup map keyed "row,col" always mirrors the rows array, so the
rows array is the single source of truth here. -/
structure TriangularGrid where
  rows : List (List Triangle)
deriving DecidableEq

/-- TriangularGrid.getRowCount. -/
def TriangularGrid.getRowCount (g : TriangularGrid) : Nat :=
  g.rows.length

/-- TriangularGrid.getRowLength (0 for a missing row, as the JS ?? fallback). -/
def TriangularGrid.getRowLength (g : TriangularGrid) (r : Nat) : Nat :=
  match g.rows[r]? with
  | some row => row.length
  | none => 0

/-- TriangularGrid.getTriangle: lookup by row and column. -/
def TriangularGrid.getTriangle (g : TriangularGrid) (r c : Nat) : Option Triangle :=
  g.rows[r]?.bind fun row => row[c]?

/-- The neighbor wiring computed once by TriangularGrid.setupNeighbors:
left and right are the same-row column neighbors, and the third side connects
to the row below for an up-pointing triangle and to the row above for a
down-pointing one, guarded exactly as in the JS loops. -/
def TriangularGrid.neighborCoords (g : TriangularGrid) (r c : Nat) :
    Side → Option (Nat × Nat)
  | Side.left =>
    (g.getTriangle r c).bind fun _t => if 0 < c then some (r, c - 1) else none
  | Side.right =>
    (g.getTriangle r c).bind fun _t =>
      if c + 1 < g.getRowLength r then some (r, c + 1) else none
  | Side.third =>
    (g.getTriangle r c).bind fun t =>
      if t.pointsUp then
        if r + 1 < g.getRowCount ∧ c < g.getRowLength (r + 1) then some (r + 1, c)
        else none
      else
        if 0 < r ∧ c < g.getRowLength (r - 1) then some (r - 1, c) else none

/-- The neighbor reference held by a JS triangle: the coordinates produced by
setupNeighbors together with the triangle stored there. -/
def TriangularGrid.neighborTriangle (g : TriangularGrid) (r c : Nat) (s : Side) :
    Option (Nat × Nat × Triangle) :=
  match g.neighborCoords r c s with
  | none => none
  | some (nr, nc) => (g.getTriangle nr nc).map fun t => (nr, nc, t)

/-- A triangle exists at (r, c) exactly when c is inside row r. -/
theorem TriangularGrid.getTriangle_isSome_iff (g : TriangularGrid) (r c : Nat) :
    (g.getTriangle r c).isSome ↔ c < g.getRowLength r := by
  unfold TriangularGrid.getTriangle TriangularGrid.getRowLength
  cases hrow : g.rows[r]? with
  | none => simp
  | some row =>
    rw [Option.some_bind]
    cases h : row[c]? with
    | none => simp [List.getElem?_eq_none_iff.mp h]
    | some a => simp; exact (List.getElem?_eq_some.mp h).1

/-- Coordinates returned by neighborCoords always hold a triangle. -/
theorem TriangularGrid.getTriangle_of_neighborCoords (g : TriangularGrid)
    {r c : Nat} {s : Side} {nr nc : Nat}
    (h : g.neighborCoords r c s = some (nr, nc)) :
    (g.getTriangle nr nc).isSome := by
  cases htri : g.getTriangle r c with
  | none =>
    cases s <;> rw [TriangularGrid.neighborCoords, htri] at h <;> simp at h
  | some t =>
    have hcLen : c < g.getRowLength r := by
      rw [← TriangularGrid.getTriangle_isSome_iff]
      simp [htri]
    rw [TriangularGrid.getTriangle_isSome_iff]
    cases s with
    | left =>
      rw [TriangularGrid.neighborCoords, htri, Option.some_bind] at h
      split at h
      · cases h; omega
      · simp at h
    | right =>
      rw [TriangularGrid.neighborCoords, htri, Option.some_bind] at h
      split at h
      · cases h; assumption
      · simp at h
    | third =>
      rw [TriangularGrid.neighborCoords, htri, Option.some_bind] at h
      split at h
      · split at h
        · cases h
          next hcond => exact hcond.2
        · simp at h
      · split at h
        · cases h
          next hcond => exact hcond.2
        · simp at h

/-- Character.rotateClockwise of character.js as a pure orientation map.
Up-pointing: left to right to third to left; down-pointing: left to third to
right to left. -/
def rotateClockwise (pointsUp : Bool) : Side → Side
  | Side.left => if pointsUp then Side.right else Side.third
  | Side.right => if pointsUp then Side.third else Side.left
  | Side.third => if pointsUp then Side.left else Side.right

/-- Character.rotateCounterClockwise of character.js as a pure orientation
map: the exact inverse cycle of rotateClockwise. -/
def rotateCounterClockwise (pointsUp : Bool) : Side → Side
  | Side.left => if pointsUp then Side.third else Side.right
  | Side.right => if pointsUp then Side.left else Side.third
  | Side.third => if pointsUp then Side.right else Side.left

/-- The Character of character.js.  The JS state field is never read by the
core logic and is omitted; type is kept for the player / enemy roles. -/
structure Character where
  row : Nat
  col : Nat
  orientation : Side
  type : String
deriving DecidableEq

/-- Character.setOrientation: the orientation argument is a raw JS string;
values outside left / right / third are rejected with a console warning and
no mutation. -/
def Character.setOrientation (ch : Character) (o : String) : Character :=
  if o = "left" then { ch with orientation := Side.left }
  else if o = "right" then { ch with orientation := Side.right }
  else if o = "third" then { ch with orientation := Side.third }
  else ch

/-- Character.setPosition: row and col are always written; the orientation is
forwarded to setOrientation only when non-null. -/
def Character.setPosition (ch : Character) (row col : Nat) (o : Option String) :
    Character :=
  let ch1 := { ch with row := row, col := col }
  match o with
  | none => ch1
  | some s => ch1.setOrientation s

/-- The JS string for a Side value. -/
def Side.toStr : Side → String
  | Side.left => "left"
  | Side.right => "right"
  | Side.third => "third"

/-- The result object returned by Character.move. -/
structure MoveResult where
  success : Bool
  row : Nat
  col : Nat
  orientation : Side
deriving DecidableEq

/-- Character.move of character.js.  Returns the result object together with
the character after the in-place mutation.  The rotation tables are inlined
exactly as in the JS method (it does not call rotateClockwise). -/
def Character.move (ch : Character) (g : TriangularGrid) (dir : Direction) :
    MoveResult × Character :=
  match g.getTriangle ch.row ch.col with
  | none => (⟨false, ch.row, ch.col, ch.orientation⟩, ch)
  | some currentTriangle =>
    let sideToCheck := ch.orientation
    if currentTriangle.getSideState sideToCheck ≠ SideState.empty then
      (⟨false, ch.row, ch.col, ch.orientation⟩, ch)
    else
      match g.neighborTriangle ch.row ch.col sideToCheck with
      | none => (⟨false, ch.row, ch.col, ch.orientation⟩, ch)
      | some (nr, nc, neighbor) =>
        let enteredFromSide := getNeighborCorrespondingSide sideToCheck
        let newOrientation :=
          match dir with
          | Direction.forward_right =>
            if neighbor.pointsUp then
              match enteredFromSide with
              | Side.left => Side.third
              | Side.third => Side.right
              | Side.right => Side.left
            else
              match enteredFromSide with
              | Side.left => Side.right
              | Side.right => Side.third
              | Side.third => Side.left
          | Direction.forward_left =>
            if neighbor.pointsUp then
              match enteredFromSide with
              | Side.left => Side.right
              | Side.right => Side.third
              | Side.third => Side.left
            else
              match enteredFromSide with
              | Side.left => Side.third
              | Side.third => Side.right
              | Side.right => Side.left
        (⟨true, nr, nc, newOrientation⟩,
         { ch with row := nr, col := nc, orientation := newOrientation })

/-- GridGraph.getRotatedOrientation of grid_graph.js (own copies of the
rotation tables). -/
def getRotatedOrientation (o : Side) (pointsUp clockwise : Bool) : Side :=
  if clockwise then
    if pointsUp then
      match o with
      | Side.left => Side.right
      | Side.right => Side.third
      | Side.third => Side.left
    else
      match o with
      | Side.left => Side.third
      | Side.third => Side.right
      | Side.right => Side.left
  else
    if pointsUp then
      match o with
      | Side.left => Side.third
      | Side.third => Side.right
      | Side.right => Side.left
    else
      match o with
      | Side.left => Side.right
      | Side.right => Side.third
      | Side.third => Side.left

/-- Node existence in the GridGraph built by buildFromGrid: one node per
orientation for every triangle of the grid. -/
def TriangularGrid.hasGraphNode (g : TriangularGrid) (r c : Nat) : Bool :=
  (g.getTriangle r c).isSome

/-- The movement edge added by GridGraph.buildFromGrid for the node
(r, c, o) and one movement direction: present when the faced side is empty,
the neighbor exists, and the destination node exists; forward_left rotates
the entered-from side clockwise and forward_right counter-clockwise, using
the neighbor rotation table. -/
def TriangularGrid.movementEdgeTarget (g : TriangularGrid) (r c : Nat) (o : Side)
    (dir : Direction) : Option (Nat × Nat × Side) :=
  (g.getTriangle r c).bind fun triangle =>
    if triangle.getSideState o = SideState.empty then
      (g.neighborTriangle r c o).bind fun nbt =>
        let enteredFromSide := getNeighborCorrespondingSide o
        let clockwise :=
          match dir with
          | Direction.forward_left => true
          | Direction.forward_right => false
        let orient := getRotatedOrientation enteredFromSide nbt.2.2.pointsUp clockwise
        if g.hasGraphNode nbt.1 nbt.2.1 then some (nbt.1, nbt.2.1, orient) else none
    else none

/-- The inline clockwise table of Character.move agrees with rotateClockwise. -/
theorem move_inline_cw_eq (up : Bool) (s : Side) :
    (if up then
        match s with
        | Side.left => Side.right
        | Side.right => Side.third
        | Side.third => Side.left
      else
        match s with
        | Side.left => Side.third
        | Side.third => Side.right
        | Side.right => Side.left) = rotateClockwise up s := by
  cases up <;> cases s <;> rfl

/-- The inline counter-clockwise table of Character.move agrees with
rotateCounterClockwise. -/
theorem move_inline_ccw_eq (up : Bool) (s : Side) :
    (if up then
        match s with
        | Side.left => Side.third
        | Side.third => Side.right
        | Side.right => Side.left
      else
        match s with
        | Side.left => Side.right
        | Side.right => Side.third
        | Side.third => Side.left) = rotateCounterClockwise up s := by
  cases up <;> cases s <;> rfl

/-- C1: Character.move with a forward direction fails (success false, row,
col, orientation unchanged) whenever the current triangle is absent, the
faced side is not empty, or the faced side has no neighbor; otherwise it
succeeds, lands on the neighbor coordinates, and faces the entered-from side
rotated clockwise (forward_left) or counter-clockwise (forward_right) by the
neighbor rotation table. -/
theorem character_move_spec (g : TriangularGrid) (ch : Character) (dir : Direction) :
    ((g.getTriangle ch.row ch.col = none
        ∨ (∃ t, g.getTriangle ch.row ch.col = some t ∧
            t.getSideState ch.orientation ≠ SideState.empty)
        ∨ g.neighborTriangle ch.row ch.col ch.orientation = none) →
      ch.move g dir = (⟨false, ch.row, ch.col, ch.orientation⟩, ch))
    ∧ (∀ t nr nc nb,
        g.getTriangle ch.row ch.col = some t →
        t.getSideState ch.orientation = SideState.empty →
        g.neighborTriangle ch.row ch.col ch.orientation = some (nr, nc, nb) →
        ch.move g dir =
          (⟨true, nr, nc,
              match dir with
              | Direction.forward_left =>
                rotateClockwise nb.pointsUp (getNeighborCorrespondingSide ch.orientation)
              | Direction.forward_right =>
                rotateCounterClockwise nb.pointsUp
                  (getNeighborCorrespondingSide ch.orientation)⟩,
           { ch with
              row := nr, col := nc,
              orientation :=
                match dir with
                | Direction.forward_left =>
                  rotateClockwise nb.pointsUp (getNeighborCorrespondingSide ch.orientation)
                | Direction.forward_right =>
                  rotateCounterClockwise nb.pointsUp
                    (getNeighborCorrespondingSide ch.orientation) })) := by
  constructor
  · intro hfail
    rcases hfail with htri | ⟨t, htri, hside⟩ | hnb
    · simp [Character.move, htri]
    · simp [Character.move, htri, hside]
    · cases htri : g.getTriangle ch.row ch.col with
      | none => simp [Character.move, htri]
      | some t =>
        by_cases hside : t.getSideState ch.orientation = SideState.empty
        · simp [Character.move, htri, hside, hnb]
        · simp [Character.move, htri, hside]
  · intro t nr nc nb htri hside hnb
    simp only [Character.move, htri, hside, hnb]
    cases dir <;> cases hup : nb.pointsUp <;>
      cases ho : ch.orientation <;>
        simp [getNeighborCorrespondingSide, rotateClockwise, rotateCounterClockwise, hup]

/-- A concrete up-pointing triangle: left mirror, right empty, third mirror. -/
def demoTriangleUp : Triangle :=
  ⟨true, ⟨SideState.mirror, SideState.empty, SideState.mirror⟩⟩

/-- A concrete down-pointing triangle: left empty, right mirror, third mirror. -/
def demoTriangleDown : Triangle :=
  ⟨false, ⟨SideState.empty, SideState.mirror, SideState.mirror⟩⟩

/-- A one-row two-triangle grid whose shared edge is open. -/
def demoGrid : TriangularGrid :=
  ⟨[[demoTriangleUp, demoTriangleDown]]⟩

/-- Witness for C1 at a concrete successful move. -/
theorem character_move_spec_witness :
    demoGrid.getTriangle 0 0 = some demoTriangleUp ∧
    Character.move ⟨0, 0, Side.right, "player"⟩ demoGrid Direction.forward_left
      = (⟨true, 0, 1, Side.third⟩, ⟨0, 1, Side.third, "player"⟩) := by
  refine ⟨rfl, ?_⟩
  have h := (character_move_spec demoGrid ⟨0, 0, Side.right, "player"⟩
    Direction.forward_left).2 demoTriangleUp 0 1 demoTriangleDown rfl rfl rfl
  simpa using h

/-- C2: every movement edge of the GridGraph built from a grid is realized
exactly by Character.move: moving from the source node with the edge
direction succeeds and yields the target node coordinates and orientation. -/
theorem graph_movement_edge_matches_move (g : TriangularGrid) (r c : Nat)
    (o : Side) (dir : Direction) (nr nc : Nat) (no : Side) (ty : String)
    (h : g.movementEdgeTarget r c o dir = some (nr, nc, no)) :
    (Character.move ⟨r, c, o, ty⟩ g dir).1 = ⟨true, nr, nc, no⟩ ∧
    (Character.move ⟨r, c, o, ty⟩ g dir).2 = ⟨nr, nc, no, ty⟩ := by
  unfold TriangularGrid.movementEdgeTarget at h
  cases htri : g.getTriangle r c with
  | none => rw [htri] at h; simp at h
  | some t =>
    rw [htri, Option.some_bind] at h
    by_cases hside : t.getSideState o = SideState.empty
    · rw [if_pos hside] at h
      cases hnb : g.neighborTriangle r c o with
      | none => rw [hnb] at h; simp at h
      | some nbt =>
        obtain ⟨nr2, nc2, nb⟩ := nbt
        rw [hnb, Option.some_bind] at h
        dsimp only at h
        split at h
        · simp only [Option.some.injEq, Prod.mk.injEq] at h
          obtain ⟨rfl, rfl, h3⟩ := h
          subst h3
          refine ⟨?_, ?_⟩ <;>
          · simp only [Character.move, htri, hside, hnb]
            cases dir <;> cases hup : nb.pointsUp <;> cases o <;>
              simp [getRotatedOrientation, getNeighborCorrespondingSide, hup]
        · simp at h
    · rw [if_neg hside] at h; simp at h

/-- Witness for C2 at a concrete movement edge of the demo grid. -/
theorem graph_movement_edge_matches_move_witness :
    demoGrid.movementEdgeTarget 0 0 Side.right Direction.forward_right
      = some (0, 1, Side.right) ∧
    (Character.move ⟨0, 0, Side.right, "enemy"⟩ demoGrid Direction.forward_right).1
      = ⟨true, 0, 1, Side.right⟩ := by
  refine ⟨rfl, ?_⟩
  exact (graph_movement_edge_matches_move demoGrid 0 0 Side.right
    Direction.forward_right 0 1 Side.right "enemy" rfl).1

/-- C10: setPosition with an orientation string that is neither null nor one
of left / right / third updates row and col, keeps the previous orientation,
and raises nothing: a silently partial update. -/
theorem setPosition_invalid_orientation (ch : Character) (r c : Nat) (s : String)
    (h1 : s ≠ "left") (h2 : s ≠ "right") (h3 : s ≠ "third") :
    ch.setPosition r c (some s) = { ch with row := r, col := c } := by
  unfold Character.setPosition Character.setOrientation
  simp [h1, h2, h3]

/-- Witness for C10 with the invalid orientation string "up". -/
theorem setPosition_invalid_orientation_witness :
    Character.setPosition ⟨5, 6, Side.third, "player"⟩ 1 2 (some "up")
      = ⟨1, 2, Side.third, "player"⟩ := by
  exact setPosition_invalid_orientation ⟨5, 6, Side.third, "player"⟩ 1 2 "up"
    (by decide) (by decide) (by decide)

/-- The raw single-side write this.sides[side] = state of Triangle.setSideState
(the part before neighbor propagation). -/
def Triangle.setSideRaw (t : Triangle) (s : Side) (v : SideState) : Triangle :=
  { t with sides := t.sides.set s v }

/-- setSideRaw does not change the pointing direction. -/
theorem Triangle.setSideRaw_pointsUp (t : Triangle) (s : Side) (v : SideState) :
    (t.setSideRaw s v).pointsUp = t.pointsUp := rfl

/-- Reading a sides record after a write. -/
theorem SideStates.get_set (ss : SideStates) (s : Side) (v : SideState) (s' : Side) :
    (ss.set s v).get s' = if s' = s then v else ss.get s' := by
  cases s <;> cases s' <;> simp [SideStates.get, SideStates.set]

/-- Write one side of the triangle stored at (r, c); a no-op when no triangle
is there (a JS method call is always on an existing triangle). -/
def TriangularGrid.setSideAt (g : TriangularGrid) (r c : Nat) (s : Side)
    (v : SideState) : TriangularGrid :=
  match g.rows[r]? with
  | none => g
  | some row =>
    match row[c]? with
    | none => g
    | some t => ⟨g.rows.set r (row.set c (t.setSideRaw s v))⟩

/-- The observable state of one side of one triangle of the grid. -/
def TriangularGrid.sideStateAt (g : TriangularGrid) (r c : Nat) (s : Side) :
    Option SideState :=
  (g.getTriangle r c).map fun t => t.getSideState s

/-- setSideAt preserves the row count. -/
theorem TriangularGrid.getRowCount_setSideAt (g : TriangularGrid) (r c : Nat)
    (s : Side) (v : SideState) :
    (g.setSideAt r c s v).getRowCount = g.getRowCount := by
  unfold TriangularGrid.setSideAt
  cases hrow : g.rows[r]? with
  | none => rfl
  | some row =>
    dsimp only
    cases hc : row[c]? with
    | none => rfl
    | some t => simp [TriangularGrid.getRowCount]

/-- setSideAt preserves every row length. -/
theorem TriangularGrid.getRowLength_setSideAt (g : TriangularGrid) (r c : Nat)
    (s : Side) (v : SideState) (r' : Nat) :
    (g.setSideAt r c s v).getRowLength r' = g.getRowLength r' := by
  unfold TriangularGrid.setSideAt
  cases hrow : g.rows[r]? with
  | none => rfl
  | some row =>
    dsimp only
    cases hc : row[c]? with
    | none => rfl
    | some t =>
      show TriangularGrid.getRowLength ⟨g.rows.set r (row.set c (t.setSideRaw s v))⟩ r'
        = g.getRowLength r'
      unfold TriangularGrid.getRowLength
      rcases eq_or_ne r r' with rfl | hne
      · rw [show (⟨g.rows.set r (row.set c (t.setSideRaw s v))⟩ :
            TriangularGrid).rows = g.rows.set r (row.set c (t.setSideRaw s v)) from rfl,
          List.getElem?_set_eq_of_lt _ (List.getElem?_eq_some.mp hrow).1, hrow]
        simp
      · rw [show (⟨g.rows.set r (row.set c (t.setSideRaw s v))⟩ :
            TriangularGrid).rows = g.rows.set r (row.set c (t.setSideRaw s v)) from rfl,
          List.getElem?_set_ne hne]

/-- The triangle-level effect of setSideAt. -/
theorem TriangularGrid.getTriangle_setSideAt (g : TriangularGrid) (r c : Nat)
    (s : Side) (v : SideState) (r' c' : Nat) :
    (g.setSideAt r c s v).getTriangle r' c' =
      if r' = r ∧ c' = c then (g.getTriangle r c).map fun t => t.setSideRaw s v
      else g.getTriangle r' c' := by
  unfold TriangularGrid.setSideAt
  cases hrow : g.rows[r]? with
  | none =>
    dsimp only
    split
    · next heq =>
      obtain ⟨rfl, rfl⟩ := heq
      simp [TriangularGrid.getTriangle, hrow]
    · rfl
  | some row =>
    dsimp only
    cases hc : row[c]? with
    | none =>
      dsimp only
      split
      · next heq =>
        obtain ⟨rfl, rfl⟩ := heq
        simp [TriangularGrid.getTriangle, hrow, hc]
      · rfl
    | some t =>
      show TriangularGrid.getTriangle ⟨g.rows.set r (row.set c (t.setSideRaw s v))⟩ r' c' = _
      unfold TriangularGrid.getTriangle
      dsimp only
      rcases eq_or_ne r' r with rfl | hner
      · rw [List.getElem?_set_eq_of_lt _ (List.getElem?_eq_some.mp hrow).1, Option.some_bind]
        rcases eq_or_ne c' c with rfl | hnec
        · rw [List.getElem?_set_eq_of_lt _ (List.getElem?_eq_some.mp hc).1]
          simp [hrow, hc]
        · rw [List.getElem?_set_ne (Ne.symm hnec)]
          simp [hrow, hnec]
      · rw [List.getElem?_set_ne (Ne.symm hner)]
        simp [hner]

/-- setSideAt does not change the neighbor wiring. -/
theorem TriangularGrid.neighborCoords_setSideAt (g : TriangularGrid) (r c : Nat)
    (s : Side) (v : SideState) (r' c' : Nat) (s' : Side) :
    (g.setSideAt r c s v).neighborCoords r' c' s' = g.neighborCoords r' c' s' := by
  cases s' <;>
    simp only [TriangularGrid.neighborCoords, TriangularGrid.getTriangle_setSideAt,
      TriangularGrid.getRowLength_setSideAt, TriangularGrid.getRowCount_setSideAt] <;>
    · split
      · next heq =>
        obtain ⟨rfl, rfl⟩ := heq
        cases hgt : g.getTriangle r' c' <;>
          simp [hgt, Triangle.setSideRaw]
      · rfl

/-- The side-value effect of setSideAt. -/
theorem TriangularGrid.sideStateAt_setSideAt (g : TriangularGrid) (r c : Nat)
    (s : Side) (v : SideState) (r' c' : Nat) (s' : Side) :
    (g.setSideAt r c s v).sideStateAt r' c' s' =
      if r' = r ∧ c' = c ∧ s' = s then (g.getTriangle r c).map fun _ => v
      else g.sideStateAt r' c' s' := by
  unfold TriangularGrid.sideStateAt
  rw [TriangularGrid.getTriangle_setSideAt]
  by_cases h1 : r' = r ∧ c' = c
  · obtain ⟨rfl, rfl⟩ := h1
    rw [if_pos ⟨rfl, rfl⟩]
    by_cases h2 : s' = s
    · subst h2
      rw [if_pos ⟨rfl, rfl, rfl⟩]
      cases hgt : g.getTriangle r' c' <;>
        simp [Triangle.setSideRaw, Triangle.getSideState, SideStates.get_set]
    · rw [if_neg (by tauto)]
      cases hgt : g.getTriangle r' c' <;>
        simp [Triangle.setSideRaw, Triangle.getSideState, SideStates.get_set, h2]
  · rw [if_neg h1, if_neg (by tauto)]

/-- A stored triangle means the row index is in range. -/
theorem TriangularGrid.lt_getRowCount_of_getTriangle (g : TriangularGrid)
    {r c : Nat} {t : Triangle} (h : g.getTriangle r c = some t) :
    r < g.getRowCount := by
  unfold TriangularGrid.getTriangle at h
  cases hrow : g.rows[r]? with
  | none => rw [hrow] at h; simp at h
  | some row => exact (List.getElem?_eq_some.mp hrow).1

/-- A stored triangle means the column index is in range. -/
theorem TriangularGrid.lt_getRowLength_of_getTriangle (g : TriangularGrid)
    {r c : Nat} {t : Triangle} (h : g.getTriangle r c = some t) :
    c < g.getRowLength r := by
  rw [← TriangularGrid.getTriangle_isSome_iff]
  simp [h]

/-- The source triangle of a neighbor link exists. -/
theorem TriangularGrid.getTriangle_isSome_of_neighborCoords (g : TriangularGrid)
    {r c : Nat} {s : Side} {nr nc : Nat}
    (h : g.neighborCoords r c s = some (nr, nc)) :
    (g.getTriangle r c).isSome := by
  cases hgt : g.getTriangle r c with
  | none => cases s <;> rw [TriangularGrid.neighborCoords, hgt] at h <;> simp at h
  | some t => rfl

/-- All grids built by this repository satisfy the construction convention
for pointing direction: pointsUp holds exactly when row + col is even
(rowStartsUp = row mod 2 == 0, alternating along the row). -/
def PointsUpCoherent (g : TriangularGrid) : Prop :=
  ∀ r c t, g.getTriangle r c = some t → (t.pointsUp = true ↔ (r + c) % 2 = 0)

/-- The neighbor relation is symmetric on pointsUp-coherent grids, and the
side seen from the neighbor is getNeighborCorrespondingSide. -/
theorem TriangularGrid.neighborCoords_symm (g : TriangularGrid)
    (hcoh : PointsUpCoherent g) {r c : Nat} {s : Side} {nr nc : Nat}
    (h : g.neighborCoords r c s = some (nr, nc)) :
    g.neighborCoords nr nc (getNeighborCorrespondingSide s) = some (r, c) := by
  obtain ⟨t, htsrc⟩ := Option.isSome_iff_exists.mp
    (g.getTriangle_isSome_of_neighborCoords h)
  obtain ⟨nb, htdst⟩ := Option.isSome_iff_exists.mp
    (g.getTriangle_of_neighborCoords h)
  have hclen : c < g.getRowLength r := g.lt_getRowLength_of_getTriangle htsrc
  have hrcnt : r < g.getRowCount := g.lt_getRowCount_of_getTriangle htsrc
  cases s with
  | left =>
    rw [TriangularGrid.neighborCoords, htsrc, Option.some_bind] at h
    split at h
    · next hc =>
      cases h
      rw [getNeighborCorrespondingSide, TriangularGrid.neighborCoords, htdst,
        Option.some_bind, if_pos (by omega)]
      congr 2
      omega
    · simp at h
  | right =>
    rw [TriangularGrid.neighborCoords, htsrc, Option.some_bind] at h
    split at h
    · next hc =>
      cases h
      rw [getNeighborCorrespondingSide, TriangularGrid.neighborCoords, htdst,
        Option.some_bind, if_pos (by omega)]
      simp
    · simp at h
  | third =>
    rw [TriangularGrid.neighborCoords, htsrc, Option.some_bind] at h
    by_cases hup : t.pointsUp = true
    · rw [if_pos hup] at h
      split at h
      · next hcond =>
        cases h
        have hpar : (r + c) % 2 = 0 := (hcoh r c t htsrc).mp hup
        have hnbup : ¬(nb.pointsUp = true) := by
          rw [hcoh (r + 1) c nb htdst]
          omega
        rw [getNeighborCorrespondingSide, TriangularGrid.neighborCoords, htdst,
          Option.some_bind, if_neg hnbup,
          if_pos (by refine ⟨by omega, ?_⟩; simpa using hclen)]
        simp
      · simp at h
    · rw [if_neg hup] at h
      split at h
      · next hcond =>
        cases h
        have hpar : ¬((r + c) % 2 = 0) := fun hp => hup ((hcoh r c t htsrc).mpr hp)
        have hnbup : nb.pointsUp = true := by
          rw [hcoh (r - 1) c nb htdst]
          omega
        have hcl : c < g.getRowLength (r - 1 + 1) := by
          rw [show r - 1 + 1 = r by omega]
          exact hclen
        rw [getNeighborCorrespondingSide, TriangularGrid.neighborCoords, htdst,
          Option.some_bind, if_pos hnbup, if_pos (by exact ⟨by omega, hcl⟩)]
        congr 2
        omega
      · simp at h

/-- Triangle.setSideState with updateNeighbor = true, lifted to the grid:
write the side of the triangle at (r, c), then write the corresponding side
of the neighbor across it (the recursive call with updateNeighbor = false).
Valid side names only: the Side type has no invalid value, so the JS
hasOwnProperty guard is always passed. -/
def TriangularGrid.setSideState (g : TriangularGrid) (r c : Nat) (s : Side)
    (v : SideState) : TriangularGrid :=
  match g.neighborCoords r c s with
  | none => g.setSideAt r c s v
  | some (nr, nc) =>
    (g.setSideAt r c s v).setSideAt nr nc (getNeighborCorrespondingSide s) v

/-- getNeighborCorrespondingSide is an involution. -/
theorem corr_corr (s : Side) :
    getNeighborCorrespondingSide (getNeighborCorrespondingSide s) = s := by
  cases s <;> rfl

/-- A neighbor is never the triangle itself. -/
theorem TriangularGrid.neighborCoords_ne_self (g : TriangularGrid)
    {r c : Nat} {s : Side} {nr nc : Nat}
    (h : g.neighborCoords r c s = some (nr, nc)) :
    ¬(nr = r ∧ nc = c) := by
  obtain ⟨t, htsrc⟩ := Option.isSome_iff_exists.mp
    (g.getTriangle_isSome_of_neighborCoords h)
  cases s <;> rw [TriangularGrid.neighborCoords, htsrc, Option.some_bind] at h
  · split at h
    · cases h; omega
    · simp at h
  · split at h
    · cases h; omega
    · simp at h
  · split at h <;> split at h <;> first
      | (cases h; omega)
      | simp at h

/-- setSideAt preserves pointsUp coherence. -/
theorem PointsUpCoherent.setSideAt {g : TriangularGrid}
    (hcoh : PointsUpCoherent g) (r c : Nat) (s : Side) (v : SideState) :
    PointsUpCoherent (g.setSideAt r c s v) := by
  intro r' c' t' h'
  rw [TriangularGrid.getTriangle_setSideAt] at h'
  split at h'
  · next heq =>
    obtain ⟨rfl, rfl⟩ := heq
    obtain ⟨t, ht, rfl⟩ := Option.map_eq_some'.mp h'
    rw [Triangle.setSideRaw_pointsUp]
    exact hcoh r' c' t ht
  · exact hcoh r' c' t' h'

/-- setSideState preserves pointsUp coherence. -/
theorem PointsUpCoherent.setSideState {g : TriangularGrid}
    (hcoh : PointsUpCoherent g) (r c : Nat) (s : Side) (v : SideState) :
    PointsUpCoherent (g.setSideState r c s v) := by
  unfold TriangularGrid.setSideState
  cases hnb : g.neighborCoords r c s with
  | none => exact hcoh.setSideAt r c s v
  | some p => exact (hcoh.setSideAt r c s v).setSideAt p.1 p.2 _ v

/-- setSideState does not change the neighbor wiring. -/
theorem TriangularGrid.neighborCoords_setSideState (g : TriangularGrid)
    (r c : Nat) (s : Side) (v : SideState) (r' c' : Nat) (s' : Side) :
    (g.setSideState r c s v).neighborCoords r' c' s' = g.neighborCoords r' c' s' := by
  unfold TriangularGrid.setSideState
  cases hnb : g.neighborCoords r c s with
  | none => exact g.neighborCoords_setSideAt r c s v r' c' s'
  | some p =>
    rw [TriangularGrid.neighborCoords_setSideAt, TriangularGrid.neighborCoords_setSideAt]

/-- The edge-symmetry invariant: the two views of every internal edge agree.
This is the sideStateAt phrasing; both triangles exist whenever the
neighbor link does, so it coincides with the triangle-level phrasing of the
specification. -/
def EdgeSymmetric (g : TriangularGrid) : Prop :=
  ∀ r c s nr nc, g.neighborCoords r c s = some (nr, nc) →
    g.sideStateAt r c s = g.sideStateAt nr nc (getNeighborCorrespondingSide s)

/-- getNeighborCorrespondingSide is injective. -/
theorem corr_inj {a b : Side}
    (h : getNeighborCorrespondingSide a = getNeighborCorrespondingSide b) : a = b := by
  cases a <;> cases b <;> first | rfl | cases h

/-- One propagating setSideState call keeps the grid edge-symmetric. -/
theorem EdgeSymmetric.preserved_setSideState {g : TriangularGrid}
    (hcoh : PointsUpCoherent g) (hsym : EdgeSymmetric g)
    (r c : Nat) (s : Side) (v : SideState) :
    EdgeSymmetric (g.setSideState r c s v) := by
  intro r' c' s' nr' nc' hnbc'
  rw [TriangularGrid.neighborCoords_setSideState] at hnbc'
  cases hnb : g.neighborCoords r c s with
  | none =>
    unfold TriangularGrid.setSideState
    rw [hnb]
    dsimp only
    rw [TriangularGrid.sideStateAt_setSideAt, TriangularGrid.sideStateAt_setSideAt]
    by_cases hA : r' = r ∧ c' = c ∧ s' = s
    · exfalso
      obtain ⟨rfl, rfl, rfl⟩ := hA
      rw [hnb] at hnbc'
      simp at hnbc'
    · rw [if_neg hA]
      by_cases hB : nr' = r ∧ nc' = c ∧ getNeighborCorrespondingSide s' = s
      · exfalso
        obtain ⟨rfl, rfl, hBs⟩ := hB
        have hs2 := g.neighborCoords_symm hcoh hnbc'
        rw [hBs, hnb] at hs2
        simp at hs2
      · rw [if_neg hB]
        exact hsym r' c' s' nr' nc' hnbc'
  | some p =>
    obtain ⟨nr2, nc2⟩ := p
    have hne2 : ¬(nr2 = r ∧ nc2 = c) := g.neighborCoords_ne_self hnb
    have hsymm2 : g.neighborCoords nr2 nc2 (getNeighborCorrespondingSide s)
        = some (r, c) := g.neighborCoords_symm hcoh hnb
    have hsrc : (g.getTriangle r c).isSome :=
      g.getTriangle_isSome_of_neighborCoords hnb
    have hdst : (g.getTriangle nr2 nc2).isSome :=
      g.getTriangle_of_neighborCoords hnb
    have hval : ∀ x y u, (g.setSideState r c s v).sideStateAt x y u =
        if x = nr2 ∧ y = nc2 ∧ u = getNeighborCorrespondingSide s then some v
        else if x = r ∧ y = c ∧ u = s then some v
        else g.sideStateAt x y u := by
      intro x y u
      unfold TriangularGrid.setSideState
      rw [hnb]
      dsimp only
      rw [TriangularGrid.sideStateAt_setSideAt]
      by_cases h1 : x = nr2 ∧ y = nc2 ∧ u = getNeighborCorrespondingSide s
      · rw [if_pos h1, if_pos h1, TriangularGrid.getTriangle_setSideAt, if_neg hne2]
        obtain ⟨nbt, hnbt⟩ := Option.isSome_iff_exists.mp hdst
        rw [hnbt]
        rfl
      · rw [if_neg h1, if_neg h1, TriangularGrid.sideStateAt_setSideAt]
        by_cases h2 : x = r ∧ y = c ∧ u = s
        · rw [if_pos h2, if_pos h2]
          obtain ⟨st, hst⟩ := Option.isSome_iff_exists.mp hsrc
          rw [hst]
          rfl
        · rw [if_neg h2, if_neg h2]
    rw [hval, hval]
    by_cases hc1 : r' = nr2 ∧ c' = nc2 ∧ s' = getNeighborCorrespondingSide s
    · rw [if_pos hc1]
      obtain ⟨rfl, rfl, rfl⟩ := hc1
      rw [hsymm2] at hnbc'
      simp only [Option.some.injEq, Prod.mk.injEq] at hnbc'
      obtain ⟨rfl, rfl⟩ := hnbc'
      rw [corr_corr]
      rw [if_neg (fun hx => hne2 ⟨hx.1.symm, hx.2.1.symm⟩), if_pos ⟨rfl, rfl, rfl⟩]
    · rw [if_neg hc1]
      by_cases hc2 : r' = r ∧ c' = c ∧ s' = s
      · obtain ⟨rfl, rfl, rfl⟩ := hc2
        rw [if_pos ⟨rfl, rfl, rfl⟩]
        rw [hnb] at hnbc'
        simp only [Option.some.injEq, Prod.mk.injEq] at hnbc'
        obtain ⟨rfl, rfl⟩ := hnbc'
        rw [if_pos ⟨rfl, rfl, rfl⟩]
      · have hp1 : ¬(nr' = nr2 ∧ nc' = nc2 ∧
            getNeighborCorrespondingSide s' = getNeighborCorrespondingSide s) := by
          rintro ⟨he1, he2, he3⟩
          have hss : s' = s := corr_inj he3
          subst hss
          have := g.neighborCoords_symm hcoh hnbc'
          rw [he1, he2] at hnbc'
          have hdet : (r', c') = (r, c) := by
            have h2 := g.neighborCoords_symm hcoh hnbc'
            rw [hsymm2] at h2
            exact (Option.some.inj h2).symm
          have hdet2 := Prod.mk.inj hdet
          exact hc2 ⟨hdet2.1, hdet2.2, rfl⟩
        have hp2 : ¬(nr' = r ∧ nc' = c ∧ getNeighborCorrespondingSide s' = s) := by
          rintro ⟨he1, he2, he3⟩
          have hsym3 := g.neighborCoords_symm hcoh hnbc'
          rw [he1, he2, he3] at hsym3
          rw [hnb] at hsym3
          have hdet := Prod.mk.inj (Option.some.inj hsym3).symm
          have hss : s' = getNeighborCorrespondingSide s := by
            have := congrArg getNeighborCorrespondingSide he3
            rw [corr_corr] at this
            exact this
          exact hc1 ⟨hdet.1, hdet.2, hss⟩
        rw [if_neg hc2, if_neg hp1, if_neg hp2]
        exact hsym r' c' s' nr' nc' hnbc'

/-- One setSideState invocation, addressed by the coordinates of the
triangle on which the JS method is called. -/
structure SideCall where
  row : Nat
  col : Nat
  side : Side
  state : SideState
deriving DecidableEq

/-- A sequence of propagating setSideState calls, applied left to right. -/
def TriangularGrid.applyCalls (g : TriangularGrid) : List SideCall → TriangularGrid
  | [] => g
  | call :: rest =>
    (g.setSideState call.row call.col call.side call.state).applyCalls rest

/-- C4: on a grid with the construction pointing convention and edge-consistent
side states, any sequence of propagating setSideState calls anywhere in the
grid leaves every pair of triangles A, B that are neighbors across a side S
with A.getSideState S equal to B.getSideState (correspondingSide S), where
correspondingSide swaps left and right and fixes third. -/
theorem setSideState_edge_symmetry_invariant (g : TriangularGrid)
    (calls : List SideCall) (hcoh : PointsUpCoherent g) (hsym : EdgeSymmetric g) :
    ∀ r c s nr nc t nb,
      (g.applyCalls calls).getTriangle r c = some t →
      (g.applyCalls calls).neighborCoords r c s = some (nr, nc) →
      (g.applyCalls calls).getTriangle nr nc = some nb →
      t.getSideState s = nb.getSideState (getNeighborCorrespondingSide s) := by
  have main : EdgeSymmetric (g.applyCalls calls) := by
    induction calls generalizing g with
    | nil => exact hsym
    | cons call rest ih =>
      exact ih _ (hcoh.setSideState call.row call.col call.side call.state)
        (hsym.preserved_setSideState hcoh call.row call.col call.side call.state)
  intro r c s nr nc t nb ht hnbc hnb
  have := main r c s nr nc hnbc
  unfold TriangularGrid.sideStateAt at this
  rw [ht, hnb] at this
  exact Option.some.inj this

/-- A bounded boolean check implying PointsUpCoherent. -/
theorem pointsUpCoherent_of_check (g : TriangularGrid)
    (h : ((List.range g.getRowCount).all fun r =>
        (List.range (g.getRowLength r)).all fun c =>
          match g.getTriangle r c with
          | some t => t.pointsUp == decide ((r + c) % 2 = 0)
          | none => true) = true) : PointsUpCoherent g := by
  intro r c t ht
  have hr : r < g.getRowCount := g.lt_getRowCount_of_getTriangle ht
  have hc : c < g.getRowLength r := g.lt_getRowLength_of_getTriangle ht
  have h1 := List.all_eq_true.mp h r (List.mem_range.mpr hr)
  have h2 := List.all_eq_true.mp h1 c (List.mem_range.mpr hc)
  rw [ht] at h2
  have h3 : t.pointsUp = decide ((r + c) % 2 = 0) := by
    exact beq_iff_eq.mp h2
  rw [h3]
  simp

/-- A bounded boolean check implying EdgeSymmetric. -/
theorem edgeSymmetric_of_check (g : TriangularGrid)
    (h : ((List.range g.getRowCount).all fun r =>
        (List.range (g.getRowLength r)).all fun c =>
          [Side.left, Side.right, Side.third].all fun s =>
            match g.neighborCoords r c s with
            | some (nr, nc) =>
              g.sideStateAt r c s == g.sideStateAt nr nc (getNeighborCorrespondingSide s)
            | none => true) = true) : EdgeSymmetric g := by
  intro r c s nr nc hnbc
  obtain ⟨t, ht⟩ := Option.isSome_iff_exists.mp
    (g.getTriangle_isSome_of_neighborCoords hnbc)
  have hr : r < g.getRowCount := g.lt_getRowCount_of_getTriangle ht
  have hc : c < g.getRowLength r := g.lt_getRowLength_of_getTriangle ht
  have h1 := List.all_eq_true.mp h r (List.mem_range.mpr hr)
  have h2 := List.all_eq_true.mp h1 c (List.mem_range.mpr hc)
  have h3 := List.all_eq_true.mp h2 s (by cases s <;> simp)
  rw [hnbc] at h3
  exact beq_iff_eq.mp h3

/-- Witness for C4: a concrete two-call sequence on the demo grid. -/
theorem setSideState_edge_symmetry_invariant_witness :
    (demoGrid.applyCalls [⟨0, 0, Side.right, SideState.mirror⟩,
        ⟨0, 1, Side.left, SideState.empty⟩]).getTriangle 0 0
      = some ⟨true, ⟨SideState.mirror, SideState.empty, SideState.mirror⟩⟩ ∧
    (demoGrid.applyCalls [⟨0, 0, Side.right, SideState.mirror⟩,
        ⟨0, 1, Side.left, SideState.empty⟩]).getTriangle 0 1
      = some ⟨false, ⟨SideState.empty, SideState.mirror, SideState.mirror⟩⟩ ∧
    Triangle.getSideState ⟨true, ⟨SideState.mirror, SideState.empty, SideState.mirror⟩⟩
        Side.right
      = Triangle.getSideState ⟨false, ⟨SideState.empty, SideState.mirror, SideState.mirror⟩⟩
        (getNeighborCorrespondingSide Side.right) :=
  ⟨rfl, rfl,
    setSideState_edge_symmetry_invariant demoGrid
      [⟨0, 0, Side.right, SideState.mirror⟩, ⟨0, 1, Side.left, SideState.empty⟩]
      (pointsUpCoherent_of_check demoGrid (by decide))
      (edgeSymmetric_of_check demoGrid (by decide))
      0 0 Side.right 0 1
      ⟨true, ⟨SideState.mirror, SideState.empty, SideState.mirror⟩⟩
      ⟨false, ⟨SideState.empty, SideState.mirror, SideState.mirror⟩⟩
      (by decide) (by decide) (by decide)⟩

/-- JS whitespace test for trim and the field splitter regex; map strings
use spaces and newlines only. -/
def isWs (ch : Char) : Bool :=
  ch.isWhitespace

/-- JS String.prototype.split with a single-character separator: every
occurrence separates, empty pieces are kept, and the empty string yields
one empty piece. -/
def splitOnChar (sep : Char) : List Char → List (List Char)
  | [] => [[]]
  | c :: rest =>
    if c = sep then [] :: splitOnChar sep rest
    else
      match splitOnChar sep rest with
      | [] => [[c]]
      | t :: ts => (c :: t) :: ts

/-- JS String.prototype.split on the whitespace-run regex: maximal runs of
whitespace separate, the string before the first run and after the last run
are kept even when empty, and the empty string yields one empty piece. -/
def splitWsRuns : List Char → List (List Char)
  | [] => [[]]
  | c :: rest =>
    if isWs c then
      match rest with
      | [] => [[], []]
      | d :: _ => if isWs d then splitWsRuns rest else [] :: splitWsRuns rest
    else
      match splitWsRuns rest with
      | [] => [[c]]
      | t :: ts => (c :: t) :: ts

/-- JS String.prototype.trim. -/
def trimChars (cs : List Char) : List Char :=
  ((cs.dropWhile fun ch => isWs ch).reverse.dropWhile fun ch => isWs ch).reverse

/-- splitOnChar never returns an empty piece list. -/
theorem splitOnChar_ne_nil (sep : Char) (cs : List Char) :
    splitOnChar sep cs ≠ [] := by
  cases cs with
  | nil => simp [splitOnChar]
  | cons c rest =>
    simp only [splitOnChar]
    split
    · simp
    · split <;> simp

/-- splitWsRuns never returns an empty piece list. -/
theorem splitWsRuns_ne_nil (cs : List Char) : splitWsRuns cs ≠ [] := by
  induction cs with
  | nil => simp [splitWsRuns]
  | cons c rest ih =>
    simp only [splitWsRuns]
    split
    · cases rest with
      | nil => simp
      | cons d tl =>
        dsimp only
        split
        · exact ih
        · simp
    · split <;> simp

/-- Array.prototype.join with a separator string. -/
def joinSep (sep : List Char) : List (List Char) → List Char
  | [] => []
  | [l] => l
  | l :: rest => l ++ sep ++ joinSep sep rest

/-- splitOnChar recovers a separator-free piece. -/
theorem splitOnChar_no_sep (sep : Char) (l : List Char)
    (h : ∀ ch ∈ l, ch ≠ sep) : splitOnChar sep l = [l] := by
  induction l with
  | nil => rfl
  | cons c rest ih =>
    simp only [splitOnChar]
    rw [if_neg (h c (by simp))]
    rw [ih fun ch hch => h ch (by simp [hch])]

/-- splitOnChar peels one separator-free piece before a separator. -/
theorem splitOnChar_append (sep : Char) (l cs : List Char)
    (h : ∀ ch ∈ l, ch ≠ sep) :
    splitOnChar sep (l ++ sep :: cs) = l :: splitOnChar sep cs := by
  induction l with
  | nil => simp [splitOnChar]
  | cons c rest ih =>
    simp only [List.cons_append, splitOnChar, List.append_eq]
    rw [if_neg (h c (by simp))]
    rw [ih fun ch hch => h ch (by simp [hch])]

/-- splitOnChar is a left inverse of joinSep for a single-character
separator that occurs in no piece. -/
theorem splitOnChar_joinSep (sep : Char) (lines : List (List Char))
    (hne : lines ≠ [])
    (h : ∀ l ∈ lines, ∀ ch ∈ l, ch ≠ sep) :
    splitOnChar sep (joinSep [sep] lines) = lines := by
  induction lines with
  | nil => exact absurd rfl hne
  | cons l rest ih =>
    cases rest with
    | nil => exact splitOnChar_no_sep sep l fun ch hch => h l (by simp) ch hch
    | cons l2 rest2 =>
      rw [show joinSep [sep] (l :: l2 :: rest2)
          = l ++ sep :: joinSep [sep] (l2 :: rest2) from by simp [joinSep]]
      rw [splitOnChar_append sep l _ fun ch hch => h l (by simp) ch hch]
      rw [ih (by simp) fun l' hl' ch hch => h l' (by simp [hl']) ch hch]

/-- splitWsRuns prepends a whitespace-free piece to the first piece of the
rest. -/
theorem splitWsRuns_append (t cs : List Char) (x : List Char) (xs : List (List Char))
    (ht : ∀ ch ∈ t, isWs ch = false) (hcs : splitWsRuns cs = x :: xs) :
    splitWsRuns (t ++ cs) = (t ++ x) :: xs := by
  induction t with
  | nil => simpa using hcs
  | cons c rest ih =>
    simp only [List.cons_append, splitWsRuns, List.append_eq]
    rw [if_neg (by simp [ht c (by simp)])]
    rw [ih fun ch hch => ht ch (by simp [hch])]

/-- splitWsRuns consumes a single space before a non-whitespace character. -/
theorem splitWsRuns_space (d : Char) (tl : List Char) (hd : isWs d = false) :
    splitWsRuns (' ' :: d :: tl) = [] :: splitWsRuns (d :: tl) := by
  simp only [splitWsRuns]
  rw [if_pos (show isWs ' ' = true by rfl), if_neg (by simp [hd])]

/-- splitWsRuns is a left inverse of joinSep with a single space for
nonempty whitespace-free pieces. -/
theorem splitWsRuns_joinSep (toks : List (List Char))
    (hne : toks ≠ [])
    (hnonempty : ∀ l ∈ toks, l ≠ [])
    (h : ∀ l ∈ toks, ∀ ch ∈ l, isWs ch = false) :
    splitWsRuns (joinSep [' '] toks) = toks := by
  induction toks with
  | nil => exact absurd rfl hne
  | cons l rest ih =>
    cases rest with
    | nil =>
      have h1 := splitWsRuns_append l [] [] [] (fun ch hch => h l (by simp) ch hch) rfl
      simpa [joinSep] using h1
    | cons l2 rest2 =>
      rw [show joinSep [' '] (l :: l2 :: rest2)
          = l ++ ' ' :: joinSep [' '] (l2 :: rest2) from by simp [joinSep]]
      have hrec := ih (by simp) (fun l' hl' => hnonempty l' (by simp [hl']))
        (fun l' hl' ch hch => h l' (by simp [hl']) ch hch)
      obtain ⟨suf, hsuf⟩ : ∃ suf, joinSep [' '] (l2 :: rest2) = l2 ++ suf := by
        cases rest2 with
        | nil => exact ⟨[], by simp [joinSep]⟩
        | cons l3 rest3 => exact ⟨' ' :: joinSep [' '] (l3 :: rest3), by simp [joinSep]⟩
      obtain ⟨a, b, hab⟩ := List.exists_cons_of_ne_nil (hnonempty l2 (by simp))
      have hjoin_cons : joinSep [' '] (l2 :: rest2) = a :: (b ++ suf) := by
        rw [hsuf, hab]
        simp
      have ha : isWs a = false := h l2 (by simp) a (by rw [hab]; simp)
      rw [hjoin_cons]
      have hcs := splitWsRuns_space a (b ++ suf) ha
      rw [splitWsRuns_append l (' ' :: a :: (b ++ suf)) []
        (splitWsRuns (a :: (b ++ suf))) (fun ch hch => h l (by simp) ch hch) hcs]
      rw [List.append_nil]
      rw [show a :: (b ++ suf) = joinSep [' '] (l2 :: rest2) from hjoin_cons.symm, hrec]

/-- dropWhile is the identity when the head does not satisfy the predicate. -/
theorem dropWhile_eq_self_of_head (p : Char → Bool) (cs : List Char)
    (h : ∀ d, cs.head? = some d → p d = false) : cs.dropWhile p = cs := by
  cases cs with
  | nil => rfl
  | cons c rest =>
    rw [List.dropWhile_cons_of_neg]
    simp [h c rfl]

/-- trim is the identity on a string with non-whitespace first and last
characters. -/
theorem trimChars_eq_self (cs : List Char)
    (h1 : ∀ d, cs.head? = some d → isWs d = false)
    (h2 : ∀ d, cs.getLast? = some d → isWs d = false) : trimChars cs = cs := by
  unfold trimChars
  rw [dropWhile_eq_self_of_head _ cs h1]
  rw [dropWhile_eq_self_of_head _ cs.reverse (by
    intro d hd
    exact h2 d (by rwa [List.head?_reverse] at hd))]
  exact List.reverse_reverse cs

/-- The side character written by exportToMap ("e" / "m"). -/
def sideChar : SideState → Char
  | SideState.empty => 'e'
  | SideState.mirror => 'm'

/-- The sideCharMap lookup of initializeFromMap: the field "e" is empty,
"m" is mirror, and any other field falls back to empty (the JS
sideCharMap[x] || SideType.EMPTY). -/
def sideCharMap (cs : List Char) : SideState :=
  if cs = ['e'] then SideState.empty
  else if cs = ['m'] then SideState.mirror
  else SideState.empty

/-- One triangle token L|R|T of exportToMap. -/
def exportTriangle (t : Triangle) : List Char :=
  [sideChar (t.getSideState Side.left), '|',
   sideChar (t.getSideState Side.right), '|',
   sideChar (t.getSideState Side.third)]

/-- TriangularGrid.exportToMap: one line per row, triangles joined by a
space, rows joined by a newline. -/
def TriangularGrid.exportToMap (g : TriangularGrid) : List Char :=
  joinSep ['\n'] (g.rows.map fun row => joinSep [' '] (row.map exportTriangle))

/-- The pointing direction assigned at construction: even rows start with an
up triangle, odd rows with a down one, alternating along the row. -/
def pointsUpFor (row col : Nat) : Bool :=
  if row % 2 = 0 then decide (col % 2 = 0) else decide (col % 2 ≠ 0)

/-- pointsUpFor agrees with the parity of row + col. -/
theorem pointsUpFor_iff (row col : Nat) :
    pointsUpFor row col = true ↔ (row + col) % 2 = 0 := by
  unfold pointsUpFor
  split <;> simp <;> omega

/-- The data carried by the error thrown by initializeFromMap: the message
names the offending row, the offending column, and the token text. -/
structure ParseErr where
  row : Nat
  col : Nat
  tok : List Char
deriving DecidableEq

/-- The observable grid state at the moment initializeFromMap throws: the
rows pushed so far plus the triangles of the row being parsed (which are
already in the lookup map even though the row array was not pushed). -/
structure PartialGrid where
  doneRows : List (List Triangle)
  currentRow : List Triangle
deriving DecidableEq

/-- Triangle lookup on the partial state (the JS this.triangles map holds
completed rows plus the current partial row). -/
def PartialGrid.getTriangle (pg : PartialGrid) (r c : Nat) : Option Triangle :=
  if r = pg.doneRows.length then pg.currentRow[c]?
  else pg.doneRows[r]?.bind fun row => row[c]?

/-- Row count visible on the partial state (the JS this.rows array holds
only completed rows). -/
def PartialGrid.getRowCount (pg : PartialGrid) : Nat :=
  pg.doneRows.length

/-- Parse one triangle token: it must split into exactly 3 pipe-delimited
fields, otherwise the load throws naming the row and column. -/
def parseTriangleTok (row col : Nat) (tok : List Char) : Except ParseErr Triangle :=
  if (splitOnChar '|' tok).length = 3 then
    Except.ok ⟨pointsUpFor row col,
      ⟨sideCharMap ((splitOnChar '|' tok).getD 0 []),
       sideCharMap ((splitOnChar '|' tok).getD 1 []),
       sideCharMap ((splitOnChar '|' tok).getD 2 [])⟩⟩
  else Except.error ⟨row, col, tok⟩

/-- Parse the tokens of one row starting at a column index; an error carries
the triangles already created for this row. -/
def parseRowTokens (row : Nat) : Nat → List (List Char) →
    Except (ParseErr × List Triangle) (List Triangle)
  | _, [] => Except.ok []
  | col, tok :: rest =>
    match parseTriangleTok row col tok with
    | Except.error e => Except.error (e, [])
    | Except.ok t =>
      match parseRowTokens row (col + 1) rest with
      | Except.error (e, part) => Except.error (e, t :: part)
      | Except.ok ts => Except.ok (t :: ts)

/-- Parse all lines; an error carries the partial grid state at the throw. -/
def parseLines : Nat → List (List Char) →
    Except (ParseErr × PartialGrid) (List (List Triangle))
  | _, [] => Except.ok []
  | row, line :: rest =>
    match parseRowTokens row 0 (splitWsRuns (trimChars line)) with
    | Except.error (e, part) => Except.error (e, ⟨[], part⟩)
    | Except.ok ts =>
      match parseLines (row + 1) rest with
      | Except.error (e, pg) => Except.error (e, ⟨ts :: pg.doneRows, pg.currentRow⟩)
      | Except.ok rows => Except.ok (ts :: rows)

/-- One edge reconciliation step of the second pass of initializeFromMap:
for the side s of the triangle at (r, c), if a neighbor exists, a non-empty
state on either side of the edge wins over empty, and both views are set to
the winning state with propagation disabled. -/
def TriangularGrid.reconcileStep (g : TriangularGrid) (r c : Nat) (s : Side) :
    TriangularGrid :=
  match g.getTriangle r c with
  | none => g
  | some t =>
    match g.neighborCoords r c s with
    | none => g
    | some (nr, nc) =>
      match g.getTriangle nr nc with
      | none => g
      | some nb =>
        let currentState := t.getSideState s
        let neighborState := nb.getSideState (getNeighborCorrespondingSide s)
        let finalState :=
          if currentState ≠ SideState.empty ∧ neighborState = SideState.empty then
            currentState
          else if currentState = SideState.empty ∧ neighborState ≠ SideState.empty then
            neighborState
          else currentState
        (g.setSideAt r c s finalState).setSideAt nr nc
          (getNeighborCorrespondingSide s) finalState

/-- The three reconciliation steps for one triangle, in the JS side order. -/
def TriangularGrid.reconcileTri (g : TriangularGrid) (r c : Nat) : TriangularGrid :=
  ((g.reconcileStep r c Side.left).reconcileStep r c Side.right).reconcileStep
    r c Side.third

/-- The full second pass of initializeFromMap over all rows and columns.
setSideAt never changes the grid shape, so iterating over the ranges of the
initial shape matches the JS loops over the live arrays. -/
def TriangularGrid.reconcileAll (g : TriangularGrid) : TriangularGrid :=
  (List.range g.getRowCount).foldl (fun g1 r =>
    (List.range (g1.getRowLength r)).foldl (fun g2 c => g2.reconcileTri r c) g1) g

/-- TriangularGrid.initializeFromMap.  The receiver is cleared at entry and
never read, so the result is independent of it; a parse error carries the
partial state left behind by the aborted load. -/
def TriangularGrid.initializeFromMap (_g : TriangularGrid) (mapString : List Char) :
    Except (ParseErr × PartialGrid) TriangularGrid :=
  match parseLines 0 (splitOnChar '\n' (trimChars mapString)) with
  | Except.error e => Except.error e
  | Except.ok rows => Except.ok (TriangularGrid.reconcileAll ⟨rows⟩)

/-- TriangularGrid.initGrid: a fresh blank grid, all sides empty, pointing
directions from the construction convention. -/
def TriangularGrid.initGrid (numRows trianglesPerRow : Nat) : TriangularGrid :=
  ⟨(List.range numRows).map fun r => (List.range trianglesPerRow).map fun c =>
    ⟨pointsUpFor r c, ⟨SideState.empty, SideState.empty, SideState.empty⟩⟩⟩

/-- A token is well-formed when it has exactly 3 pipe-delimited fields. -/
def goodTok (tok : List Char) : Prop :=
  (splitOnChar '|' tok).length = 3

instance (tok : List Char) : Decidable (goodTok tok) := by
  unfold goodTok
  infer_instance

/-- The token list of one line, as the first pass computes it. -/
def lineToks (line : List Char) : List (List Char) :=
  splitWsRuns (trimChars line)

theorem parseTriangleTok_eq_error (row col : Nat) (tok : List Char)
    (h : ¬ goodTok tok) :
    parseTriangleTok row col tok = Except.error ⟨row, col, tok⟩ := by
  unfold parseTriangleTok
  unfold goodTok at h
  rw [if_neg h]

theorem parseTriangleTok_eq_ok (row col : Nat) (tok : List Char)
    (h : goodTok tok) :
    parseTriangleTok row col tok = Except.ok ⟨pointsUpFor row col,
      ⟨sideCharMap ((splitOnChar '|' tok).getD 0 []),
       sideCharMap ((splitOnChar '|' tok).getD 1 []),
       sideCharMap ((splitOnChar '|' tok).getD 2 [])⟩⟩ := by
  unfold parseTriangleTok
  unfold goodTok at h
  rw [if_pos h]

/-- Parsing a row with a malformed token fails at the first such token. -/
theorem parseRowTokens_error_spec (row : Nat) (toks : List (List Char)) :
    ∀ col : Nat,
    (∃ (i : Nat) (tok : List Char), toks[i]? = some tok ∧ ¬ goodTok tok) →
    ∃ (i : Nat) (tok : List Char) (part : List Triangle),
      toks[i]? = some tok ∧ ¬ goodTok tok ∧
      (∀ (j : Nat) (tok' : List Char), toks[j]? = some tok' → j < i → goodTok tok') ∧
      parseRowTokens row col toks = Except.error (⟨row, col + i, tok⟩, part) := by
  induction toks with
  | nil =>
    intro col h
    obtain ⟨i, tok, hi, _⟩ := h
    simp at hi
  | cons tok rest ih =>
    intro col h
    by_cases hgood : goodTok tok
    · obtain ⟨t, hpt⟩ : ∃ t, parseTriangleTok row col tok = Except.ok t :=
        ⟨_, parseTriangleTok_eq_ok row col tok hgood⟩
      have hrest : ∃ (i : Nat) (tok2 : List Char), rest[i]? = some tok2 ∧ ¬ goodTok tok2 := by
        obtain ⟨i, tok2, hi, hbad2⟩ := h
        cases i with
        | zero => simp at hi; exact absurd (hi ▸ hgood) hbad2
        | succ i2 => exact ⟨i2, tok2, by simpa using hi, hbad2⟩
      obtain ⟨i2, tok2, part2, hi2, hbad2, hmin2, hres2⟩ := ih (col + 1) hrest
      refine ⟨i2 + 1, tok2, t :: part2, by simpa using hi2, hbad2, ?_, ?_⟩
      · intro j tok' hj hlt
        cases j with
        | zero => simp at hj; exact hj ▸ hgood
        | succ j2 => exact hmin2 j2 tok' (by simpa using hj) (by omega)
      · simp only [parseRowTokens, hpt, hres2]
        have : col + 1 + i2 = col + (i2 + 1) := by omega
        rw [this]
    · refine ⟨0, tok, [], by simp, hgood, by simp, ?_⟩
      simp only [parseRowTokens, parseTriangleTok_eq_error row col tok hgood]
      simp

/-- Parsing a row of well-formed tokens succeeds. -/
theorem parseRowTokens_ok_of_good (row : Nat) (toks : List (List Char)) :
    ∀ col : Nat, (∀ tok ∈ toks, goodTok tok) →
    ∃ ts, parseRowTokens row col toks = Except.ok ts := by
  induction toks with
  | nil => intro col _; exact ⟨[], rfl⟩
  | cons tok rest ih =>
    intro col h
    obtain ⟨ts, hts⟩ := ih (col + 1) fun tok' h' => h tok' (by simp [h'])
    refine ⟨(⟨pointsUpFor row col,
      ⟨sideCharMap ((splitOnChar '|' tok).getD 0 []),
       sideCharMap ((splitOnChar '|' tok).getD 1 []),
       sideCharMap ((splitOnChar '|' tok).getD 2 [])⟩⟩ : Triangle) :: ts, ?_⟩
    simp only [parseRowTokens, parseTriangleTok_eq_ok row col tok (h tok (by simp)), hts]

/-- Parsing lines with a malformed token fails at the first such token, and
the partial state holds exactly the rows fully parsed before it. -/
theorem parseLines_error_spec (lines : List (List Char)) :
    ∀ row : Nat,
    (∃ (r : Nat) (line : List Char), lines[r]? = some line ∧
      ∃ (i : Nat) (tok : List Char), (lineToks line)[i]? = some tok ∧ ¬ goodTok tok) →
    ∃ (r : Nat) (line : List Char) (i : Nat) (tok : List Char) (pg : PartialGrid),
      lines[r]? = some line ∧ (lineToks line)[i]? = some tok ∧ ¬ goodTok tok ∧
      (∀ (r' : Nat) (line' : List Char), lines[r']? = some line' → r' < r →
        ∀ tok' ∈ lineToks line', goodTok tok') ∧
      (∀ (j : Nat) (tok' : List Char), (lineToks line)[j]? = some tok' → j < i →
        goodTok tok') ∧
      pg.doneRows.length = r ∧
      parseLines row lines = Except.error (⟨row + r, i, tok⟩, pg) := by
  induction lines with
  | nil =>
    intro row h
    obtain ⟨r, line, hr, _⟩ := h
    simp at hr
  | cons line rest ih =>
    intro row h
    by_cases hline : ∃ (i : Nat) (tok : List Char),
        (lineToks line)[i]? = some tok ∧ ¬ goodTok tok
    · obtain ⟨i, tok, part, hi, hbad, hmin, hres⟩ :=
        parseRowTokens_error_spec row (lineToks line) 0 hline
      refine ⟨0, line, i, tok, ⟨[], part⟩, by simp, hi, hbad, by simp, ?_, by simp, ?_⟩
      · intro j tok' hj hlt
        exact hmin j tok' hj hlt
      · show parseLines row (line :: rest) = _
        simp only [parseLines, lineToks] at hres ⊢
        rw [hres]
        simp
    · have hall : ∀ tok ∈ lineToks line, goodTok tok := by
        intro tok htok
        by_contra hbad
        obtain ⟨i, hi⟩ := List.getElem?_of_mem htok
        exact hline ⟨i, tok, hi, hbad⟩
      obtain ⟨ts, hts⟩ := parseRowTokens_ok_of_good row (lineToks line) 0 hall
      have hrest : ∃ (r : Nat) (line2 : List Char), rest[r]? = some line2 ∧
          ∃ (i : Nat) (tok : List Char), (lineToks line2)[i]? = some tok ∧
            ¬ goodTok tok := by
        obtain ⟨r, line2, hr, hex⟩ := h
        cases r with
        | zero =>
          simp at hr
          subst hr
          exact absurd hex hline
        | succ r2 => exact ⟨r2, line2, by simpa using hr, hex⟩
      obtain ⟨r2, line2, i, tok, pg2, hr2, hi, hbad, hminr, hminc, hlen, hres2⟩ :=
        ih (row + 1) hrest
      refine ⟨r2 + 1, line2, i, tok, ⟨ts :: pg2.doneRows, pg2.currentRow⟩,
        by simpa using hr2, hi, hbad, ?_, hminc, by simp [hlen], ?_⟩
      · intro r' line' hr' hlt
        cases r' with
        | zero =>
          simp at hr'
          subst hr'
          exact hall
        | succ r3 => exact hminr r3 line' (by simpa using hr') (by omega)
      · show parseLines row (line :: rest) = _
        simp only [parseLines, lineToks] at hts hres2 ⊢
        rw [hts, hres2]
        have : row + 1 + r2 = row + (r2 + 1) := by omega
        rw [this]

/-- C8 counterexample: loading the malformed map "e|e" over a one-triangle
grid raises the parse error naming row 0, col 0, but the observable state
after the failed call (zero rows, no triangle at (0, 0)) differs from the
state before it: the load cleared the grid and did not restore it. -/
theorem initializeFromMap_not_atomic_counterexample :
    demoGrid.initializeFromMap ['e', '|', 'e']
      = Except.error (⟨0, 0, ['e', '|', 'e']⟩, ⟨[], []⟩) ∧
    PartialGrid.getRowCount ⟨[], []⟩ = 0 ∧
    demoGrid.getRowCount = 1 ∧
    PartialGrid.getTriangle ⟨[], []⟩ 0 0 = none ∧
    demoGrid.getTriangle 0 0 = some demoTriangleUp := by
  refine ⟨by rfl, rfl, rfl, by rfl, rfl⟩

/-- C8 amended: for every receiver grid and map string containing a token
that does not split into exactly 3 pipe-delimited fields, initializeFromMap
raises an error naming the row and column of the first such token; the
result is independent of the receiver (the grid is cleared at entry, so the
prior observable state is not restored), and the row count visible after the
failure equals the number of rows fully parsed before the error. -/
theorem initializeFromMap_error_spec (g : TriangularGrid) (s : List Char)
    (hbad : ∃ (r : Nat) (line : List Char),
        (splitOnChar '\n' (trimChars s))[r]? = some line ∧
        ∃ (i : Nat) (tok : List Char), (lineToks line)[i]? = some tok ∧ ¬ goodTok tok) :
    ∃ (e : ParseErr) (pg : PartialGrid),
      g.initializeFromMap s = Except.error (e, pg) ∧
      (∃ line, (splitOnChar '\n' (trimChars s))[e.row]? = some line ∧
        (lineToks line)[e.col]? = some e.tok) ∧
      ¬ goodTok e.tok ∧
      (∀ (r' : Nat) (line' : List Char),
        (splitOnChar '\n' (trimChars s))[r']? = some line' →
        ∀ (j : Nat) (tok' : List Char), (lineToks line')[j]? = some tok' →
          (r' < e.row ∨ (r' = e.row ∧ j < e.col)) → goodTok tok') ∧
      pg.getRowCount = e.row ∧
      (∀ g' : TriangularGrid, g'.initializeFromMap s = g.initializeFromMap s) := by
  obtain ⟨r, line, i, tok, pg, hr, hi, hbad2, hminr, hminc, hlen, hres⟩ :=
    parseLines_error_spec (splitOnChar '\n' (trimChars s)) 0 hbad
  rw [Nat.zero_add] at hres
  refine ⟨⟨r, i, tok⟩, pg, ?_, ⟨line, hr, hi⟩, hbad2, ?_, hlen, fun g' => rfl⟩
  · unfold TriangularGrid.initializeFromMap
    rw [hres]
  · intro r' line' hr' j tok' hj hlt
    rcases hlt with hlt | ⟨rfl, hlt⟩
    · exact hminr r' line' hr' hlt tok' (List.getElem?_mem hj)
    · rw [hr] at hr'
      cases hr'
      exact hminc j tok' hj hlt

/-- Witness for the amended C8 at the concrete map "e|e|m e|e". -/
theorem initializeFromMap_error_spec_witness :
    ∃ (e : ParseErr) (pg : PartialGrid),
      TriangularGrid.initializeFromMap demoGrid
          ['e', '|', 'e', '|', 'm', ' ', 'e', '|', 'e']
        = Except.error (e, pg) ∧
      (∃ line, (splitOnChar '\n'
          (trimChars ['e', '|', 'e', '|', 'm', ' ', 'e', '|', 'e']))[e.row]?
            = some line ∧
        (lineToks line)[e.col]? = some e.tok) ∧
      ¬ goodTok e.tok ∧
      (∀ (r' : Nat) (line' : List Char),
        (splitOnChar '\n'
          (trimChars ['e', '|', 'e', '|', 'm', ' ', 'e', '|', 'e']))[r']?
            = some line' →
        ∀ (j : Nat) (tok' : List Char), (lineToks line')[j]? = some tok' →
          (r' < e.row ∨ (r' = e.row ∧ j < e.col)) → goodTok tok') ∧
      pg.getRowCount = e.row ∧
      (∀ g' : TriangularGrid,
        g'.initializeFromMap ['e', '|', 'e', '|', 'm', ' ', 'e', '|', 'e']
          = demoGrid.initializeFromMap ['e', '|', 'e', '|', 'm', ' ', 'e', '|', 'e']) :=
  initializeFromMap_error_spec demoGrid ['e', '|', 'e', '|', 'm', ' ', 'e', '|', 'e']
    ⟨0, ['e', '|', 'e', '|', 'm', ' ', 'e', '|', 'e'], by decide,
      1, ['e', '|', 'e'], by decide, by decide⟩

/-- joinSep of a nonempty list starts with its first piece. -/
theorem joinSep_eq_append (sep : List Char) (l : List Char) (rest : List (List Char)) :
    ∃ suf, joinSep sep (l :: rest) = l ++ suf := by
  cases rest with
  | nil => exact ⟨[], by simp [joinSep]⟩
  | cons l2 rest2 => exact ⟨sep ++ joinSep sep (l2 :: rest2), by simp [joinSep]⟩

/-- joinSep of nonempty pieces is nonempty. -/
theorem joinSep_ne_nil (sep : List Char) (l : List Char) (rest : List (List Char))
    (h : l ≠ []) : joinSep sep (l :: rest) ≠ [] := by
  obtain ⟨suf, hsuf⟩ := joinSep_eq_append sep l rest
  rw [hsuf]
  simp [h]

/-- Every character of a joinSep comes from the separator or a piece. -/
theorem mem_joinSep (sep : List Char) (ls : List (List Char)) (ch : Char)
    (h : ch ∈ joinSep sep ls) : ch ∈ sep ∨ ∃ l ∈ ls, ch ∈ l := by
  induction ls with
  | nil => simp [joinSep] at h
  | cons l rest ih =>
    cases rest with
    | nil =>
      right
      exact ⟨l, by simp, by simpa [joinSep] using h⟩
    | cons l2 rest2 =>
      rw [show joinSep sep (l :: l2 :: rest2)
        = l ++ (sep ++ joinSep sep (l2 :: rest2)) from by simp [joinSep]] at h
      rw [List.mem_append, List.mem_append] at h
      rcases h with h | h | h
      · exact Or.inr ⟨l, by simp, h⟩
      · exact Or.inl h
      · rcases ih h with h2 | ⟨l3, hl3, hch⟩
        · exact Or.inl h2
        · exact Or.inr ⟨l3, by simp [hl3], hch⟩

/-- The last character of a joinSep of nonempty pieces is the last character
of the last piece. -/
theorem joinSep_getLast? (sep : List Char) (l : List Char) (rest : List (List Char))
    (hne : ∀ p ∈ l :: rest, p ≠ []) :
    (joinSep sep (l :: rest)).getLast? = ((l :: rest).getLast (by simp)).getLast? := by
  induction rest generalizing l with
  | nil => simp [joinSep]
  | cons l2 rest2 ih =>
    rw [show joinSep sep (l :: l2 :: rest2)
      = l ++ (sep ++ joinSep sep (l2 :: rest2)) from by simp [joinSep]]
    rw [List.getLast?_append_of_ne_nil]
    · rw [List.getLast?_append_of_ne_nil]
      · rw [ih l2 fun p hp => hne p (by simp [hp])]
        simp
      · exact joinSep_ne_nil sep l2 rest2 (hne l2 (by simp))
    · simp [joinSep_ne_nil sep l2 rest2 (hne l2 (by simp))]

/-- The token of one triangle is nonempty. -/
theorem exportTriangle_ne_nil (t : Triangle) : exportTriangle t ≠ [] := by
  simp [exportTriangle]

/-- Every character of a triangle token is e, m or the pipe. -/
theorem mem_exportTriangle (t : Triangle) (ch : Char) (h : ch ∈ exportTriangle t) :
    ch = 'e' ∨ ch = 'm' ∨ ch = '|' := by
  obtain ⟨up, a, b, c⟩ := t
  cases a <;> cases b <;> cases c <;>
    simp [exportTriangle, Triangle.getSideState, SideStates.get, sideChar] at h <;>
    tauto

/-- Characters of a triangle token are not whitespace and not newlines. -/
theorem exportTriangle_char_facts (t : Triangle) (ch : Char)
    (h : ch ∈ exportTriangle t) : isWs ch = false ∧ ch ≠ '\n' := by
  rcases mem_exportTriangle t ch h with rfl | rfl | rfl <;> exact ⟨by rfl, by decide⟩

/-- The head character of a triangle token is not whitespace. -/
theorem exportTriangle_head (t : Triangle) :
    ∀ d, (exportTriangle t).head? = some d → isWs d = false := by
  intro d hd
  refine (exportTriangle_char_facts t d ?_).1
  cases hex : exportTriangle t with
  | nil => exact absurd hex (exportTriangle_ne_nil t)
  | cons a tl =>
    rw [hex] at hd
    simp at hd
    simp [hex, hd]

/-- The last character of a triangle token is not whitespace. -/
theorem exportTriangle_getLast (t : Triangle) :
    ∀ d, (exportTriangle t).getLast? = some d → isWs d = false := by
  intro d hd
  refine (exportTriangle_char_facts t d ?_).1
  exact List.mem_of_mem_getLast? hd

/-- A nonempty row exports to a line whose first character is not
whitespace. -/
theorem exportLine_head (t0 : Triangle) (rest : List Triangle) :
    ∀ d, (joinSep [' '] ((t0 :: rest).map exportTriangle)).head? = some d →
      isWs d = false := by
  intro d hd
  obtain ⟨suf, hsuf⟩ := joinSep_eq_append [' '] (exportTriangle t0)
    (rest.map exportTriangle)
  rw [show (t0 :: rest).map exportTriangle
    = exportTriangle t0 :: rest.map exportTriangle from rfl, hsuf] at hd
  cases hex : exportTriangle t0 with
  | nil => exact absurd hex (exportTriangle_ne_nil t0)
  | cons a tl =>
    rw [hex] at hd
    simp at hd
    exact exportTriangle_head t0 d (by simp [hex, hd])

/-- A nonempty row exports to a line whose last character is not
whitespace. -/
theorem exportLine_getLast (t0 : Triangle) (rest : List Triangle) :
    ∀ d, (joinSep [' '] ((t0 :: rest).map exportTriangle)).getLast? = some d →
      isWs d = false := by
  intro d hd
  rw [show (t0 :: rest).map exportTriangle
    = exportTriangle t0 :: rest.map exportTriangle from rfl] at hd
  rw [joinSep_getLast? [' '] (exportTriangle t0) (rest.map exportTriangle) (by
    intro p hp
    rcases List.mem_cons.mp hp with rfl | hp2
    · exact exportTriangle_ne_nil t0
    · obtain ⟨t2, _, rfl⟩ := List.mem_map.mp hp2
      exact exportTriangle_ne_nil t2)] at hd
  have hlast_mem := List.getLast_mem (show exportTriangle t0 :: rest.map exportTriangle ≠ [] by simp)
  set llast := (exportTriangle t0 :: rest.map exportTriangle).getLast (by simp) with hllast
  rcases List.mem_cons.mp hlast_mem with heq | hmem
  · exact exportTriangle_getLast t0 d (by rw [← heq]; exact hd)
  · obtain ⟨t2, _, heq2⟩ := List.mem_map.mp hmem
    exact exportTriangle_getLast t2 d (by rw [heq2]; exact hd)

/-- Parsing back one exported triangle token recovers the side states; the
pointing direction is recomputed from the position. -/
theorem parseTriangleTok_exportTriangle (row col : Nat) (t : Triangle) :
    parseTriangleTok row col (exportTriangle t)
      = Except.ok ⟨pointsUpFor row col, t.sides⟩ := by
  obtain ⟨up, a, b, c⟩ := t
  cases a <;> cases b <;> cases c <;> rfl

/-- The row produced by the first pass from exported tokens: original side
states, recomputed pointing directions. -/
def exportParsedRow (row : Nat) : Nat → List Triangle → List Triangle
  | _, [] => []
  | col, t :: rest => ⟨pointsUpFor row col, t.sides⟩ :: exportParsedRow row (col + 1) rest

/-- Parsing the exported tokens of a row succeeds with exportParsedRow. -/
theorem parseRowTokens_export (row : Nat) (ts : List Triangle) :
    ∀ col : Nat, parseRowTokens row col (ts.map exportTriangle)
      = Except.ok (exportParsedRow row col ts) := by
  induction ts with
  | nil => intro col; rfl
  | cons t rest ih =>
    intro col
    show parseRowTokens row col (exportTriangle t :: rest.map exportTriangle) = _
    simp only [parseRowTokens, parseTriangleTok_exportTriangle, ih (col + 1),
      exportParsedRow]

/-- The token pass of one exported line recovers the exported tokens. -/
theorem lineToks_export (t0 : Triangle) (rest : List Triangle) :
    lineToks (joinSep [' '] ((t0 :: rest).map exportTriangle))
      = (t0 :: rest).map exportTriangle := by
  unfold lineToks
  rw [trimChars_eq_self _ (exportLine_head t0 rest) (exportLine_getLast t0 rest)]
  refine splitWsRuns_joinSep _ (by simp) ?_ ?_
  · intro l hl
    obtain ⟨t2, _, rfl⟩ := List.mem_map.mp hl
    exact exportTriangle_ne_nil t2
  · intro l hl ch hch
    obtain ⟨t2, _, rfl⟩ := List.mem_map.mp hl
    exact (exportTriangle_char_facts t2 ch hch).1

/-- The rows produced by the first pass from an exported grid. -/
def exportParsedRows : Nat → List (List Triangle) → List (List Triangle)
  | _, [] => []
  | r0, row :: rest => exportParsedRow r0 0 row :: exportParsedRows (r0 + 1) rest

/-- Parsing all exported lines succeeds with exportParsedRows. -/
theorem parseLines_export (rows : List (List Triangle))
    (hne : ∀ row ∈ rows, row ≠ []) :
    ∀ r0 : Nat, parseLines r0 (rows.map fun row => joinSep [' '] (row.map exportTriangle))
      = Except.ok (exportParsedRows r0 rows) := by
  induction rows with
  | nil => intro r0; rfl
  | cons row rest ih =>
    intro r0
    obtain ⟨t0, rtl, rfl⟩ := List.exists_cons_of_ne_nil (hne row (by simp))
    show parseLines r0 (joinSep [' '] ((t0 :: rtl).map exportTriangle)
      :: rest.map fun row => joinSep [' '] (row.map exportTriangle)) = _
    have htoks : splitWsRuns (trimChars (joinSep [' '] ((t0 :: rtl).map exportTriangle)))
        = (t0 :: rtl).map exportTriangle := lineToks_export t0 rtl
    simp only [parseLines, htoks, parseRowTokens_export r0 (t0 :: rtl) 0,
      ih (fun row2 h2 => hne row2 (by simp [h2])) (r0 + 1), exportParsedRows]

/-- On a coherent grid, the first pass recomputes the very same row. -/
theorem exportParsedRow_eq (r : Nat) (row : List Triangle) :
    ∀ c0 : Nat, (∀ (i : Nat) (t : Triangle), row[i]? = some t →
      (t.pointsUp = true ↔ (r + (c0 + i)) % 2 = 0)) →
    exportParsedRow r c0 row = row := by
  induction row with
  | nil => intro c0 _; rfl
  | cons t rest ih =>
    intro c0 h
    have hhead : pointsUpFor r c0 = t.pointsUp := by
      have h1 := pointsUpFor_iff r c0
      have h2 := h 0 t (by simp)
      rw [Nat.add_zero] at h2
      cases hb : t.pointsUp <;> cases hb2 : pointsUpFor r c0 <;> simp_all
    have htail : exportParsedRow r (c0 + 1) rest = rest := by
      refine ih (c0 + 1) ?_
      intro i t2 hi
      have := h (i + 1) t2 (by simpa using hi)
      rwa [show r + (c0 + (i + 1)) = r + (c0 + 1 + i) from by omega] at this
    show (⟨pointsUpFor r c0, t.sides⟩ : Triangle) :: exportParsedRow r (c0 + 1) rest
      = t :: rest
    rw [hhead, htail]

/-- On a coherent grid, the first pass recomputes the very same rows. -/
theorem exportParsedRows_eq (rows : List (List Triangle)) :
    ∀ r0 : Nat, (∀ (i : Nat) (row : List Triangle) (j : Nat) (t : Triangle),
      rows[i]? = some row → row[j]? = some t →
      (t.pointsUp = true ↔ (r0 + i + j) % 2 = 0)) →
    exportParsedRows r0 rows = rows := by
  induction rows with
  | nil => intro r0 _; rfl
  | cons row rest ih =>
    intro r0 h
    show exportParsedRow r0 0 row :: exportParsedRows (r0 + 1) rest = row :: rest
    rw [exportParsedRow_eq r0 row 0 (by
      intro i t hi
      have := h 0 row i t (by simp) hi
      rwa [show r0 + 0 + i = r0 + (0 + i) from by omega] at this)]
    rw [ih (r0 + 1) (by
      intro i row2 j t hi hj
      have := h (i + 1) row2 j t (by simpa using hi) hj
      rwa [show r0 + (i + 1) + j = r0 + 1 + i + j from by omega] at this)]

/-- Setting a list element to its current value changes nothing. -/
theorem list_set_same {α : Type} (l : List α) (n : Nat) (a : α)
    (h : l[n]? = some a) : l.set n a = l := by
  apply List.ext_getElem?
  intro i
  rw [List.getElem?_set]
  split
  · next heq =>
    subst heq
    rw [if_pos (List.getElem?_eq_some.mp h).1, h]
  · rfl

/-- Rewriting a side with its current value changes nothing. -/
theorem Triangle.setSideRaw_same (t : Triangle) (s : Side) :
    t.setSideRaw s (t.getSideState s) = t := by
  obtain ⟨up, a, b, c⟩ := t
  cases s <;> rfl

/-- Writing the current value at a position changes nothing. -/
theorem TriangularGrid.setSideAt_same (g : TriangularGrid) (r c : Nat) (s : Side)
    (t : Triangle) (ht : g.getTriangle r c = some t) :
    g.setSideAt r c s (t.getSideState s) = g := by
  unfold TriangularGrid.getTriangle at ht
  unfold TriangularGrid.setSideAt
  cases hrow : g.rows[r]? with
  | none => rfl
  | some row =>
    dsimp only
    rw [hrow, Option.some_bind] at ht
    rw [ht]
    dsimp only
    rw [Triangle.setSideRaw_same, list_set_same row c t ht,
      list_set_same g.rows r row hrow]

/-- On an edge-symmetric grid every reconciliation step is the identity. -/
theorem TriangularGrid.reconcileStep_eq_self (g : TriangularGrid)
    (hsym : EdgeSymmetric g) (r c : Nat) (s : Side) :
    g.reconcileStep r c s = g := by
  unfold TriangularGrid.reconcileStep
  cases ht : g.getTriangle r c with
  | none => rfl
  | some t =>
    dsimp only
    cases hnbc : g.neighborCoords r c s with
    | none => rfl
    | some p =>
      obtain ⟨nr, nc⟩ := p
      dsimp only
      cases htnb : g.getTriangle nr nc with
      | none => rfl
      | some nb =>
        dsimp only
        have hv : t.getSideState s = nb.getSideState (getNeighborCorrespondingSide s) := by
          have := hsym r c s nr nc hnbc
          unfold TriangularGrid.sideStateAt at this
          rw [ht, htnb] at this
          exact Option.some.inj this
        rw [← hv]
        have hF : (if t.getSideState s ≠ SideState.empty ∧ t.getSideState s = SideState.empty
              then t.getSideState s
            else if t.getSideState s = SideState.empty ∧ t.getSideState s ≠ SideState.empty
              then t.getSideState s
            else t.getSideState s) = t.getSideState s := by
          split
          · rfl
          · split <;> rfl
        rw [hF]
        rw [g.setSideAt_same r c s t ht]
        rw [hv]
        rw [g.setSideAt_same nr nc (getNeighborCorrespondingSide s) nb htnb]

/-- A fold whose step fixes the accumulator is the identity. -/
theorem foldl_fixed {α β : Type} (f : α → β → α) (a : α) (l : List β)
    (h : ∀ x ∈ l, f a x = a) : l.foldl f a = a := by
  induction l with
  | nil => rfl
  | cons x xs ih =>
    rw [List.foldl_cons, h x (by simp)]
    exact ih fun y hy => h y (by simp [hy])

/-- On an edge-symmetric grid the whole reconciliation pass is the identity. -/
theorem TriangularGrid.reconcileAll_eq_self (g : TriangularGrid)
    (hsym : EdgeSymmetric g) : g.reconcileAll = g := by
  unfold TriangularGrid.reconcileAll
  refine foldl_fixed _ g _ ?_
  intro r _
  refine foldl_fixed _ g _ ?_
  intro c _
  unfold TriangularGrid.reconcileTri
  rw [g.reconcileStep_eq_self hsym r c Side.left,
    g.reconcileStep_eq_self hsym r c Side.right,
    g.reconcileStep_eq_self hsym r c Side.third]

/-- head? of an append with a nonempty left part. -/
theorem head?_append_ne_nil {α : Type} (l l' : List α) (h : l ≠ []) :
    (l ++ l').head? = l.head? := by
  cases l with
  | nil => exact absurd rfl h
  | cons a tl => rfl

/-- C7 (amended): on a grid with at least one row, no empty rows, the
construction pointing convention and edge-consistent side states — the
shape every grid built by this repository has — initializeFromMap of
exportToMap reproduces the grid exactly, so every triangle keeps identical
side states for left, right and third. -/
theorem exportToMap_initializeFromMap_roundtrip (g : TriangularGrid)
    (hrows : g.rows ≠ []) (hne : ∀ row ∈ g.rows, row ≠ [])
    (hcoh : PointsUpCoherent g) (hsym : EdgeSymmetric g) :
    g.initializeFromMap g.exportToMap = Except.ok g := by
  have hline_ne : ∀ l ∈ g.rows.map (fun row => joinSep [' '] (row.map exportTriangle)),
      l ≠ [] := by
    intro l hl
    obtain ⟨row, hrow, rfl⟩ := List.mem_map.mp hl
    obtain ⟨t0, rtl, rfl⟩ := List.exists_cons_of_ne_nil (hne row hrow)
    exact joinSep_ne_nil [' '] (exportTriangle t0) (rtl.map exportTriangle)
      (exportTriangle_ne_nil t0)
  have hline_nonl : ∀ l ∈ g.rows.map (fun row => joinSep [' '] (row.map exportTriangle)),
      ∀ ch ∈ l, ch ≠ '\n' := by
    intro l hl ch hch
    obtain ⟨row, hrow, rfl⟩ := List.mem_map.mp hl
    rcases mem_joinSep [' '] (row.map exportTriangle) ch hch with hsep | ⟨tk, htk, hch2⟩
    · simp at hsep
      rw [hsep]
      decide
    · obtain ⟨t2, _, rfl⟩ := List.mem_map.mp htk
      exact (exportTriangle_char_facts t2 ch hch2).2
  obtain ⟨row0, rowrest, hge⟩ := List.exists_cons_of_ne_nil hrows
  have hlines_eq : g.rows.map (fun row => joinSep [' '] (row.map exportTriangle))
      = joinSep [' '] (row0.map exportTriangle)
        :: rowrest.map (fun row => joinSep [' '] (row.map exportTriangle)) := by
    rw [hge]
    rfl
  have htrim : trimChars (joinSep ['\n']
      (g.rows.map fun row => joinSep [' '] (row.map exportTriangle)))
      = joinSep ['\n'] (g.rows.map fun row => joinSep [' '] (row.map exportTriangle)) := by
    refine trimChars_eq_self _ ?_ ?_
    · intro d hd
      rw [hlines_eq] at hd
      obtain ⟨suf, hsuf⟩ := joinSep_eq_append ['\n'] (joinSep [' '] (row0.map exportTriangle))
        (rowrest.map fun row => joinSep [' '] (row.map exportTriangle))
      rw [hsuf, head?_append_ne_nil _ _ (hline_ne _ (by rw [hlines_eq]; simp))] at hd
      obtain ⟨t0, rtl, hrow0⟩ := List.exists_cons_of_ne_nil (hne row0 (by rw [hge]; simp))
      rw [hrow0] at hd
      exact exportLine_head t0 rtl d hd
    · intro d hd
      rw [hlines_eq] at hd
      rw [joinSep_getLast? ['\n'] _ _ (by
        intro p hp
        exact hline_ne p (by rw [hlines_eq]; exact hp))] at hd
      have hmem := List.getLast_mem (show joinSep [' '] (row0.map exportTriangle)
        :: rowrest.map (fun row => joinSep [' '] (row.map exportTriangle)) ≠ [] by simp)
      rcases List.mem_cons.mp hmem with heq2 | hmem2
      · obtain ⟨t0, rtl, hrow0⟩ := List.exists_cons_of_ne_nil (hne row0 (by rw [hge]; simp))
        rw [heq2, hrow0] at hd
        exact exportLine_getLast t0 rtl d hd
      · obtain ⟨row2, hrow2, heq2⟩ := List.mem_map.mp hmem2
        obtain ⟨t0, rtl, hrow0⟩ := List.exists_cons_of_ne_nil
          (hne row2 (by rw [hge]; simp [hrow2]))
        rw [← heq2, hrow0] at hd
        exact exportLine_getLast t0 rtl d hd
  unfold TriangularGrid.initializeFromMap TriangularGrid.exportToMap
  rw [htrim]
  rw [splitOnChar_joinSep '\n' _ (by rw [hlines_eq]; simp) hline_nonl]
  rw [parseLines_export g.rows hne 0]
  rw [exportParsedRows_eq g.rows 0 (by
    intro i row j t hi hj
    have hgt : g.getTriangle i j = some t := by
      unfold TriangularGrid.getTriangle
      rw [hi, Option.some_bind, hj]
    have := hcoh i j t hgt
    rwa [show (0 + i + j) = i + j from by omega])]
  show Except.ok (TriangularGrid.reconcileAll g) = Except.ok g
  rw [g.reconcileAll_eq_self hsym]

/-- A one-row grid holding a contradictory internal edge: the left triangle
records mirror on the shared edge, the right triangle records empty. Such a
state is expressible in the data model (setSideState with propagation
disabled), and the claim quantifies over every grid. -/
def gAsym : TriangularGrid :=
  ⟨[[⟨true, ⟨SideState.mirror, SideState.mirror, SideState.mirror⟩⟩,
     ⟨false, ⟨SideState.empty, SideState.mirror, SideState.mirror⟩⟩]]⟩

/-- C7 counterexample: on the contradictory grid the reload succeeds but the
reconciliation pass turns the empty view of the shared edge into mirror, so
the reloaded grid does not have identical side states to the original. -/
theorem export_roundtrip_counterexample :
    ∃ g2, TriangularGrid.initializeFromMap gAsym gAsym.exportToMap = Except.ok g2 ∧
      (g2.getTriangle 0 1).map (fun t => t.getSideState Side.left)
        = some SideState.mirror ∧
      (gAsym.getTriangle 0 1).map (fun t => t.getSideState Side.left)
        = some SideState.empty :=
  ⟨_, rfl, rfl, rfl⟩

/-- Witness for the amended C7 on the demo grid. -/
theorem exportToMap_initializeFromMap_roundtrip_witness :
    TriangularGrid.initializeFromMap demoGrid demoGrid.exportToMap
      = Except.ok demoGrid :=
  exportToMap_initializeFromMap_roundtrip demoGrid (by decide) (by decide)
    (pointsUpCoherent_of_check demoGrid (by decide))
    (edgeSymmetric_of_check demoGrid (by decide))

/-- Triangle lookup on a freshly initialized grid. -/
theorem TriangularGrid.initialize_getTriangle (numRows tpr r c : Nat) :
    (TriangularGrid.initGrid numRows tpr).getTriangle r c =
      if r < numRows ∧ c < tpr then
        some ⟨pointsUpFor r c, ⟨SideState.empty, SideState.empty, SideState.empty⟩⟩
      else none := by
  unfold TriangularGrid.initGrid TriangularGrid.getTriangle
  by_cases hr : r < numRows
  · rw [show ((List.range numRows).map fun r => (List.range tpr).map fun c =>
        (⟨pointsUpFor r c, ⟨SideState.empty, SideState.empty, SideState.empty⟩⟩ :
          Triangle))[r]?
      = some ((List.range tpr).map fun c =>
        (⟨pointsUpFor r c, ⟨SideState.empty, SideState.empty, SideState.empty⟩⟩ :
          Triangle)) from by
        rw [List.getElem?_map, List.getElem?_range hr]
        rfl]
    rw [Option.some_bind]
    by_cases hc : c < tpr
    · rw [List.getElem?_map, List.getElem?_range hc, if_pos ⟨hr, hc⟩]
      rfl
    · rw [List.getElem?_map, List.getElem?_eq_none (by simpa using hc)]
      rw [if_neg (by tauto)]
      rfl
  · rw [List.getElem?_map, List.getElem?_eq_none (by simpa using hr)]
    rw [if_neg (by tauto)]
    rfl

/-- A freshly initialized grid obeys the pointing convention. -/
theorem TriangularGrid.initialize_coherent (numRows tpr : Nat) :
    PointsUpCoherent (TriangularGrid.initGrid numRows tpr) := by
  intro r c t ht
  rw [TriangularGrid.initialize_getTriangle] at ht
  split at ht
  · cases ht
    exact pointsUpFor_iff r c
  · cases ht

/-- A freshly initialized grid is edge-symmetric (all sides empty). -/
theorem TriangularGrid.initialize_edgeSymmetric (numRows tpr : Nat) :
    EdgeSymmetric (TriangularGrid.initGrid numRows tpr) := by
  intro r c s nr nc hnbc
  obtain ⟨t, ht⟩ := Option.isSome_iff_exists.mp
    ((TriangularGrid.initGrid numRows tpr).getTriangle_isSome_of_neighborCoords hnbc)
  obtain ⟨nb, hnb⟩ := Option.isSome_iff_exists.mp
    ((TriangularGrid.initGrid numRows tpr).getTriangle_of_neighborCoords hnbc)
  unfold TriangularGrid.sideStateAt
  rw [ht, hnb]
  have h1 := ht
  have h2 := hnb
  rw [TriangularGrid.initialize_getTriangle] at h1 h2
  split at h1
  · cases h1
    split at h2
    · cases h2
      cases s <;> rfl
    · cases h2
  · cases h1

/-- setSideState preserves the row count. -/
theorem TriangularGrid.getRowCount_setSideState (g : TriangularGrid) (r c : Nat)
    (s : Side) (v : SideState) :
    (g.setSideState r c s v).getRowCount = g.getRowCount := by
  unfold TriangularGrid.setSideState
  cases hnb : g.neighborCoords r c s with
  | none => exact g.getRowCount_setSideAt r c s v
  | some p =>
    rw [TriangularGrid.getRowCount_setSideAt, TriangularGrid.getRowCount_setSideAt]

/-- setSideState preserves every row length. -/
theorem TriangularGrid.getRowLength_setSideState (g : TriangularGrid) (r c : Nat)
    (s : Side) (v : SideState) (r' : Nat) :
    (g.setSideState r c s v).getRowLength r' = g.getRowLength r' := by
  unfold TriangularGrid.setSideState
  cases hnb : g.neighborCoords r c s with
  | none => exact g.getRowLength_setSideAt r c s v r'
  | some p =>
    rw [TriangularGrid.getRowLength_setSideAt, TriangularGrid.getRowLength_setSideAt]

/-- setSideState preserves triangle existence. -/
theorem TriangularGrid.isSome_getTriangle_setSideState (g : TriangularGrid)
    (r c : Nat) (s : Side) (v : SideState) (x y : Nat) :
    ((g.setSideState r c s v).getTriangle x y).isSome = (g.getTriangle x y).isSome := by
  by_cases h : y < g.getRowLength x
  · have h2 : y < (g.setSideState r c s v).getRowLength x := by
      rwa [TriangularGrid.getRowLength_setSideState]
    rw [(Iff.mpr ((g.setSideState r c s v).getTriangle_isSome_iff x y) h2),
      (Iff.mpr (g.getTriangle_isSome_iff x y) h)]
  · have h2 : ¬ y < (g.setSideState r c s v).getRowLength x := by
      rwa [TriangularGrid.getRowLength_setSideState]
    rw [show ((g.setSideState r c s v).getTriangle x y).isSome = false from by
        rw [← Bool.not_eq_true]
        intro hx
        exact h2 (((g.setSideState r c s v).getTriangle_isSome_iff x y).mp hx),
      show (g.getTriangle x y).isSome = false from by
        rw [← Bool.not_eq_true]
        intro hx
        exact h ((g.getTriangle_isSome_iff x y).mp hx)]

/-- A setSideState write changes a side value only to the written value. -/
theorem TriangularGrid.sideStateAt_setSideState_cases (g : TriangularGrid)
    (r c : Nat) (s : Side) (v : SideState) (x y : Nat) (u : Side) :
    (g.setSideState r c s v).sideStateAt x y u = g.sideStateAt x y u ∨
    (g.setSideState r c s v).sideStateAt x y u
      = (g.getTriangle x y).map fun _ => v := by
  unfold TriangularGrid.setSideState
  cases hnb : g.neighborCoords r c s with
  | none =>
    rw [TriangularGrid.sideStateAt_setSideAt]
    split
    · next heq =>
      obtain ⟨rfl, rfl, _⟩ := heq
      exact Or.inr rfl
    · exact Or.inl rfl
  | some p =>
    obtain ⟨nr, nc⟩ := p
    have hne2 : ¬(nr = r ∧ nc = c) := g.neighborCoords_ne_self hnb
    rw [TriangularGrid.sideStateAt_setSideAt]
    split
    · next heq =>
      obtain ⟨rfl, rfl, _⟩ := heq
      rw [TriangularGrid.getTriangle_setSideAt, if_neg hne2]
      exact Or.inr rfl
    · rw [TriangularGrid.sideStateAt_setSideAt]
      split
      · next heq =>
        obtain ⟨rfl, rfl, _⟩ := heq
        exact Or.inr rfl
      · exact Or.inl rfl

/-- A setSideState write sets its own position. -/
theorem TriangularGrid.sideStateAt_setSideState_self (g : TriangularGrid)
    (r c : Nat) (s : Side) (v : SideState) :
    (g.setSideState r c s v).sideStateAt r c s
      = (g.getTriangle r c).map fun _ => v := by
  unfold TriangularGrid.setSideState
  cases hnb : g.neighborCoords r c s with
  | none =>
    rw [TriangularGrid.sideStateAt_setSideAt, if_pos ⟨rfl, rfl, rfl⟩]
  | some p =>
    obtain ⟨nr, nc⟩ := p
    have hne2 : ¬(nr = r ∧ nc = c) := g.neighborCoords_ne_self hnb
    rw [TriangularGrid.sideStateAt_setSideAt,
      if_neg (fun hx => hne2 ⟨hx.1.symm, hx.2.1.symm⟩),
      TriangularGrid.sideStateAt_setSideAt, if_pos ⟨rfl, rfl, rfl⟩]

/-- Triangle existence is invariant under a call sequence. -/
theorem TriangularGrid.isSome_getTriangle_applyCalls (g : TriangularGrid)
    (calls : List SideCall) (x y : Nat) :
    ((g.applyCalls calls).getTriangle x y).isSome = (g.getTriangle x y).isSome := by
  induction calls generalizing g with
  | nil => rfl
  | cons call rest ih =>
    rw [show g.applyCalls (call :: rest)
      = (g.setSideState call.row call.col call.side call.state).applyCalls rest from rfl]
    rw [ih, TriangularGrid.isSome_getTriangle_setSideState]

/-- A sequence of calls that all write the same value changes any side value
only to that value. -/
theorem TriangularGrid.sideStateAt_applyCalls_cases (g : TriangularGrid)
    (calls : List SideCall) (v : SideState)
    (hv : ∀ call ∈ calls, call.state = v) (x y : Nat) (u : Side) :
    (g.applyCalls calls).sideStateAt x y u = g.sideStateAt x y u ∨
    (g.applyCalls calls).sideStateAt x y u = (g.getTriangle x y).map fun _ => v := by
  induction calls generalizing g with
  | nil => exact Or.inl rfl
  | cons call rest ih =>
    rw [show g.applyCalls (call :: rest)
      = (g.setSideState call.row call.col call.side call.state).applyCalls rest from rfl]
    have hmap : ((g.setSideState call.row call.col call.side call.state).getTriangle
        x y).map (fun _ => v) = (g.getTriangle x y).map fun _ => v := by
      cases h1 : (g.setSideState call.row call.col call.side call.state).getTriangle x y
        with
      | none =>
        have := g.isSome_getTriangle_setSideState call.row call.col call.side call.state
          x y
        rw [h1] at this
        cases h2 : g.getTriangle x y with
        | none => rfl
        | some t2 => rw [h2] at this; simp at this
      | some t =>
        have := g.isSome_getTriangle_setSideState call.row call.col call.side call.state
          x y
        rw [h1] at this
        cases h2 : g.getTriangle x y with
        | none => rw [h2] at this; simp at this
        | some t2 => rfl
    rcases ih _ fun c2 h2 => hv c2 (by simp [h2]) with h | h
    · rw [h]
      have hcall := hv call (by simp)
      rw [← hcall]
      exact g.sideStateAt_setSideState_cases call.row call.col call.side call.state x y u
    · rw [h, hmap]
      exact Or.inr rfl

/-- A position written by a same-value call sequence holds that value at the
end (provided the triangle exists). -/
theorem TriangularGrid.sideStateAt_applyCalls_mem (g : TriangularGrid)
    (calls : List SideCall) (v : SideState)
    (hv : ∀ call ∈ calls, call.state = v) (x y : Nat) (u : Side)
    (hmem : (⟨x, y, u, v⟩ : SideCall) ∈ calls)
    (hex : (g.getTriangle x y).isSome) :
    (g.applyCalls calls).sideStateAt x y u = some v := by
  induction calls generalizing g with
  | nil => simp at hmem
  | cons call rest ih =>
    rw [show g.applyCalls (call :: rest)
      = (g.setSideState call.row call.col call.side call.state).applyCalls rest from rfl]
    obtain ⟨t, ht⟩ := Option.isSome_iff_exists.mp hex
    have hex2 : ((g.setSideState call.row call.col call.side call.state).getTriangle
        x y).isSome := by
      rw [g.isSome_getTriangle_setSideState]
      exact hex
    rcases List.mem_cons.mp hmem with heq | hmem2
    · subst heq
      rcases (g.setSideState x y u v).sideStateAt_applyCalls_cases rest v
          (fun c2 h2 => hv c2 (by simp [h2])) x y u with h | h
      · rw [h, g.sideStateAt_setSideState_self x y u v, ht]
        rfl
      · rw [h]
        obtain ⟨t2, ht2⟩ := Option.isSome_iff_exists.mp hex2
        rw [ht2]
        rfl
    · exact ih _ (fun c2 h2 => hv c2 (by simp [h2])) hmem2 hex2

/-- Row lengths of a freshly initialized grid. -/
theorem TriangularGrid.initialize_getRowLength (numRows tpr r : Nat) :
    (TriangularGrid.initGrid numRows tpr).getRowLength r
      = if r < numRows then tpr else 0 := by
  unfold TriangularGrid.initGrid TriangularGrid.getRowLength
  by_cases hr : r < numRows
  · rw [List.getElem?_map, List.getElem?_range hr, if_pos hr]
    simp
  · rw [List.getElem?_map, List.getElem?_eq_none (by simpa using hr), if_neg hr]
    rfl

/-- The neighbor wiring is invariant under a call sequence. -/
theorem TriangularGrid.neighborCoords_applyCalls (g : TriangularGrid)
    (calls : List SideCall) (x y : Nat) (u : Side) :
    (g.applyCalls calls).neighborCoords x y u = g.neighborCoords x y u := by
  induction calls generalizing g with
  | nil => rfl
  | cons call rest ih =>
    rw [show g.applyCalls (call :: rest)
      = (g.setSideState call.row call.col call.side call.state).applyCalls rest from rfl]
    rw [ih, TriangularGrid.neighborCoords_setSideState]

/-- Pointing coherence is invariant under a call sequence. -/
theorem PointsUpCoherent.applyCalls {g : TriangularGrid}
    (hcoh : PointsUpCoherent g) (calls : List SideCall) :
    PointsUpCoherent (g.applyCalls calls) := by
  induction calls generalizing g with
  | nil => exact hcoh
  | cons call rest ih =>
    exact ih (hcoh.setSideState call.row call.col call.side call.state)

/-- The calls of the initial all-mirror pass of generateRandomGrid
(setAllSides with all three sides mirror on every triangle, row by row). -/
def mirrorCalls (numRows tpr : Nat) : List SideCall :=
  (List.range numRows).bind fun r => (List.range tpr).bind fun c =>
    [⟨r, c, Side.left, SideState.mirror⟩, ⟨r, c, Side.right, SideState.mirror⟩,
     ⟨r, c, Side.third, SideState.mirror⟩]

theorem mirrorCalls_state (numRows tpr : Nat) :
    ∀ call ∈ mirrorCalls numRows tpr, call.state = SideState.mirror := by
  intro call h
  unfold mirrorCalls at h
  rw [List.mem_bind] at h
  obtain ⟨r, _, h⟩ := h
  rw [List.mem_bind] at h
  obtain ⟨c, _, h⟩ := h
  simp at h
  rcases h with rfl | rfl | rfl <;> rfl

theorem mirrorCalls_mem (numRows tpr r c : Nat) (s : Side)
    (hr : r < numRows) (hc : c < tpr) :
    (⟨r, c, s, SideState.mirror⟩ : SideCall) ∈ mirrorCalls numRows tpr := by
  unfold mirrorCalls
  rw [List.mem_bind]
  refine ⟨r, List.mem_range.mpr hr, ?_⟩
  rw [List.mem_bind]
  refine ⟨c, List.mem_range.mpr hc, ?_⟩
  cases s <;> simp

/-- After the all-mirror pass of generateRandomGrid every side of every
triangle is mirror. -/
theorem mirror_pass_spec (numRows tpr : Nat) (r c : Nat) (t : Triangle) (s : Side)
    (ht : ((TriangularGrid.initGrid numRows tpr).applyCalls
        (mirrorCalls numRows tpr)).getTriangle r c = some t) :
    t.getSideState s = SideState.mirror := by
  have hex : ((TriangularGrid.initGrid numRows tpr).getTriangle r c).isSome := by
    rw [← TriangularGrid.isSome_getTriangle_applyCalls _ (mirrorCalls numRows tpr)]
    simp [ht]
  have hrange : r < numRows ∧ c < tpr := by
    rw [TriangularGrid.initialize_getTriangle] at hex
    by_cases h : r < numRows ∧ c < tpr
    · exact h
    · rw [if_neg h] at hex
      simp at hex
  have := TriangularGrid.sideStateAt_applyCalls_mem
    (TriangularGrid.initGrid numRows tpr) (mirrorCalls numRows tpr)
    SideState.mirror (mirrorCalls_state numRows tpr) r c s
    (mirrorCalls_mem numRows tpr r c s hrange.1 hrange.2) hex
  unfold TriangularGrid.sideStateAt at this
  rw [ht] at this
  exact Option.some.inj this

/-- The JS lookup key "row,col" (decimal), compared lexicographically: the
canonicalization order used when collecting unique internal edges. -/
def keyLt (p q : Nat × Nat) : Prop :=
  (Nat.repr p.1 ++ "," ++ Nat.repr p.2) < (Nat.repr q.1 ++ "," ++ Nat.repr q.2)

instance (p q : Nat × Nat) : Decidable (keyLt p q) := by
  unfold keyLt
  infer_instance

/-- The stored edge object for the internal edge between cur and its
neighbor nb across side s: the end with the smaller key is the a end. -/
def canonEdge (cur nb : Nat × Nat) (s : Side) : (Nat × Nat) × Side :=
  if keyLt cur nb then (cur, s) else (nb, getNeighborCorrespondingSide s)

/-- Opening an edge: set the a-end side empty with neighbor propagation
(openEdge of generateRandomGrid). -/
def openCanonEdge (g : TriangularGrid) (e : (Nat × Nat) × Side) : TriangularGrid :=
  g.setSideState e.1.1 e.1.2 e.2 SideState.empty

/-- The unvisited-neighbor candidates of the stack top in the carve loop.
The edgeByPair lookup always succeeds for a neighbor pair, so the JS
if-guard on the edge is always passed. -/
def dfsCandidates (g : TriangularGrid) (cur : Nat × Nat)
    (visited : List (Nat × Nat)) : List ((Nat × Nat) × (Nat × Nat) × Side) :=
  [Side.left, Side.right, Side.third].filterMap fun s =>
    match g.neighborCoords cur.1 cur.2 s with
    | none => none
    | some nb => if nb ∈ visited then none else some (nb, cur, s)

/-- All triangle coordinates of the grid, row by row. -/
def allCoords (g : TriangularGrid) : List (Nat × Nat) :=
  (List.range g.getRowCount).bind fun r =>
    (List.range (g.getRowLength r)).map fun c => (r, c)

/-- The number of coordinates not yet visited: the termination measure of
the carve loop. -/
def unvisitedCount (g : TriangularGrid) (visited : List (Nat × Nat)) : Nat :=
  ((allCoords g).filter fun p => decide (p ∉ visited)).length

theorem mem_allCoords_of_isSome (g : TriangularGrid) (p : Nat × Nat)
    (h : (g.getTriangle p.1 p.2).isSome) : p ∈ allCoords g := by
  have hc : p.2 < g.getRowLength p.1 := (g.getTriangle_isSome_iff p.1 p.2).mp h
  have hr : p.1 < g.getRowCount := by
    unfold TriangularGrid.getRowLength at hc
    cases hrow : g.rows[p.1]? with
    | none => rw [hrow] at hc; simp at hc
    | some row => exact (List.getElem?_eq_some.mp hrow).1
  unfold allCoords
  rw [List.mem_bind]
  exact ⟨p.1, List.mem_range.mpr hr, by
    rw [List.mem_map]
    exact ⟨p.2, List.mem_range.mpr hc, rfl⟩⟩

theorem allCoords_setSideState (g : TriangularGrid) (r c : Nat) (s : Side)
    (v : SideState) : allCoords (g.setSideState r c s v) = allCoords g := by
  unfold allCoords
  simp only [TriangularGrid.getRowCount_setSideState,
    TriangularGrid.getRowLength_setSideState]

theorem unvisitedCount_lt (g : TriangularGrid) (visited : List (Nat × Nat))
    (p : Nat × Nat) (hmem : p ∈ allCoords g) (hnv : p ∉ visited) :
    unvisitedCount g (p :: visited) < unvisitedCount g visited := by
  unfold unvisitedCount
  obtain ⟨l1, l2, hsplit⟩ := List.mem_iff_append.mp hmem
  rw [hsplit]
  rw [← List.countP_eq_length_filter, ← List.countP_eq_length_filter,
    List.countP_append, List.countP_append, List.countP_cons, List.countP_cons]
  have hmono : ∀ l : List (Nat × Nat),
      List.countP (fun q => decide (q ∉ p :: visited)) l
        ≤ List.countP (fun q => decide (q ∉ visited)) l := by
    intro l
    refine List.countP_mono_left ?_
    intro a _ ha
    simp only [decide_eq_true_eq] at ha ⊢
    intro hav
    exact ha (by simp [hav])
  have h1 := hmono l1
  have h2 := hmono l2
  have hqp : (decide (p ∉ p :: visited)) = false := by simp
  have hwp : (decide (p ∉ visited)) = true := by simp [hnv]
  simp only [hqp, hwp] at *
  simp at *
  omega

theorem mem_dfsCandidates (g : TriangularGrid) (cur : Nat × Nat)
    (visited : List (Nat × Nat)) (x : (Nat × Nat) × (Nat × Nat) × Side)
    (h : x ∈ dfsCandidates g cur visited) :
    g.neighborCoords cur.1 cur.2 x.2.2 = some x.1 ∧ x.1 ∉ visited ∧ x.2.1 = cur := by
  unfold dfsCandidates at h
  rw [List.mem_filterMap] at h
  obtain ⟨s, _, hs⟩ := h
  cases hnb : g.neighborCoords cur.1 cur.2 s with
  | none => rw [hnb] at hs; cases hs
  | some nb =>
    rw [hnb] at hs
    dsimp only at hs
    by_cases hv : nb ∈ visited
    · rw [if_pos hv] at hs
      cases hs
    · rw [if_neg hv] at hs
      cases hs
      exact ⟨hnb, hv, rfl⟩

/-- The randomized depth-first carve loop of generateRandomGrid: while the
stack is nonempty, collect the unvisited neighbors of the top, backtrack if
there are none, otherwise pick one by the random index, open the shared
edge, mark it visited and push it.  Returns the grid, the visited set and
the next random index. -/
def dfsCarve (oracle : Nat → Nat) (g : TriangularGrid) (visited : List (Nat × Nat))
    (stack : List (Nat × Nat)) (k : Nat) : TriangularGrid × List (Nat × Nat) × Nat :=
  match stack with
  | [] => (g, visited, k)
  | cur :: rest =>
    if hc : (dfsCandidates g cur visited).length = 0 then
      dfsCarve oracle g visited rest k
    else
      let choice := (dfsCandidates g cur visited).getD
        (oracle k % (dfsCandidates g cur visited).length) ((0, 0), (0, 0), Side.left)
      dfsCarve oracle (openCanonEdge g (canonEdge choice.2.1 choice.1 choice.2.2))
        (choice.1 :: visited) (choice.1 :: cur :: rest) (k + 1)
termination_by (unvisitedCount g visited, stack.length)
decreasing_by
  · apply Prod.Lex.right
    simp
  · apply Prod.Lex.left
    have hlt : oracle k % (dfsCandidates g cur visited).length
        < (dfsCandidates g cur visited).length :=
      Nat.mod_lt _ (Nat.pos_of_ne_zero hc)
    have hmem : (dfsCandidates g cur visited).getD
        (oracle k % (dfsCandidates g cur visited).length) ((0, 0), (0, 0), Side.left)
        ∈ dfsCandidates g cur visited := by
      rw [List.getD_eq_getElem _ _ hlt]
      exact List.getElem_mem hlt
    obtain ⟨hnbc, hnv, _⟩ := mem_dfsCandidates g cur visited _ hmem
    show unvisitedCount (openCanonEdge g _) _ < unvisitedCount g visited
    unfold openCanonEdge
    unfold unvisitedCount
    rw [allCoords_setSideState]
    refine unvisitedCount_lt g visited _ ?_ hnv
    exact mem_allCoords_of_isSome g _ (g.getTriangle_of_neighborCoords hnbc)

/-- The internal edges collected by generateRandomGrid: for every triangle in
row-major order and each side in order left, right, third, a side with a
neighbor is recorded once, at the end of the edge whose "row,col" key is the
smaller (the canonicalization guard triKey < neighborKey). -/
def internalEdgesOf (g : TriangularGrid) (numRows tpr : Nat) :
    List ((Nat × Nat) × Side) :=
  (List.range numRows).bind fun row =>
    (List.range tpr).bind fun col =>
      [Side.left, Side.right, Side.third].filterMap fun s =>
        match g.neighborCoords row col s with
        | some nb => if keyLt (row, col) nb then some ((row, col), s) else none
        | none => none

/-- The boundary edges collected by generateRandomGrid: the sides with no
neighbor, in the same traversal order. -/
def boundaryEdgesOf (g : TriangularGrid) (numRows tpr : Nat) :
    List ((Nat × Nat) × Side) :=
  (List.range numRows).bind fun row =>
    (List.range tpr).bind fun col =>
      [Side.left, Side.right, Side.third].filterMap fun s =>
        match g.neighborCoords row col s with
        | some _ => none
        | none => some ((row, col), s)

/-- One swap of the in-place Fisher-Yates shuffle. -/
def listSwap {α : Type} (l : List α) (i j : Nat) : List α :=
  match l[i]?, l[j]? with
  | some a, some b => (l.set i b).set j a
  | _, _ => l

/-- The Fisher-Yates loop of shuffle: the counter is the current position i,
counting down to 1; the partner index is the random draw modulo i + 1. -/
def fyLoop {α : Type} (oracle : Nat → Nat) : Nat → List α → Nat → List α × Nat
  | k, arr, 0 => (arr, k)
  | k, arr, i + 1 => fyLoop oracle (k + 1) (listSwap arr (i + 1) (oracle k % (i + 2))) i

/-- shuffle(arr) of generateRandomGrid, also returning the next random
index. -/
def fisherYates {α : Type} (oracle : Nat → Nat) (k : Nat) (arr : List α) :
    List α × Nat :=
  fyLoop oracle k arr (arr.length - 1)

/-- The grid after the first two phases of generateRandomGrid: initialize,
then the all-mirror pass over every triangle. -/
def mirrorFill (numRows tpr : Nat) : TriangularGrid :=
  (TriangularGrid.initGrid numRows tpr).applyCalls (mirrorCalls numRows tpr)

/-- The carve phase of generateRandomGrid, started at the middle triangle
(floor halves of the dimensions), with the start visited and on the stack
and the random index at 0. -/
def carveStage (numRows tpr : Nat) (oracle : Nat → Nat) :
    TriangularGrid × List (Nat × Nat) × Nat :=
  dfsCarve oracle (mirrorFill numRows tpr) [(numRows / 2, tpr / 2)]
    [(numRows / 2, tpr / 2)] 0

/-- The exit write: setSideState(side, EMPTY, false) on the chosen boundary
edge, which does not propagate (and a boundary side has no neighbor to
propagate to anyway). -/
def exitWrite (g : TriangularGrid) (e : (Nat × Nat) × Side) : TriangularGrid :=
  g.setSideAt e.1.1 e.1.2 e.2 SideState.empty

/-- pickRandom(boundaryEdges) followed by the exit write.  On an empty edge
list the JS code would dereference undefined; every grid of the claims has
a boundary side, so that branch is never exercised and is modelled as the
identity. -/
def pickExit (oracle : Nat → Nat) (k : Nat) (bEdges : List ((Nat × Nat) × Side))
    (g : TriangularGrid) : TriangularGrid :=
  if bEdges.length = 0 then g
  else exitWrite g (bEdges.getD (oracle k % bEdges.length) ((0, 0), Side.left))

/-- The grid after the carve and the single boundary exit. -/
def exitStage (numRows tpr : Nat) (oracle : Nat → Nat) : TriangularGrid :=
  pickExit oracle (carveStage numRows tpr oracle).2.2
    (boundaryEdgesOf (mirrorFill numRows tpr) numRows tpr)
    (carveStage numRows tpr oracle).1

/-- The still-closed internal edges at the start of the density-fill phase
(internalEdges.filter on the current side state of the a end). -/
def closedInternalOf (numRows tpr : Nat) (oracle : Nat → Nat) :
    List ((Nat × Nat) × Side) :=
  (internalEdgesOf (mirrorFill numRows tpr) numRows tpr).filter fun e =>
    decide ((exitStage numRows tpr oracle).sideStateAt e.1.1 e.1.2 e.2
      = some SideState.mirror)

/-- The density-fill loop: openEdge (a propagating empty write on the a end)
over a list of edges. -/
def densityFill (g : TriangularGrid) (edges : List ((Nat × Nat) × Side)) :
    TriangularGrid :=
  edges.foldl (fun gg e => gg.setSideState e.1.1 e.1.2 e.2 SideState.empty) g

/-- TriangularGrid.generateRandomGrid of grid_system.js: initialize, set all
sides mirror, carve a spanning tree by randomized depth-first search, open
exactly one random boundary exit, then open `fillCount` more internal edges
from a shuffle of the still-closed ones.  The pseudo-random number stream is
abstracted as an oracle of draw index to natural number (each array pick
floor(rng()*len) becomes oracle k % len, so every concrete seeded run is one
oracle); fillCount abstracts the density arithmetic
max(0, targetOpenEdges - minOpenEdges), whose float rounding is not modelled
-- the claims quantify over every density, hence over every fillCount. -/
def TriangularGrid.generateRandomGrid (numRows trianglesPerRow : Nat)
    (oracle : Nat → Nat) (fillCount : Nat) : TriangularGrid :=
  densityFill (exitStage numRows trianglesPerRow oracle)
    ((fisherYates oracle ((carveStage numRows trianglesPerRow oracle).2.2 + 1)
        (closedInternalOf numRows trianglesPerRow oracle)).1.take
      (min fillCount (closedInternalOf numRows trianglesPerRow oracle).length))

/-- A setSideState write leaves every side other than its own position and
the corresponding side of its neighbor unchanged. -/
theorem TriangularGrid.sideStateAt_setSideState_of_ne (g : TriangularGrid)
    (r c : Nat) (s : Side) (v : SideState) (x y : Nat) (u : Side)
    (h1 : ¬(x = r ∧ y = c ∧ u = s))
    (h2 : ∀ nr nc, g.neighborCoords r c s = some (nr, nc) →
      ¬(x = nr ∧ y = nc ∧ u = getNeighborCorrespondingSide s)) :
    (g.setSideState r c s v).sideStateAt x y u = g.sideStateAt x y u := by
  unfold TriangularGrid.setSideState
  cases hnb : g.neighborCoords r c s with
  | none => rw [TriangularGrid.sideStateAt_setSideAt, if_neg h1]
  | some p =>
    rw [TriangularGrid.sideStateAt_setSideAt, if_neg (h2 p.1 p.2 hnb),
      TriangularGrid.sideStateAt_setSideAt, if_neg h1]

/-- Zero or more openEdge operations: each step opens (propagating empty
write) a side that has a neighbor.  The carve loop and the density-fill loop
both move along this relation. -/
inductive InternalOpens : TriangularGrid → TriangularGrid → Prop where
  | refl (g : TriangularGrid) : InternalOpens g g
  | step (g g' : TriangularGrid) (r c : Nat) (s : Side) (nr nc : Nat) :
      g.neighborCoords r c s = some (nr, nc) →
      InternalOpens (g.setSideState r c s SideState.empty) g' →
      InternalOpens g g'

/-- Opening internal edges never changes the neighbor wiring. -/
theorem InternalOpens.neighborCoords {g g' : TriangularGrid}
    (h : InternalOpens g g') (x y : Nat) (u : Side) :
    g'.neighborCoords x y u = g.neighborCoords x y u := by
  induction h with
  | refl g => rfl
  | step g gfin r c s nr nc hnb htail ih =>
    rw [ih, TriangularGrid.neighborCoords_setSideState]

/-- Opening internal edges never changes which triangles exist. -/
theorem InternalOpens.isSome_getTriangle {g g' : TriangularGrid}
    (h : InternalOpens g g') (x y : Nat) :
    (g'.getTriangle x y).isSome = (g.getTriangle x y).isSome := by
  induction h with
  | refl g => rfl
  | step g gfin r c s nr nc hnb htail ih =>
    rw [ih, TriangularGrid.isSome_getTriangle_setSideState]

/-- Opening internal edges preserves pointing coherence. -/
theorem InternalOpens.pointsUpCoherent {g g' : TriangularGrid}
    (h : InternalOpens g g') :
    PointsUpCoherent g → PointsUpCoherent g' := by
  induction h with
  | refl g => exact id
  | step g gfin r c s nr nc hnb htail ih =>
    intro hcoh
    exact ih (hcoh.setSideState r c s SideState.empty)

/-- Opening internal edges never touches a boundary side: on a coherent grid
both positions written by each step have a neighbor. -/
theorem InternalOpens.sideStateAt_of_no_neighbor {g g' : TriangularGrid}
    (h : InternalOpens g g') (x y : Nat) (u : Side) :
    PointsUpCoherent g → g.neighborCoords x y u = none →
    g'.sideStateAt x y u = g.sideStateAt x y u := by
  induction h with
  | refl g => intro _ _; rfl
  | step g gfin r c s nr nc hnb htail ih =>
    intro hcoh hb
    have hb2 : (g.setSideState r c s SideState.empty).neighborCoords x y u = none := by
      rw [TriangularGrid.neighborCoords_setSideState]
      exact hb
    rw [ih (hcoh.setSideState r c s SideState.empty) hb2]
    apply TriangularGrid.sideStateAt_setSideState_of_ne
    · rintro ⟨rfl, rfl, rfl⟩
      rw [hb] at hnb
      cases hnb
    · rintro nr' nc' hnb' ⟨rfl, rfl, rfl⟩
      have hs := g.neighborCoords_symm hcoh hnb'
      rw [hb] at hs
      cases hs

/-- An empty side stays empty while internal edges are opened (every write
of the relation writes empty). -/
theorem InternalOpens.sideStateAt_empty {g g' : TriangularGrid}
    (h : InternalOpens g g') (x y : Nat) (u : Side) :
    g.sideStateAt x y u = some SideState.empty →
    g'.sideStateAt x y u = some SideState.empty := by
  induction h with
  | refl g => exact id
  | step g gfin r c s nr nc hnb htail ih =>
    intro he
    apply ih
    rcases g.sideStateAt_setSideState_cases r c s SideState.empty x y u with hc2 | hc2
    · rw [hc2]
      exact he
    · rw [hc2]
      unfold TriangularGrid.sideStateAt at he
      cases hgt : g.getTriangle x y with
      | none => rw [hgt] at he; cases he
      | some t => rfl

/-- The canonical end of an internal edge has a neighbor (the other end). -/
theorem canonEdge_neighbor (g : TriangularGrid) (hcoh : PointsUpCoherent g)
    (cur nb : Nat × Nat) (s : Side)
    (hnb : g.neighborCoords cur.1 cur.2 s = some nb) :
    ∃ q, g.neighborCoords (canonEdge cur nb s).1.1 (canonEdge cur nb s).1.2
      (canonEdge cur nb s).2 = some q := by
  unfold canonEdge
  by_cases h : keyLt cur nb
  · rw [if_pos h]
    exact ⟨nb, hnb⟩
  · rw [if_neg h]
    exact ⟨cur, g.neighborCoords_symm hcoh hnb⟩

/-- The carve loop only opens internal edges. -/
theorem dfsCarve_internalOpens (oracle : Nat → Nat) (g : TriangularGrid)
    (visited stack : List (Nat × Nat)) (k : Nat) :
    PointsUpCoherent g → InternalOpens g (dfsCarve oracle g visited stack k).1 := by
  induction g, visited, stack, k using dfsCarve.induct oracle with
  | case1 g visited k =>
    intro _
    rw [dfsCarve]
    exact InternalOpens.refl g
  | case2 g visited k cur rest hc ih =>
    intro hcoh
    rw [dfsCarve]
    dsimp only
    rw [dif_pos hc]
    exact ih hcoh
  | case3 g visited k cur rest hc choice ih =>
    intro hcoh
    rw [dfsCarve]
    dsimp only
    rw [dif_neg hc]
    show InternalOpens g (dfsCarve oracle
      (openCanonEdge g (canonEdge choice.2.1 choice.1 choice.2.2))
      (choice.1 :: visited) (choice.1 :: cur :: rest) (k + 1)).1
    have hlt : oracle k % (dfsCandidates g cur visited).length
        < (dfsCandidates g cur visited).length :=
      Nat.mod_lt _ (Nat.pos_of_ne_zero hc)
    have hmem : choice ∈ dfsCandidates g cur visited := by
      show (dfsCandidates g cur visited).getD
        (oracle k % (dfsCandidates g cur visited).length) ((0, 0), (0, 0), Side.left)
        ∈ dfsCandidates g cur visited
      rw [List.getD_eq_getElem _ _ hlt]
      exact List.getElem_mem hlt
    obtain ⟨hnbc, hnv, hcur⟩ := mem_dfsCandidates g cur visited _ hmem
    rw [hcur]
    obtain ⟨q, hq⟩ := canonEdge_neighbor g hcoh cur _ _ hnbc
    refine InternalOpens.step g _ _ _ _ q.1 q.2 hq ?_
    rw [hcur] at ih
    exact ih (hcoh.setSideState _ _ _ SideState.empty)

/-- setSideAt preserves triangle existence. -/
theorem TriangularGrid.isSome_getTriangle_setSideAt (g : TriangularGrid)
    (r c : Nat) (s : Side) (v : SideState) (x y : Nat) :
    ((g.setSideAt r c s v).getTriangle x y).isSome = (g.getTriangle x y).isSome := by
  rw [TriangularGrid.getTriangle_setSideAt]
  by_cases h : x = r ∧ y = c
  · obtain ⟨rfl, rfl⟩ := h
    rw [if_pos ⟨rfl, rfl⟩]
    cases g.getTriangle x y <;> rfl
  · rw [if_neg h]

/-- The grid after the all-mirror pass obeys the pointing convention. -/
theorem mirrorFill_pointsUpCoherent (numRows tpr : Nat) :
    PointsUpCoherent (mirrorFill numRows tpr) :=
  (TriangularGrid.initialize_coherent numRows tpr).applyCalls _

/-- The all-mirror pass leaves a triangle at every in-range position. -/
theorem mirrorFill_isSome (numRows tpr r c : Nat) (hr : r < numRows)
    (hc : c < tpr) : ((mirrorFill numRows tpr).getTriangle r c).isSome := by
  unfold mirrorFill
  rw [TriangularGrid.isSome_getTriangle_applyCalls,
    TriangularGrid.initialize_getTriangle, if_pos ⟨hr, hc⟩]
  rfl

/-- After the all-mirror pass every existing side reads mirror. -/
theorem mirrorFill_sideStateAt (numRows tpr r c : Nat) (s : Side)
    (hex : ((mirrorFill numRows tpr).getTriangle r c).isSome) :
    (mirrorFill numRows tpr).sideStateAt r c s = some SideState.mirror := by
  obtain ⟨t, ht⟩ := Option.isSome_iff_exists.mp hex
  unfold TriangularGrid.sideStateAt
  rw [ht]
  have := mirror_pass_spec numRows tpr r c t s ht
  rw [Option.map_some']
  rw [this]

/-- A collected boundary edge is an in-range position with no neighbor. -/
theorem mem_boundaryEdgesOf (g : TriangularGrid) (numRows tpr : Nat)
    (e : (Nat × Nat) × Side) (h : e ∈ boundaryEdgesOf g numRows tpr) :
    e.1.1 < numRows ∧ e.1.2 < tpr ∧ g.neighborCoords e.1.1 e.1.2 e.2 = none := by
  unfold boundaryEdgesOf at h
  rw [List.mem_bind] at h
  obtain ⟨row, hrow, h⟩ := h
  rw [List.mem_bind] at h
  obtain ⟨col, hcol, h⟩ := h
  rw [List.mem_filterMap] at h
  obtain ⟨s, _, h⟩ := h
  cases hnb : g.neighborCoords row col s with
  | some nb => rw [hnb] at h; cases h
  | none =>
    rw [hnb] at h
    dsimp only at h
    cases h
    exact ⟨List.mem_range.mp hrow, List.mem_range.mp hcol, hnb⟩

/-- A collected internal edge has a neighbor at its recorded end. -/
theorem mem_internalEdgesOf (g : TriangularGrid) (numRows tpr : Nat)
    (e : (Nat × Nat) × Side) (h : e ∈ internalEdgesOf g numRows tpr) :
    ∃ nb, g.neighborCoords e.1.1 e.1.2 e.2 = some nb := by
  unfold internalEdgesOf at h
  rw [List.mem_bind] at h
  obtain ⟨row, hrow, h⟩ := h
  rw [List.mem_bind] at h
  obtain ⟨col, hcol, h⟩ := h
  rw [List.mem_filterMap] at h
  obtain ⟨s, _, h⟩ := h
  cases hnb : g.neighborCoords row col s with
  | none => rw [hnb] at h; cases h
  | some nb =>
    rw [hnb] at h
    dsimp only at h
    by_cases hk : keyLt (row, col) nb
    · rw [if_pos hk] at h
      cases h
      exact ⟨nb, hnb⟩
    · rw [if_neg hk] at h
      cases h

/-- The boundary edge list is nonempty on a nondegenerate grid: the left
side of the triangle at (0, 0) never has a neighbor. -/
theorem boundaryEdgesOf_ne_nil (g : TriangularGrid) (numRows tpr : Nat)
    (h1 : 0 < numRows) (h2 : 0 < tpr) : boundaryEdgesOf g numRows tpr ≠ [] := by
  intro hnil
  have hmem : ((0, 0), Side.left) ∈ boundaryEdgesOf g numRows tpr := by
    unfold boundaryEdgesOf
    rw [List.mem_bind]
    refine ⟨0, List.mem_range.mpr h1, ?_⟩
    rw [List.mem_bind]
    refine ⟨0, List.mem_range.mpr h2, ?_⟩
    rw [List.mem_filterMap]
    refine ⟨Side.left, by simp, ?_⟩
    have hn : g.neighborCoords 0 0 Side.left = none := by
      rw [TriangularGrid.neighborCoords]
      cases g.getTriangle 0 0 <;> simp
    rw [hn]
  rw [hnil] at hmem
  cases hmem

/-- A swap keeps list membership. -/
theorem mem_listSwap {α : Type} (l : List α) (i j : Nat) (x : α)
    (h : x ∈ listSwap l i j) : x ∈ l := by
  unfold listSwap at h
  cases hi : l[i]? with
  | none => rw [hi] at h; dsimp only at h; exact h
  | some a =>
    cases hj : l[j]? with
    | none => rw [hi, hj] at h; dsimp only at h; exact h
    | some b =>
      rw [hi, hj] at h
      dsimp only at h
      rcases List.mem_or_eq_of_mem_set h with h2 | rfl
      · rcases List.mem_or_eq_of_mem_set h2 with h3 | rfl
        · exact h3
        · exact List.getElem?_mem hj
      · exact List.getElem?_mem hi

/-- The shuffle loop keeps list membership. -/
theorem mem_fyLoop {α : Type} (oracle : Nat → Nat) (k : Nat) (arr : List α)
    (i : Nat) (x : α) (h : x ∈ (fyLoop oracle k arr i).1) : x ∈ arr := by
  induction i generalizing k arr with
  | zero => exact h
  | succ i ih => exact mem_listSwap _ _ _ x (ih _ _ h)

/-- The shuffle keeps list membership. -/
theorem mem_fisherYates {α : Type} (oracle : Nat → Nat) (k : Nat) (arr : List α)
    (x : α) (h : x ∈ (fisherYates oracle k arr).1) : x ∈ arr :=
  mem_fyLoop oracle k arr _ x h

/-- The density-fill loop only opens internal edges when every listed edge
has a neighbor at its recorded end. -/
theorem densityFill_internalOpens (g : TriangularGrid)
    (edges : List ((Nat × Nat) × Side))
    (hedges : ∀ e ∈ edges, ∃ nb, g.neighborCoords e.1.1 e.1.2 e.2 = some nb) :
    InternalOpens g (densityFill g edges) := by
  induction edges generalizing g with
  | nil => exact InternalOpens.refl g
  | cons e rest ih =>
    obtain ⟨nb, hnb⟩ := hedges e (by simp)
    refine InternalOpens.step g _ e.1.1 e.1.2 e.2 nb.1 nb.2 hnb ?_
    show InternalOpens (g.setSideState e.1.1 e.1.2 e.2 SideState.empty)
      (densityFill (g.setSideState e.1.1 e.1.2 e.2 SideState.empty) rest)
    apply ih
    intro e2 he2
    obtain ⟨nb2, hnb2⟩ := hedges e2 (by simp [he2])
    refine ⟨nb2, ?_⟩
    rw [TriangularGrid.neighborCoords_setSideState]
    exact hnb2

/-- The carve phase only opens internal edges of the all-mirror grid. -/
theorem carveStage_internalOpens (numRows tpr : Nat) (oracle : Nat → Nat) :
    InternalOpens (mirrorFill numRows tpr) (carveStage numRows tpr oracle).1 :=
  dfsCarve_internalOpens oracle _ _ _ 0 (mirrorFill_pointsUpCoherent numRows tpr)

/-- The boundary edge chosen for the exit. -/
def exitEdgeOf (numRows tpr : Nat) (oracle : Nat → Nat) : (Nat × Nat) × Side :=
  (boundaryEdgesOf (mirrorFill numRows tpr) numRows tpr).getD
    (oracle (carveStage numRows tpr oracle).2.2
      % (boundaryEdgesOf (mirrorFill numRows tpr) numRows tpr).length)
    ((0, 0), Side.left)

/-- On a nondegenerate grid the exit phase is the exit write at the chosen
boundary edge. -/
theorem exitStage_eq (numRows tpr : Nat) (oracle : Nat → Nat)
    (h1 : 0 < numRows) (h2 : 0 < tpr) :
    exitStage numRows tpr oracle
      = exitWrite (carveStage numRows tpr oracle).1 (exitEdgeOf numRows tpr oracle) := by
  unfold exitStage pickExit
  rw [if_neg fun hl => boundaryEdgesOf_ne_nil (mirrorFill numRows tpr) numRows tpr
    h1 h2 (List.length_eq_zero.mp hl)]
  rfl

/-- The chosen exit edge is one of the collected boundary edges. -/
theorem exitEdgeOf_mem (numRows tpr : Nat) (oracle : Nat → Nat)
    (h1 : 0 < numRows) (h2 : 0 < tpr) :
    exitEdgeOf numRows tpr oracle
      ∈ boundaryEdgesOf (mirrorFill numRows tpr) numRows tpr := by
  have hlen : 0 < (boundaryEdgesOf (mirrorFill numRows tpr) numRows tpr).length :=
    Nat.pos_of_ne_zero fun hl => boundaryEdgesOf_ne_nil (mirrorFill numRows tpr)
      numRows tpr h1 h2 (List.length_eq_zero.mp hl)
  unfold exitEdgeOf
  rw [List.getD_eq_getElem _ _ (Nat.mod_lt _ hlen)]
  exact List.getElem_mem _

/-- C6: for every numRows >= 1 and trianglesPerRow >= 1, every random
stream (oracle) and every density-fill count, the grid produced by
generateRandomGrid has exactly one boundary side (an existing triangle's
side with no neighbor) whose state is empty -- the chosen exit -- and every
other boundary side has state mirror. -/
theorem generateRandomGrid_single_exit (numRows tpr : Nat) (h1 : 1 ≤ numRows)
    (h2 : 1 ≤ tpr) (oracle : Nat → Nat) (fillCount : Nat) :
    ∃ er ec : Nat, ∃ es : Side,
      (((TriangularGrid.generateRandomGrid numRows tpr oracle fillCount).getTriangle
          er ec).isSome
        ∧ (TriangularGrid.generateRandomGrid numRows tpr oracle
            fillCount).neighborCoords er ec es = none
        ∧ (TriangularGrid.generateRandomGrid numRows tpr oracle
            fillCount).sideStateAt er ec es = some SideState.empty)
      ∧ ∀ r c : Nat, ∀ s : Side,
          ((TriangularGrid.generateRandomGrid numRows tpr oracle
            fillCount).getTriangle r c).isSome →
          (TriangularGrid.generateRandomGrid numRows tpr oracle
            fillCount).neighborCoords r c s = none →
          ¬(r = er ∧ c = ec ∧ s = es) →
          (TriangularGrid.generateRandomGrid numRows tpr oracle
            fillCount).sideStateAt r c s = some SideState.mirror := by
  have hcoh1 : PointsUpCoherent (mirrorFill numRows tpr) :=
    mirrorFill_pointsUpCoherent numRows tpr
  have hcarve : InternalOpens (mirrorFill numRows tpr)
      (carveStage numRows tpr oracle).1 := carveStage_internalOpens numRows tpr oracle
  have hcoh2 : PointsUpCoherent (carveStage numRows tpr oracle).1 :=
    hcarve.pointsUpCoherent hcoh1
  have hexit_eq : exitStage numRows tpr oracle
      = exitWrite (carveStage numRows tpr oracle).1 (exitEdgeOf numRows tpr oracle) :=
    exitStage_eq numRows tpr oracle h1 h2
  obtain ⟨he_r, he_c, he_nb⟩ := mem_boundaryEdgesOf (mirrorFill numRows tpr)
    numRows tpr (exitEdgeOf numRows tpr oracle) (exitEdgeOf_mem numRows tpr oracle h1 h2)
  have hwiring3 : ∀ x y : Nat, ∀ u : Side,
      (exitStage numRows tpr oracle).neighborCoords x y u
        = (mirrorFill numRows tpr).neighborCoords x y u := by
    intro x y u
    rw [hexit_eq]
    unfold exitWrite
    rw [TriangularGrid.neighborCoords_setSideAt, hcarve.neighborCoords]
  have hcoh3 : PointsUpCoherent (exitStage numRows tpr oracle) := by
    rw [hexit_eq]
    exact hcoh2.setSideAt _ _ _ _
  have hfill : InternalOpens (exitStage numRows tpr oracle)
      (TriangularGrid.generateRandomGrid numRows tpr oracle fillCount) := by
    unfold TriangularGrid.generateRandomGrid
    apply densityFill_internalOpens
    intro e he
    have he2 := List.mem_of_mem_take he
    have he3 : e ∈ closedInternalOf numRows tpr oracle := mem_fisherYates _ _ _ _ he2
    have he4 : e ∈ internalEdgesOf (mirrorFill numRows tpr) numRows tpr :=
      List.mem_of_mem_filter he3
    obtain ⟨nb, hnb⟩ := mem_internalEdgesOf (mirrorFill numRows tpr) numRows tpr e he4
    refine ⟨nb, ?_⟩
    rw [hwiring3]
    exact hnb
  have hwiring4 : ∀ x y : Nat, ∀ u : Side,
      (TriangularGrid.generateRandomGrid numRows tpr oracle fillCount).neighborCoords
        x y u = (mirrorFill numRows tpr).neighborCoords x y u := by
    intro x y u
    rw [hfill.neighborCoords, hwiring3]
  have hshape4 : ∀ x y : Nat,
      ((TriangularGrid.generateRandomGrid numRows tpr oracle fillCount).getTriangle
        x y).isSome = ((mirrorFill numRows tpr).getTriangle x y).isSome := by
    intro x y
    rw [hfill.isSome_getTriangle, hexit_eq]
    unfold exitWrite
    rw [TriangularGrid.isSome_getTriangle_setSideAt, hcarve.isSome_getTriangle]
  have hex1 : ((mirrorFill numRows tpr).getTriangle (exitEdgeOf numRows tpr oracle).1.1
      (exitEdgeOf numRows tpr oracle).1.2).isSome :=
    mirrorFill_isSome numRows tpr _ _ he_r he_c
  refine ⟨(exitEdgeOf numRows tpr oracle).1.1, (exitEdgeOf numRows tpr oracle).1.2,
    (exitEdgeOf numRows tpr oracle).2, ⟨?_, ?_, ?_⟩, ?_⟩
  · rw [hshape4]
    exact hex1
  · rw [hwiring4]
    exact he_nb
  · apply hfill.sideStateAt_empty
    rw [hexit_eq]
    unfold exitWrite
    rw [TriangularGrid.sideStateAt_setSideAt, if_pos ⟨rfl, rfl, rfl⟩]
    have hex2 : ((carveStage numRows tpr oracle).1.getTriangle
        (exitEdgeOf numRows tpr oracle).1.1 (exitEdgeOf numRows tpr oracle).1.2).isSome := by
      rw [hcarve.isSome_getTriangle]
      exact hex1
    obtain ⟨t, ht⟩ := Option.isSome_iff_exists.mp hex2
    rw [ht]
    rfl
  · intro r c s hex hbnone hne
    have hbnone1 : (mirrorFill numRows tpr).neighborCoords r c s = none := by
      rw [← hwiring4 r c s]
      exact hbnone
    have hex1' : ((mirrorFill numRows tpr).getTriangle r c).isSome := by
      rw [← hshape4]
      exact hex
    have hbnone3 : (exitStage numRows tpr oracle).neighborCoords r c s = none := by
      rw [hwiring3]
      exact hbnone1
    rw [hfill.sideStateAt_of_no_neighbor r c s hcoh3 hbnone3, hexit_eq]
    unfold exitWrite
    rw [TriangularGrid.sideStateAt_setSideAt, if_neg hne,
      hcarve.sideStateAt_of_no_neighbor r c s hcoh1 hbnone1]
    exact mirrorFill_sideStateAt numRows tpr r c s hex1'

/-- C6 witness: the theorem applied to the one-triangle grid with the
constant-zero random stream and no density fill. -/
theorem generateRandomGrid_single_exit_witness :
    (1 ≤ 1 ∧ 1 ≤ 1) ∧
    (∃ er ec : Nat, ∃ es : Side,
      (((TriangularGrid.generateRandomGrid 1 1 (fun _ => 0) 0).getTriangle
          er ec).isSome
        ∧ (TriangularGrid.generateRandomGrid 1 1 (fun _ => 0)
            0).neighborCoords er ec es = none
        ∧ (TriangularGrid.generateRandomGrid 1 1 (fun _ => 0)
            0).sideStateAt er ec es = some SideState.empty)
      ∧ ∀ r c : Nat, ∀ s : Side,
          ((TriangularGrid.generateRandomGrid 1 1 (fun _ => 0)
            0).getTriangle r c).isSome →
          (TriangularGrid.generateRandomGrid 1 1 (fun _ => 0)
            0).neighborCoords r c s = none →
          ¬(r = er ∧ c = ec ∧ s = es) →
          (TriangularGrid.generateRandomGrid 1 1 (fun _ => 0)
            0).sideStateAt r c s = some SideState.mirror) :=
  ⟨⟨le_refl 1, le_refl 1⟩,
    generateRandomGrid_single_exit 1 1 (le_refl 1) (le_refl 1) (fun _ => 0) 0⟩

/-- The row count is invariant under a call sequence. -/
theorem TriangularGrid.getRowCount_applyCalls (g : TriangularGrid)
    (calls : List SideCall) :
    (g.applyCalls calls).getRowCount = g.getRowCount := by
  induction calls generalizing g with
  | nil => rfl
  | cons call rest ih =>
    rw [show g.applyCalls (call :: rest)
      = (g.setSideState call.row call.col call.side call.state).applyCalls rest from rfl]
    rw [ih, TriangularGrid.getRowCount_setSideState]

/-- Row lengths are invariant under a call sequence. -/
theorem TriangularGrid.getRowLength_applyCalls (g : TriangularGrid)
    (calls : List SideCall) (r : Nat) :
    (g.applyCalls calls).getRowLength r = g.getRowLength r := by
  induction calls generalizing g with
  | nil => rfl
  | cons call rest ih =>
    rw [show g.applyCalls (call :: rest)
      = (g.setSideState call.row call.col call.side call.state).applyCalls rest from rfl]
    rw [ih, TriangularGrid.getRowLength_setSideState]

/-- The row count of a fresh grid. -/
theorem TriangularGrid.initialize_getRowCount (numRows tpr : Nat) :
    (TriangularGrid.initGrid numRows tpr).getRowCount = numRows := by
  unfold TriangularGrid.initGrid TriangularGrid.getRowCount
  simp

/-- The row count after the all-mirror pass. -/
theorem mirrorFill_getRowCount (numRows tpr : Nat) :
    (mirrorFill numRows tpr).getRowCount = numRows := by
  unfold mirrorFill
  rw [TriangularGrid.getRowCount_applyCalls, TriangularGrid.initialize_getRowCount]

/-- Row lengths after the all-mirror pass. -/
theorem mirrorFill_getRowLength (numRows tpr r : Nat) :
    (mirrorFill numRows tpr).getRowLength r = if r < numRows then tpr else 0 := by
  unfold mirrorFill
  rw [TriangularGrid.getRowLength_applyCalls, TriangularGrid.initialize_getRowLength]

/-- Triangle existence after the all-mirror pass. -/
theorem mirrorFill_isSome_iff (numRows tpr r c : Nat) :
    ((mirrorFill numRows tpr).getTriangle r c).isSome = true
      ↔ (r < numRows ∧ c < tpr) := by
  rw [TriangularGrid.getTriangle_isSome_iff, mirrorFill_getRowLength]
  by_cases hr : r < numRows
  · rw [if_pos hr]
    exact ⟨fun h => ⟨hr, h⟩, fun h => h.2⟩
  · rw [if_neg hr]
    exact ⟨fun h => absurd h (by omega), fun h => absurd h.1 hr⟩

/-- The all-mirror grid is edge-symmetric: both views of every internal
edge read mirror. -/
theorem mirrorFill_edgeSymmetric (numRows tpr : Nat) :
    EdgeSymmetric (mirrorFill numRows tpr) := by
  intro r c s nr nc hnbc
  have hsrc := (mirrorFill numRows tpr).getTriangle_isSome_of_neighborCoords hnbc
  have hdst := (mirrorFill numRows tpr).getTriangle_of_neighborCoords hnbc
  rw [mirrorFill_sideStateAt numRows tpr r c s hsrc,
    mirrorFill_sideStateAt numRows tpr nr nc _ hdst]

/-- Two triangles are adjacent through an empty side: the edges of the
breadth-first traversal the specification describes. -/
def EmptyAdj (g : TriangularGrid) (p q : Nat × Nat) : Prop :=
  ∃ s : Side, g.neighborCoords p.1 p.2 s = some q ∧
    g.sideStateAt p.1 p.2 s = some SideState.empty

/-- Reachability along empty sides. -/
def Reach (g : TriangularGrid) (p q : Nat × Nat) : Prop :=
  Relation.ReflTransGen (EmptyAdj g) p q

/-- Empty-side adjacency persists while internal edges are opened. -/
theorem EmptyAdj.mono_opens {g g' : TriangularGrid}
    (h : InternalOpens g g') {p q : Nat × Nat} (ha : EmptyAdj g p q) :
    EmptyAdj g' p q := by
  obtain ⟨s, hnb, he⟩ := ha
  exact ⟨s, by rw [h.neighborCoords]; exact hnb, h.sideStateAt_empty _ _ _ he⟩

/-- Reachability persists while internal edges are opened. -/
theorem Reach.mono_along_opens {g g' : TriangularGrid}
    (h : InternalOpens g g') {p q : Nat × Nat} (hr : Reach g p q) :
    Reach g' p q :=
  Relation.ReflTransGen.mono (fun _ _ ha => ha.mono_opens h) hr

/-- Empty-side adjacency persists under any non-propagating empty write. -/
theorem EmptyAdj.persist_setSideAt {g : TriangularGrid} (r c : Nat) (s : Side)
    {p q : Nat × Nat} (ha : EmptyAdj g p q) :
    EmptyAdj (g.setSideAt r c s SideState.empty) p q := by
  obtain ⟨u, hnb, he⟩ := ha
  refine ⟨u, by rw [TriangularGrid.neighborCoords_setSideAt]; exact hnb, ?_⟩
  rw [TriangularGrid.sideStateAt_setSideAt]
  by_cases hpos : p.1 = r ∧ p.2 = c ∧ u = s
  · rw [if_pos hpos]
    obtain ⟨rfl, rfl, rfl⟩ := hpos
    unfold TriangularGrid.sideStateAt at he
    cases hgt : g.getTriangle p.1 p.2 with
    | none => rw [hgt] at he; cases he
    | some t => rfl
  · rw [if_neg hpos]
    exact he

/-- Reachability persists under any non-propagating empty write. -/
theorem Reach.persist_along_setSideAt {g : TriangularGrid} (r c : Nat) (s : Side)
    {p q : Nat × Nat} (hr : Reach g p q) :
    Reach (g.setSideAt r c s SideState.empty) p q :=
  Relation.ReflTransGen.mono (fun _ _ ha => ha.persist_setSideAt r c s) hr

/-- A non-propagating write at a side with no neighbor keeps the grid
edge-symmetric: neither view of any internal edge is touched. -/
theorem EdgeSymmetric.setSideAt_of_no_neighbor {g : TriangularGrid}
    (hcoh : PointsUpCoherent g) (hsym : EdgeSymmetric g) (r c : Nat) (s : Side)
    (v : SideState) (hb : g.neighborCoords r c s = none) :
    EdgeSymmetric (g.setSideAt r c s v) := by
  intro r' c' s' nr' nc' hnbc'
  rw [TriangularGrid.neighborCoords_setSideAt] at hnbc'
  rw [TriangularGrid.sideStateAt_setSideAt, TriangularGrid.sideStateAt_setSideAt,
    if_neg ?hA, if_neg ?hB]
  case hA =>
    rintro ⟨rfl, rfl, rfl⟩
    have hs := g.neighborCoords_symm hcoh hnbc'
    rw [hb] at hnbc'
    cases hnbc'
  case hB =>
    rintro ⟨rfl, rfl, rfl⟩
    have hs := g.neighborCoords_symm hcoh hnbc'
    rw [hb] at hs
    cases hs
  exact hsym r' c' s' nr' nc' hnbc'

/-- Opening internal edges keeps the grid edge-symmetric. -/
theorem InternalOpens.edgeSymmetric {g g' : TriangularGrid}
    (h : InternalOpens g g') :
    PointsUpCoherent g → EdgeSymmetric g → EdgeSymmetric g' := by
  induction h with
  | refl g => exact fun _ => id
  | step g gfin r c s nr nc hnb htail ih =>
    intro hcoh hsym
    exact ih (hcoh.setSideState r c s SideState.empty)
      (EdgeSymmetric.preserved_setSideState hcoh hsym r c s SideState.empty)

/-- The exit phase never changes the neighbor wiring, with or without a
boundary edge to pick. -/
theorem exitStage_neighborCoords (numRows tpr : Nat) (oracle : Nat → Nat)
    (x y : Nat) (u : Side) :
    (exitStage numRows tpr oracle).neighborCoords x y u
      = (mirrorFill numRows tpr).neighborCoords x y u := by
  unfold exitStage pickExit
  by_cases hlen : (boundaryEdgesOf (mirrorFill numRows tpr) numRows tpr).length = 0
  · rw [if_pos hlen, (carveStage_internalOpens numRows tpr oracle).neighborCoords]
  · rw [if_neg hlen]
    unfold exitWrite
    rw [TriangularGrid.neighborCoords_setSideAt,
      (carveStage_internalOpens numRows tpr oracle).neighborCoords]

/-- The density fill only opens internal edges of the exit-phase grid. -/
theorem fill_internalOpens (numRows tpr : Nat) (oracle : Nat → Nat)
    (fillCount : Nat) :
    InternalOpens (exitStage numRows tpr oracle)
      (TriangularGrid.generateRandomGrid numRows tpr oracle fillCount) := by
  unfold TriangularGrid.generateRandomGrid
  apply densityFill_internalOpens
  intro e he
  have he2 := List.mem_of_mem_take he
  have he3 : e ∈ closedInternalOf numRows tpr oracle := mem_fisherYates _ _ _ _ he2
  have he4 : e ∈ internalEdgesOf (mirrorFill numRows tpr) numRows tpr :=
    List.mem_of_mem_filter he3
  obtain ⟨nb, hnb⟩ := mem_internalEdgesOf (mirrorFill numRows tpr) numRows tpr e he4
  refine ⟨nb, ?_⟩
  rw [exitStage_neighborCoords]
  exact hnb

/-- The produced grid keeps the neighbor wiring of the all-mirror grid. -/
theorem generateRandomGrid_neighborCoords (numRows tpr : Nat)
    (oracle : Nat → Nat) (fillCount : Nat) (x y : Nat) (u : Side) :
    (TriangularGrid.generateRandomGrid numRows tpr oracle fillCount).neighborCoords
      x y u = (mirrorFill numRows tpr).neighborCoords x y u := by
  rw [(fill_internalOpens numRows tpr oracle fillCount).neighborCoords,
    exitStage_neighborCoords]

/-- The produced grid keeps the triangles of the all-mirror grid. -/
theorem generateRandomGrid_isSome_getTriangle (numRows tpr : Nat)
    (oracle : Nat → Nat) (fillCount : Nat) (x y : Nat) :
    ((TriangularGrid.generateRandomGrid numRows tpr oracle
        fillCount).getTriangle x y).isSome
      = ((mirrorFill numRows tpr).getTriangle x y).isSome := by
  rw [(fill_internalOpens numRows tpr oracle fillCount).isSome_getTriangle]
  unfold exitStage pickExit
  by_cases hlen : (boundaryEdgesOf (mirrorFill numRows tpr) numRows tpr).length = 0
  · rw [if_pos hlen, (carveStage_internalOpens numRows tpr oracle).isSome_getTriangle]
  · rw [if_neg hlen]
    unfold exitWrite
    rw [TriangularGrid.isSome_getTriangle_setSideAt,
      (carveStage_internalOpens numRows tpr oracle).isSome_getTriangle]

/-- The left wiring of the all-mirror grid at an in-range position. -/
theorem mirrorFill_neighborCoords_left (numRows tpr r c : Nat)
    (hr : r < numRows) (hc : c < tpr) :
    (mirrorFill numRows tpr).neighborCoords r c Side.left
      = if 0 < c then some (r, c - 1) else none := by
  obtain ⟨t, ht⟩ := Option.isSome_iff_exists.mp
    ((mirrorFill_isSome_iff numRows tpr r c).mpr ⟨hr, hc⟩)
  rw [TriangularGrid.neighborCoords, ht, Option.some_bind]

/-- The right wiring of the all-mirror grid at an in-range position. -/
theorem mirrorFill_neighborCoords_right (numRows tpr r c : Nat)
    (hr : r < numRows) (hc : c < tpr) :
    (mirrorFill numRows tpr).neighborCoords r c Side.right
      = if c + 1 < tpr then some (r, c + 1) else none := by
  obtain ⟨t, ht⟩ := Option.isSome_iff_exists.mp
    ((mirrorFill_isSome_iff numRows tpr r c).mpr ⟨hr, hc⟩)
  rw [TriangularGrid.neighborCoords, ht, Option.some_bind,
    mirrorFill_getRowLength, if_pos hr]

/-- The third-side wiring of the all-mirror grid at an in-range position:
down one row for an up-pointing triangle, up one row for a down-pointing
one. -/
theorem mirrorFill_neighborCoords_third (numRows tpr r c : Nat)
    (hr : r < numRows) (hc : c < tpr) :
    (mirrorFill numRows tpr).neighborCoords r c Side.third
      = if (r + c) % 2 = 0 then
          (if r + 1 < numRows then some (r + 1, c) else none)
        else
          (if 0 < r then some (r - 1, c) else none) := by
  obtain ⟨t, ht⟩ := Option.isSome_iff_exists.mp
    ((mirrorFill_isSome_iff numRows tpr r c).mpr ⟨hr, hc⟩)
  rw [TriangularGrid.neighborCoords, ht, Option.some_bind]
  have hpar := mirrorFill_pointsUpCoherent numRows tpr r c t ht
  by_cases hp : (r + c) % 2 = 0
  · rw [if_pos (hpar.mpr hp), if_pos hp, mirrorFill_getRowCount,
      mirrorFill_getRowLength]
    by_cases h3 : r + 1 < numRows
    · rw [if_pos h3, if_pos ⟨h3, hc⟩, if_pos h3]
    · rw [if_neg h3, if_neg (by tauto), if_neg h3]
  · rw [if_neg (fun hu => hp (hpar.mp hu)), if_neg hp, mirrorFill_getRowLength]
    by_cases h3 : 0 < r
    · have hrm : r - 1 < numRows := by omega
      rw [if_pos h3, if_pos ⟨h3, by rwa [if_pos hrm]⟩]
    · rw [if_neg h3, if_neg (by tauto)]

/-- Opening the canonical edge for the pair (cur, nb, s) leaves cur's side s
empty, whichever end is canonical: the propagating write always covers both
views of the edge. -/
theorem openCanonEdge_sideStateAt_cur (g : TriangularGrid)
    (hcoh : PointsUpCoherent g) (cur nb : Nat × Nat) (s : Side)
    (hnbc : g.neighborCoords cur.1 cur.2 s = some nb) :
    (openCanonEdge g (canonEdge cur nb s)).sideStateAt cur.1 cur.2 s
      = some SideState.empty := by
  obtain ⟨t, ht⟩ := Option.isSome_iff_exists.mp
    (g.getTriangle_isSome_of_neighborCoords hnbc)
  unfold openCanonEdge canonEdge
  by_cases hk : keyLt cur nb
  · rw [if_pos hk]
    dsimp only
    rw [TriangularGrid.sideStateAt_setSideState_self, ht]
    rfl
  · rw [if_neg hk]
    dsimp only
    have hsymm : g.neighborCoords nb.1 nb.2 (getNeighborCorrespondingSide s)
        = some (cur.1, cur.2) := g.neighborCoords_symm hcoh hnbc
    unfold TriangularGrid.setSideState
    rw [hsymm]
    dsimp only
    rw [TriangularGrid.sideStateAt_setSideAt, corr_corr, if_pos ⟨rfl, rfl, rfl⟩,
      TriangularGrid.getTriangle_setSideAt]
    have hne : ¬(cur.1 = nb.1 ∧ cur.2 = nb.2) := by
      have h0 := g.neighborCoords_ne_self hnbc
      exact fun hx => h0 ⟨hx.1.symm, hx.2.symm⟩
    rw [if_neg hne, ht]
    rfl

/-- When the candidate list of the stack top is empty, every neighbor of the
top is already visited. -/
theorem dfsCandidates_nil_closed (g : TriangularGrid) (cur : Nat × Nat)
    (visited : List (Nat × Nat))
    (hc : (dfsCandidates g cur visited).length = 0) :
    ∀ s : Side, ∀ nb : Nat × Nat,
      g.neighborCoords cur.1 cur.2 s = some nb → nb ∈ visited := by
  intro s nb hnb
  have hnil : dfsCandidates g cur visited = [] := List.length_eq_zero.mp hc
  unfold dfsCandidates at hnil
  rw [List.filterMap_eq_nil] at hnil
  have hs := hnil s (by cases s <;> simp)
  rw [hnb] at hs
  dsimp only at hs
  by_cases hv : nb ∈ visited
  · exact hv
  · rw [if_neg hv] at hs
    cases hs

/-- Walking left edges: a visited position pulls the whole row prefix into
any neighbor-closed set. -/
theorem base_closure_row_down (numRows tpr : Nat) (V : List (Nat × Nat))
    (hclosed : ∀ p ∈ V, ∀ s : Side, ∀ nb : Nat × Nat,
      (mirrorFill numRows tpr).neighborCoords p.1 p.2 s = some nb → nb ∈ V)
    (r : Nat) (hr : r < numRows) :
    ∀ c : Nat, c < tpr → (r, c) ∈ V → (r, 0) ∈ V := by
  intro c
  induction c with
  | zero => exact fun _ h => h
  | succ c ih =>
    intro hc hmem
    have hnb : (mirrorFill numRows tpr).neighborCoords r (c + 1) Side.left
        = some (r, c) := by
      rw [mirrorFill_neighborCoords_left numRows tpr r (c + 1) hr hc,
        if_pos (Nat.succ_pos c)]
      rfl
    exact ih (by omega) (hclosed (r, c + 1) hmem Side.left (r, c) hnb)

/-- Walking right edges: the head of a row pulls the whole row into any
neighbor-closed set. -/
theorem base_closure_row_up (numRows tpr : Nat) (V : List (Nat × Nat))
    (hclosed : ∀ p ∈ V, ∀ s : Side, ∀ nb : Nat × Nat,
      (mirrorFill numRows tpr).neighborCoords p.1 p.2 s = some nb → nb ∈ V)
    (r : Nat) (hr : r < numRows) (h0 : (r, 0) ∈ V) :
    ∀ c : Nat, c < tpr → (r, c) ∈ V := by
  intro c
  induction c with
  | zero => exact fun _ => h0
  | succ c ih =>
    intro hc
    have hc' : c < tpr := by omega
    have hnb : (mirrorFill numRows tpr).neighborCoords r c Side.right
        = some (r, c + 1) := by
      rw [mirrorFill_neighborCoords_right numRows tpr r c hr hc', if_pos hc]
    exact hclosed (r, c) (ih hc') Side.right (r, c + 1) hnb

/-- A full visited row pulls a triangle of the next row into any
neighbor-closed set: an up-pointing triangle of the row exists whenever the
rows are wide enough (or the grid is too short to need one). -/
theorem base_closure_step_up (numRows tpr : Nat) (V : List (Nat × Nat))
    (hclosed : ∀ p ∈ V, ∀ s : Side, ∀ nb : Nat × Nat,
      (mirrorFill numRows tpr).neighborCoords p.1 p.2 s = some nb → nb ∈ V)
    (hdim : 2 ≤ tpr ∨ numRows ≤ 2) (r : Nat) (hr1 : r + 1 < numRows)
    (hall : ∀ cc, cc < tpr → (r, cc) ∈ V) (h2 : 0 < tpr) :
    ∃ c1, c1 < tpr ∧ (r + 1, c1) ∈ V := by
  have hcval : r % 2 < tpr := by omega
  have hpar : (r + r % 2) % 2 = 0 := by omega
  have hnb : (mirrorFill numRows tpr).neighborCoords r (r % 2) Side.third
      = some (r + 1, r % 2) := by
    rw [mirrorFill_neighborCoords_third numRows tpr r (r % 2) (by omega) hcval,
      if_pos hpar, if_pos hr1]
  exact ⟨r % 2, hcval, hclosed (r, r % 2) (hall _ hcval) Side.third _ hnb⟩

/-- A full visited row pulls a triangle of the previous row into any
neighbor-closed set, through a down-pointing triangle of the row. -/
theorem base_closure_step_down (numRows tpr : Nat) (V : List (Nat × Nat))
    (hclosed : ∀ p ∈ V, ∀ s : Side, ∀ nb : Nat × Nat,
      (mirrorFill numRows tpr).neighborCoords p.1 p.2 s = some nb → nb ∈ V)
    (hdim : 2 ≤ tpr ∨ numRows ≤ 2) (r : Nat) (hr : r < numRows) (h0 : 0 < r)
    (hall : ∀ cc, cc < tpr → (r, cc) ∈ V) (h2 : 0 < tpr) :
    ∃ c1, c1 < tpr ∧ (r - 1, c1) ∈ V := by
  have hcval : (r + 1) % 2 < tpr := by omega
  have hpar : ¬((r + (r + 1) % 2) % 2 = 0) := by omega
  have hnb : (mirrorFill numRows tpr).neighborCoords r ((r + 1) % 2) Side.third
      = some (r - 1, (r + 1) % 2) := by
    rw [mirrorFill_neighborCoords_third numRows tpr r ((r + 1) % 2) hr hcval,
      if_neg hpar, if_pos h0]
  exact ⟨(r + 1) % 2, hcval, hclosed (r, (r + 1) % 2) (hall _ hcval) Side.third _ hnb⟩

/-- Any set closed under the base neighbor wiring that contains the carve
start position contains every triangle position, provided the base
adjacency graph is connected (rows of width at least 2, or at most 2
rows). -/
theorem base_closure (numRows tpr : Nat) (V : List (Nat × Nat))
    (h2 : 0 < tpr) (hdim : 2 ≤ tpr ∨ numRows ≤ 2)
    (hclosed : ∀ p ∈ V, ∀ s : Side, ∀ nb : Nat × Nat,
      (mirrorFill numRows tpr).neighborCoords p.1 p.2 s = some nb → nb ∈ V)
    (hstart : (numRows / 2, tpr / 2) ∈ V) :
    ∀ r c : Nat, r < numRows → c < tpr → (r, c) ∈ V := by
  intro r c hr hc
  have h1 : 0 < numRows := by omega
  have hfull : ∀ rr, rr < numRows → (∃ c0, c0 < tpr ∧ (rr, c0) ∈ V) →
      ∀ cc, cc < tpr → (rr, cc) ∈ V := by
    rintro rr hrr ⟨c0, hc0, hm⟩ cc hcc
    exact base_closure_row_up numRows tpr V hclosed rr hrr
      (base_closure_row_down numRows tpr V hclosed rr hrr c0 hc0 hm) cc hcc
  have hs0r : numRows / 2 < numRows := by omega
  have hstartfull : ∀ cc, cc < tpr → (numRows / 2, cc) ∈ V :=
    hfull _ hs0r ⟨tpr / 2, by omega, hstart⟩
  have hup : ∀ d, numRows / 2 + d < numRows →
      ∀ cc, cc < tpr → (numRows / 2 + d, cc) ∈ V := by
    intro d
    induction d with
    | zero => exact fun _ => hstartfull
    | succ d ih =>
      intro h
      have hprev : numRows / 2 + d < numRows := by omega
      obtain ⟨c1, hc1, hm1⟩ := base_closure_step_up numRows tpr V hclosed hdim
        (numRows / 2 + d) (by omega) (ih hprev) h2
      exact hfull _ (by omega) ⟨c1, hc1, hm1⟩
  have hdown : ∀ d, d ≤ numRows / 2 →
      ∀ cc, cc < tpr → (numRows / 2 - d, cc) ∈ V := by
    intro d
    induction d with
    | zero => exact fun _ => hstartfull
    | succ d ih =>
      intro hd
      have hpos : 0 < numRows / 2 - d := by omega
      obtain ⟨c1, hc1, hm1⟩ := base_closure_step_down numRows tpr V hclosed hdim
        (numRows / 2 - d) (by omega) hpos (ih (by omega)) h2
      exact hfull _ (by omega) ⟨c1, hc1, hm1⟩
  by_cases hge : numRows / 2 ≤ r
  · have := hup (r - numRows / 2) (by omega) c hc
    rwa [show numRows / 2 + (r - numRows / 2) = r from by omega] at this
  · have := hdown (numRows / 2 - r) (by omega) c hc
    rwa [show numRows / 2 - (numRows / 2 - r) = r from by omega] at this

/-- The randomized carve loop: every visited position is reachable from any
position already reachable to the whole visited set, and on termination the
visited set is closed under the neighbor wiring.  Stated for any loop state
whose stack is visited, whose visited set is reachable from start, and
whose popped positions are neighbor-closed. -/
theorem dfsCarve_reach_closed (oracle : Nat → Nat) (g : TriangularGrid)
    (visited stack : List (Nat × Nat)) (k : Nat) :
    ∀ start : Nat × Nat,
    PointsUpCoherent g →
    (∀ p ∈ stack, p ∈ visited) →
    (∀ p ∈ visited, Reach g start p) →
    (∀ p ∈ visited, p ∉ stack →
      ∀ s : Side, ∀ nb : Nat × Nat,
        g.neighborCoords p.1 p.2 s = some nb → nb ∈ visited) →
    (∀ p ∈ (dfsCarve oracle g visited stack k).2.1,
        Reach (dfsCarve oracle g visited stack k).1 start p)
      ∧ (∀ p ∈ (dfsCarve oracle g visited stack k).2.1,
          ∀ s : Side, ∀ nb : Nat × Nat, g.neighborCoords p.1 p.2 s = some nb →
            nb ∈ (dfsCarve oracle g visited stack k).2.1)
      ∧ (∀ p ∈ visited, p ∈ (dfsCarve oracle g visited stack k).2.1) := by
  induction g, visited, stack, k using dfsCarve.induct oracle with
  | case1 g visited k =>
    intro start hcoh hstk hreach hclosed
    have hres : dfsCarve oracle g visited [] k = (g, visited, k) := by
      rw [dfsCarve]
    rw [hres]
    exact ⟨hreach, fun p hp s nb hnb => hclosed p hp (List.not_mem_nil p) s nb hnb,
      fun p hp => hp⟩
  | case2 g visited k cur rest hc ih =>
    intro start hcoh hstk hreach hclosed
    have hres : dfsCarve oracle g visited (cur :: rest) k
        = dfsCarve oracle g visited rest k := by
      rw [dfsCarve]
      dsimp only
      rw [dif_pos hc]
    rw [hres]
    apply ih start hcoh (fun p hp => hstk p (List.mem_cons_of_mem _ hp)) hreach
    intro p hp hnr s nb hnb
    by_cases hpc : p = cur
    · subst hpc
      exact dfsCandidates_nil_closed g p visited hc s nb hnb
    · exact hclosed p hp (by simp [List.mem_cons, hpc, hnr]) s nb hnb
  | case3 g visited k cur rest hc choice ih =>
    intro start hcoh hstk hreach hclosed
    have hlt : oracle k % (dfsCandidates g cur visited).length
        < (dfsCandidates g cur visited).length :=
      Nat.mod_lt _ (Nat.pos_of_ne_zero hc)
    have hmem : choice ∈ dfsCandidates g cur visited := by
      show (dfsCandidates g cur visited).getD
        (oracle k % (dfsCandidates g cur visited).length) ((0, 0), (0, 0), Side.left)
        ∈ dfsCandidates g cur visited
      rw [List.getD_eq_getElem _ _ hlt]
      exact List.getElem_mem hlt
    obtain ⟨hnbc, hnv, hcur⟩ := mem_dfsCandidates g cur visited _ hmem
    have hres : dfsCarve oracle g visited (cur :: rest) k
        = dfsCarve oracle (openCanonEdge g (canonEdge choice.2.1 choice.1 choice.2.2))
          (choice.1 :: visited) (choice.1 :: cur :: rest) (k + 1) := by
      rw [dfsCarve]
      dsimp only
      rw [dif_neg hc]
    rw [hres, hcur]
    rw [hcur] at ih
    obtain ⟨q, hq⟩ := canonEdge_neighbor g hcoh cur choice.1 choice.2.2 hnbc
    have hopen : InternalOpens g (openCanonEdge g (canonEdge cur choice.1 choice.2.2)) :=
      InternalOpens.step g _ _ _ _ q.1 q.2 hq (InternalOpens.refl _)
    have hcoh' : PointsUpCoherent (openCanonEdge g (canonEdge cur choice.1 choice.2.2)) :=
      hcoh.setSideState _ _ _ SideState.empty
    have hwiring : ∀ x y : Nat, ∀ u : Side,
        (openCanonEdge g (canonEdge cur choice.1 choice.2.2)).neighborCoords x y u
          = g.neighborCoords x y u := fun x y u => hopen.neighborCoords x y u
    have hcurv : cur ∈ visited := hstk cur (List.mem_cons_self cur rest)
    have hstk' : ∀ p ∈ choice.1 :: cur :: rest, p ∈ choice.1 :: visited := by
      intro p hp
      rcases List.mem_cons.mp hp with rfl | hp2
      · exact List.mem_cons_self _ _
      · exact List.mem_cons_of_mem _ (hstk p hp2)
    have hreach' : ∀ p ∈ choice.1 :: visited,
        Reach (openCanonEdge g (canonEdge cur choice.1 choice.2.2)) start p := by
      intro p hp
      rcases List.mem_cons.mp hp with rfl | hpv
      · refine Relation.ReflTransGen.tail
          ((hreach cur hcurv).mono_along_opens hopen) ?_
        refine ⟨choice.2.2, ?_, ?_⟩
        · rw [hwiring]
          exact hnbc
        · exact openCanonEdge_sideStateAt_cur g hcoh cur choice.1 choice.2.2 hnbc
      · exact (hreach p hpv).mono_along_opens hopen
    have hclosed' : ∀ p ∈ choice.1 :: visited, p ∉ choice.1 :: cur :: rest →
        ∀ s : Side, ∀ nb : Nat × Nat,
          (openCanonEdge g (canonEdge cur choice.1 choice.2.2)).neighborCoords
            p.1 p.2 s = some nb → nb ∈ choice.1 :: visited := by
      intro p hp hns s nb hnb2
      rw [hwiring] at hnb2
      rcases List.mem_cons.mp hp with rfl | hpv
      · exact absurd (List.mem_cons_self _ _) hns
      · have hp3 : p ∉ cur :: rest := fun hmem2 => hns (List.mem_cons_of_mem _ hmem2)
        exact List.mem_cons_of_mem _ (hclosed p hpv hp3 s nb hnb2)
    obtain ⟨c1, c2, c3⟩ := ih start hcoh' hstk' hreach' hclosed'
    refine ⟨c1, ?_, fun p hp => c3 p (List.mem_cons_of_mem _ hp)⟩
    intro p hp s nb hnb2
    refine c2 p hp s nb ?_
    rw [hwiring]
    exact hnb2

/-- C5 (amended): whenever the base adjacency graph of the dimensions is
connected -- rows at least 2 wide, or at most 2 rows -- the grid produced by
generateRandomGrid is connected through empty sides, for every random
stream and every density-fill count: from any triangle a traversal crossing
only empty sides reaches every other triangle.  (As frozen the claim is
false: with one-triangle rows and at least 3 rows the wiring itself
isolates a triangle, see the counterexample.) -/
theorem generateRandomGrid_connected (numRows tpr : Nat) (h1 : 1 ≤ numRows)
    (h2 : 1 ≤ tpr) (hdim : 2 ≤ tpr ∨ numRows ≤ 2) (oracle : Nat → Nat)
    (fillCount : Nat) :
    ∀ pr pc qr qc : Nat,
      ((TriangularGrid.generateRandomGrid numRows tpr oracle fillCount).getTriangle
        pr pc).isSome →
      ((TriangularGrid.generateRandomGrid numRows tpr oracle fillCount).getTriangle
        qr qc).isSome →
      Reach (TriangularGrid.generateRandomGrid numRows tpr oracle fillCount)
        (pr, pc) (qr, qc) := by
  intro pr pc qr qc hp hq
  have hp' : pr < numRows ∧ pc < tpr := (mirrorFill_isSome_iff numRows tpr pr pc).mp
    (by rw [← generateRandomGrid_isSome_getTriangle]; exact hp)
  have hq' : qr < numRows ∧ qc < tpr := (mirrorFill_isSome_iff numRows tpr qr qc).mp
    (by rw [← generateRandomGrid_isSome_getTriangle]; exact hq)
  have hcoh1 : PointsUpCoherent (mirrorFill numRows tpr) :=
    mirrorFill_pointsUpCoherent numRows tpr
  obtain ⟨c1, c2, c3⟩ := dfsCarve_reach_closed oracle (mirrorFill numRows tpr)
    [(numRows / 2, tpr / 2)] [(numRows / 2, tpr / 2)] 0 (numRows / 2, tpr / 2)
    hcoh1 (fun p hp => hp)
    (by
      intro p hp
      rcases List.mem_cons.mp hp with rfl | h
      · exact Relation.ReflTransGen.refl
      · exact absurd h (List.not_mem_nil p))
    (fun p hp hns => absurd hp hns)
  have hreach2 : ∀ p ∈ (carveStage numRows tpr oracle).2.1,
      Reach (carveStage numRows tpr oracle).1 (numRows / 2, tpr / 2) p := c1
  have hclosed2 : ∀ p ∈ (carveStage numRows tpr oracle).2.1,
      ∀ s : Side, ∀ nb : Nat × Nat,
        (mirrorFill numRows tpr).neighborCoords p.1 p.2 s = some nb →
        nb ∈ (carveStage numRows tpr oracle).2.1 := c2
  have hstartV : (numRows / 2, tpr / 2) ∈ (carveStage numRows tpr oracle).2.1 :=
    c3 _ (List.mem_cons_self _ _)
  have hallV : ∀ r c : Nat, r < numRows → c < tpr →
      (r, c) ∈ (carveStage numRows tpr oracle).2.1 :=
    base_closure numRows tpr _ h2 hdim hclosed2 hstartV
  have hreach3 : ∀ p ∈ (carveStage numRows tpr oracle).2.1,
      Reach (exitStage numRows tpr oracle) (numRows / 2, tpr / 2) p := by
    intro p hp
    unfold exitStage pickExit
    by_cases hlen : (boundaryEdgesOf (mirrorFill numRows tpr) numRows tpr).length = 0
    · rw [if_pos hlen]
      exact hreach2 p hp
    · rw [if_neg hlen]
      unfold exitWrite
      exact (hreach2 p hp).persist_along_setSideAt _ _ _
  have hreach4 : ∀ p ∈ (carveStage numRows tpr oracle).2.1,
      Reach (TriangularGrid.generateRandomGrid numRows tpr oracle fillCount)
        (numRows / 2, tpr / 2) p := fun p hp =>
    (hreach3 p hp).mono_along_opens (fill_internalOpens numRows tpr oracle fillCount)
  have hcoh2 : PointsUpCoherent (carveStage numRows tpr oracle).1 :=
    (carveStage_internalOpens numRows tpr oracle).pointsUpCoherent hcoh1
  have hcoh3 : PointsUpCoherent (exitStage numRows tpr oracle) := by
    unfold exitStage pickExit
    by_cases hlen : (boundaryEdgesOf (mirrorFill numRows tpr) numRows tpr).length = 0
    · rw [if_pos hlen]
      exact hcoh2
    · rw [if_neg hlen]
      unfold exitWrite
      exact hcoh2.setSideAt _ _ _ _
  have hcoh4 : PointsUpCoherent
      (TriangularGrid.generateRandomGrid numRows tpr oracle fillCount) :=
    (fill_internalOpens numRows tpr oracle fillCount).pointsUpCoherent hcoh3
  have hsym2 : EdgeSymmetric (carveStage numRows tpr oracle).1 :=
    (carveStage_internalOpens numRows tpr oracle).edgeSymmetric hcoh1
      (mirrorFill_edgeSymmetric numRows tpr)
  have hsym3 : EdgeSymmetric (exitStage numRows tpr oracle) := by
    unfold exitStage pickExit
    by_cases hlen : (boundaryEdgesOf (mirrorFill numRows tpr) numRows tpr).length = 0
    · rw [if_pos hlen]
      exact hsym2
    · rw [if_neg hlen]
      unfold exitWrite
      have hmemE : (boundaryEdgesOf (mirrorFill numRows tpr) numRows tpr).getD
          (oracle (carveStage numRows tpr oracle).2.2
            % (boundaryEdgesOf (mirrorFill numRows tpr) numRows tpr).length)
          ((0, 0), Side.left)
          ∈ boundaryEdgesOf (mirrorFill numRows tpr) numRows tpr := by
        rw [List.getD_eq_getElem _ _ (Nat.mod_lt _ (Nat.pos_of_ne_zero hlen))]
        exact List.getElem_mem _
      obtain ⟨_, _, hbnone⟩ := mem_boundaryEdgesOf (mirrorFill numRows tpr)
        numRows tpr _ hmemE
      apply EdgeSymmetric.setSideAt_of_no_neighbor hcoh2 hsym2
      rw [(carveStage_internalOpens numRows tpr oracle).neighborCoords]
      exact hbnone
  have hsym4 : EdgeSymmetric
      (TriangularGrid.generateRandomGrid numRows tpr oracle fillCount) :=
    (fill_internalOpens numRows tpr oracle fillCount).edgeSymmetric hcoh3 hsym3
  have hadj_symm : ∀ p q : Nat × Nat,
      EmptyAdj (TriangularGrid.generateRandomGrid numRows tpr oracle fillCount) p q →
      EmptyAdj (TriangularGrid.generateRandomGrid numRows tpr oracle fillCount) q p := by
    rintro p q ⟨s, hnb, he⟩
    refine ⟨getNeighborCorrespondingSide s, ?_, ?_⟩
    · exact (TriangularGrid.generateRandomGrid numRows tpr oracle
        fillCount).neighborCoords_symm hcoh4 hnb
    · rw [← hsym4 p.1 p.2 s q.1 q.2 hnb]
      exact he
  have hreach_symm : ∀ p q : Nat × Nat,
      Reach (TriangularGrid.generateRandomGrid numRows tpr oracle fillCount) p q →
      Reach (TriangularGrid.generateRandomGrid numRows tpr oracle fillCount) q p := by
    intro p q h
    induction h with
    | refl => exact Relation.ReflTransGen.refl
    | tail hab hbc ih =>
      exact Relation.ReflTransGen.trans
        (Relation.ReflTransGen.single (hadj_symm _ _ hbc)) ih
  exact Relation.ReflTransGen.trans
    (hreach_symm _ _ (hreach4 _ (hallV pr pc hp'.1 hp'.2)))
    (hreach4 _ (hallV qr qc hq'.1 hq'.2))

/-- C5 counterexample: with 3 rows of 1 triangle the triangle at (2, 0) has
no neighbors at all -- its left and right sides hit the row ends and its
third side points below the grid -- so no traversal of any kind reaches it:
the claim fails as frozen for numRows = 3, trianglesPerRow = 1 (here with
the zero random stream and no density fill). -/
theorem generateRandomGrid_connected_counterexample :
    ((TriangularGrid.generateRandomGrid 3 1 (fun _ => 0) 0).getTriangle 0 0).isSome
    ∧ ((TriangularGrid.generateRandomGrid 3 1 (fun _ => 0) 0).getTriangle 2 0).isSome
    ∧ ¬ Reach (TriangularGrid.generateRandomGrid 3 1 (fun _ => 0) 0) (0, 0) (2, 0) := by
  refine ⟨?_, ?_, ?_⟩
  · rw [generateRandomGrid_isSome_getTriangle]
    exact (mirrorFill_isSome_iff 3 1 0 0).mpr ⟨by norm_num, by norm_num⟩
  · rw [generateRandomGrid_isSome_getTriangle]
    exact (mirrorFill_isSome_iff 3 1 2 0).mpr ⟨by norm_num, by norm_num⟩
  · intro hreach
    rcases Relation.ReflTransGen.cases_tail hreach with heq | ⟨c, _, hadj⟩
    · exact absurd heq (by decide)
    · obtain ⟨s, hnb, _⟩ := hadj
      rw [generateRandomGrid_neighborCoords] at hnb
      have hsymm := (mirrorFill 3 1).neighborCoords_symm
        (mirrorFill_pointsUpCoherent 3 1) hnb
      have hnone : (mirrorFill 3 1).neighborCoords 2 0
          (getNeighborCorrespondingSide s) = none := by
        cases s <;> decide
      rw [hnone] at hsymm
      cases hsymm

/-- C5 witness: the amended theorem applied to the one-triangle grid. -/
theorem generateRandomGrid_connected_witness :
    (1 ≤ 1 ∧ 1 ≤ 1 ∧ ((2 : Nat) ≤ 1 ∨ (1 : Nat) ≤ 2)) ∧
    (∀ pr pc qr qc : Nat,
      ((TriangularGrid.generateRandomGrid 1 1 (fun _ => 0) 0).getTriangle
        pr pc).isSome →
      ((TriangularGrid.generateRandomGrid 1 1 (fun _ => 0) 0).getTriangle
        qr qc).isSome →
      Reach (TriangularGrid.generateRandomGrid 1 1 (fun _ => 0) 0)
        (pr, pc) (qr, qc)) :=
  ⟨⟨le_refl 1, le_refl 1, Or.inr (by decide)⟩,
    generateRandomGrid_connected 1 1 (le_refl 1) (le_refl 1) (Or.inr (by decide))
      (fun _ => 0) 0⟩

/-- A GridGraph node: triangle position and orientation.  The JS id string
"row,col,orientation" is in bijection with this triple. -/
abbrev GNode := Nat × Nat × Side

/-- The edge list of a node as built by GridGraph.buildFromGrid, in push
order: clockwise rotation, counter-clockwise rotation, then the forward_left
and forward_right movement edges when present.  The rotation target node
always exists (same triangle); movement edges follow movementEdgeTarget.
A position holding no triangle has no node and no edges. -/
def nodeEdges (g : TriangularGrid) (n : GNode) : List GNode :=
  match g.getTriangle n.1 n.2.1 with
  | none => []
  | some tri =>
    [(n.1, n.2.1, getRotatedOrientation n.2.2 tri.pointsUp true),
     (n.1, n.2.1, getRotatedOrientation n.2.2 tri.pointsUp false)]
    ++ (match g.movementEdgeTarget n.1 n.2.1 n.2.2 Direction.forward_left with
        | some t => [t]
        | none => [])
    ++ (match g.movementEdgeTarget n.1 n.2.1 n.2.2 Direction.forward_right with
        | some t => [t]
        | none => [])

/-- One GridGraph edge from a to b (rotation or movement). -/
def GraphStep (g : TriangularGrid) (a b : GNode) : Prop :=
  b ∈ nodeEdges g a

instance (g : TriangularGrid) (a b : GNode) : Decidable (GraphStep g a b) := by
  unfold GraphStep
  infer_instance

/-- The Manhattan-distance heuristic of GameState. -/
def manhattanDistance (a b : GNode) : Nat :=
  ((a.1 : Int) - (b.1 : Int)).natAbs + ((a.2.1 : Int) - (b.2.1 : Int)).natAbs

/-- Map.set of a JS Map keyed by node id: update the first entry in place,
or append a new entry at the end (insertion order is preserved, as the A*
open-set iteration depends on it). -/
def setA {β : Type} : List (GNode × β) → GNode → β → List (GNode × β)
  | [], key, v => [(key, v)]
  | (k, w) :: rest, key, v =>
    if k = key then (k, v) :: rest else (k, w) :: setA rest key v

/-- The A* bookkeeping: the open set with its stored f scores in insertion
order, the closed set, the g scores and the parent map, all keyed by node. -/
structure AStarState where
  openSet : List (GNode × Nat)
  closedSet : List GNode
  gScore : List (GNode × Nat)
  cameFrom : List (GNode × GNode)

/-- The open-set scan of findPathAStar: starting from a first candidate,
take each later entry only when its stored f score is strictly lower
(ties keep the earliest entry). -/
def selectMin : List (GNode × Nat) → (GNode × Nat) → (GNode × Nat)
  | [], best => best
  | e :: rest, best => selectMin rest (if e.2 < best.2 then e else best)

/-- The relaxation of one neighbor edge of the current node: skip closed
nodes, otherwise compare the tentative g score (all edges cost 1) and on
improvement record the parent, the g score and the f score in the open set
(updating in place or appending, as Map.set does). -/
def relax (goal cur : GNode) (st : AStarState) (nb : GNode) : AStarState :=
  if nb ∈ st.closedSet then st
  else
    match List.lookup cur st.gScore with
    | none => st
    | some gcur =>
      if (match List.lookup nb st.gScore with
          | none => true
          | some gnb => decide (gcur + 1 < gnb)) = true then
        { openSet := setA st.openSet nb (gcur + 1 + manhattanDistance nb goal),
          closedSet := st.closedSet,
          gScore := setA st.gScore nb (gcur + 1),
          cameFrom := setA st.cameFrom nb cur }
      else st

/-- GameState.reconstructPath: walk the parent map from the goal back to the
root, returning the path in start-to-goal order.  The walk is fueled; the
g-score descent along parent links proves the fuel below is never
exhausted, and a shortfall reports none. -/
def reconstructPath : Nat → List (GNode × GNode) → GNode → Option (List GNode)
  | 0, _, _ => none
  | fuel + 1, cameFrom, current =>
    match List.lookup current cameFrom with
    | none => some [current]
    | some parent =>
      (reconstructPath fuel cameFrom parent).map fun path => path ++ [current]

/-- The main loop of GameState.findPathAStar: pick the open node with the
lowest stored f score (earliest on ties), return the reconstructed path cut
to the next 5 nodes past the start when it is the goal, otherwise close it
and relax all its edges in order.  The loop is fueled; each iteration
closes a distinct node, so the fuel given in findPathAStar covers every
run, and exhaustion returns the no-path answer. -/
def aStarLoop (g : TriangularGrid) (goal : GNode) :
    Nat → AStarState → List GNode
  | 0, _ => []
  | fuel + 1, st =>
    match st.openSet with
    | [] => []
    | h :: t =>
      if (selectMin t h).1 = goal then
        match reconstructPath (st.cameFrom.length + 1) st.cameFrom
            (selectMin t h).1 with
        | none => []
        | some path => (path.drop 1).take 5
      else
        aStarLoop g goal fuel
          ((nodeEdges g (selectMin t h).1).foldl (relax goal (selectMin t h).1)
            { openSet := st.openSet.filter fun e => decide ¬(e.1 = (selectMin t h).1),
              closedSet := (selectMin t h).1 :: st.closedSet,
              gScore := st.gScore,
              cameFrom := st.cameFrom })

/-- GameState.findPathAStar: initialize the open set, g score and f score of
the start node and run the loop.  One node is closed per iteration out of
at most 3 per triangle, so the fuel covers every run. -/
def findPathAStar (g : TriangularGrid) (startNode endNode : GNode) : List GNode :=
  aStarLoop g endNode (3 * (allCoords g).length + 1)
    ⟨[(startNode, manhattanDistance startNode endNode)], [],
      [(startNode, 0)], []⟩

/-- Reading back the key just written by Map.set. -/
theorem lookup_setA_self {β : Type} (l : List (GNode × β)) (k : GNode) (v : β) :
    List.lookup k (setA l k v) = some v := by
  induction l with
  | nil => simp [setA, List.lookup]
  | cons e rest ih =>
    obtain ⟨k', w⟩ := e
    unfold setA
    by_cases h : k' = k
    · subst h
      simp [List.lookup]
    · rw [if_neg h]
      rw [List.lookup]
      rw [show (k == k') = false from by simp [Ne.symm h]]
      exact ih

/-- Map.set leaves other keys unchanged. -/
theorem lookup_setA_ne {β : Type} (l : List (GNode × β)) (k : GNode) (v : β)
    (k2 : GNode) (h : ¬(k2 = k)) :
    List.lookup k2 (setA l k v) = List.lookup k2 l := by
  induction l with
  | nil =>
    have hbe : (k2 == k) = false := by simp [h]
    simp [setA, List.lookup, hbe]
  | cons e rest ih =>
    obtain ⟨k', w⟩ := e
    unfold setA
    by_cases h2 : k' = k
    · subst h2
      rw [if_pos rfl, List.lookup, List.lookup,
        show (k2 == k') = false from by simp [h]]
    · rw [if_neg h2, List.lookup, List.lookup]
      cases hbe : (k2 == k') with
      | true => rfl
      | false => exact ih

/-- An entry of a map after Map.set is the new pair or an old entry. -/
theorem mem_setA {β : Type} (l : List (GNode × β)) (k : GNode) (v : β)
    (pr : GNode × β) (h : pr ∈ setA l k v) : pr = (k, v) ∨ pr ∈ l := by
  induction l with
  | nil =>
    unfold setA at h
    rcases List.mem_cons.mp h with h2 | h2
    · exact Or.inl h2
    · cases h2
  | cons e rest ih =>
    obtain ⟨k', w⟩ := e
    unfold setA at h
    by_cases h2 : k' = k
    · subst h2
      rw [if_pos rfl] at h
      rcases List.mem_cons.mp h with h3 | h3
      · exact Or.inl h3
      · exact Or.inr (List.mem_cons_of_mem _ h3)
    · rw [if_neg h2] at h
      rcases List.mem_cons.mp h with h3 | h3
      · exact Or.inr (h3 ▸ List.mem_cons_self _ _)
      · rcases ih h3 with h4 | h4
        · exact Or.inl h4
        · exact Or.inr (List.mem_cons_of_mem _ h4)

/-- Map.set on an absent key appends the entry. -/
theorem setA_of_lookup_none {β : Type} (l : List (GNode × β)) (k : GNode) (v : β)
    (h : List.lookup k l = none) : setA l k v = l ++ [(k, v)] := by
  induction l with
  | nil => rfl
  | cons e rest ih =>
    obtain ⟨k', w⟩ := e
    rw [List.lookup] at h
    cases hbe : (k == k') with
    | true =>
      rw [hbe] at h
      cases h
    | false =>
      rw [hbe] at h
      unfold setA
      rw [if_neg (fun hh => (beq_eq_false_iff_ne.mp hbe) hh.symm), ih h,
        List.cons_append]

/-- Map.set on a present key keeps the map size. -/
theorem setA_length_of_lookup_some {β : Type} (l : List (GNode × β)) (k : GNode)
    (v : β) (w0 : β) (h : List.lookup k l = some w0) :
    (setA l k v).length = l.length := by
  induction l with
  | nil => cases h
  | cons e rest ih =>
    obtain ⟨k', w⟩ := e
    rw [List.lookup] at h
    unfold setA
    cases hbe : (k == k') with
    | true =>
      rw [if_pos (beq_iff_eq.mp hbe).symm]
      rfl
    | false =>
      rw [hbe] at h
      rw [if_neg (fun hh => (beq_eq_false_iff_ne.mp hbe) hh.symm)]
      simp only [List.length_cons, ih h]

/-- The open-set scan returns the first candidate or a listed entry. -/
theorem selectMin_mem (l : List (GNode × Nat)) (best : GNode × Nat) :
    selectMin l best = best ∨ selectMin l best ∈ l := by
  induction l generalizing best with
  | nil => exact Or.inl rfl
  | cons e rest ih =>
    unfold selectMin
    by_cases h : e.2 < best.2
    · rw [if_pos h]
      rcases ih e with h2 | h2
      · refine Or.inr ?_
        rw [h2]
        exact List.mem_cons_self _ _
      · exact Or.inr (List.mem_cons_of_mem _ h2)
    · rw [if_neg h]
      rcases ih best with h2 | h2
      · exact Or.inl h2
      · exact Or.inr (List.mem_cons_of_mem _ h2)

/-- A rotation never returns the same orientation. -/
theorem getRotatedOrientation_ne (o : Side) (up cw : Bool) :
    ¬(getRotatedOrientation o up cw = o) := by
  cases o <;> cases up <;> cases cw <;> decide

/-- The coordinates behind a neighbor reference. -/
theorem neighborCoords_of_neighborTriangle (g : TriangularGrid) {r c : Nat}
    {s : Side} {nbt : Nat × Nat × Triangle}
    (h : g.neighborTriangle r c s = some nbt) :
    g.neighborCoords r c s = some (nbt.1, nbt.2.1) := by
  unfold TriangularGrid.neighborTriangle at h
  cases hnc : g.neighborCoords r c s with
  | none =>
    rw [hnc] at h
    cases h
  | some p =>
    obtain ⟨a, b⟩ := p
    rw [hnc] at h
    dsimp only at h
    obtain ⟨t, _, rfl⟩ := Option.map_eq_some'.mp h
    rfl

/-- A movement edge never targets its own triangle. -/
theorem movementEdgeTarget_ne (g : TriangularGrid) (r c : Nat) (o : Side)
    (dir : Direction) (t : Nat × Nat × Side)
    (h : g.movementEdgeTarget r c o dir = some t) : ¬(t.1 = r ∧ t.2.1 = c) := by
  unfold TriangularGrid.movementEdgeTarget at h
  cases hgt : g.getTriangle r c with
  | none =>
    rw [hgt] at h
    cases h
  | some tri =>
    rw [hgt, Option.some_bind] at h
    by_cases hside : tri.getSideState o = SideState.empty
    · rw [if_pos hside] at h
      cases hnbt : g.neighborTriangle r c o with
      | none =>
        rw [hnbt] at h
        cases h
      | some nbt =>
        rw [hnbt, Option.some_bind] at h
        dsimp only at h
        by_cases hhas : g.hasGraphNode nbt.1 nbt.2.1 = true
        · rw [if_pos hhas] at h
          cases h
          have hnc := neighborCoords_of_neighborTriangle g hnbt
          exact g.neighborCoords_ne_self hnc
        · rw [if_neg hhas] at h
          cases h
    · rw [if_neg hside] at h
      cases h

/-- No node of the GridGraph has an edge to itself. -/
theorem nodeEdges_ne_self (g : TriangularGrid) (n nb : GNode)
    (h : nb ∈ nodeEdges g n) : ¬(nb = n) := by
  unfold nodeEdges at h
  cases hgt : g.getTriangle n.1 n.2.1 with
  | none =>
    rw [hgt] at h
    cases h
  | some tri =>
    rw [hgt] at h
    dsimp only at h
    rw [List.mem_append, List.mem_append] at h
    rcases h with (h | h) | h
    · rcases List.mem_cons.mp h with h2 | h2
      · intro heq
        rw [heq] at h2
        exact getRotatedOrientation_ne n.2.2 tri.pointsUp true
          (congrArg (fun x => x.2.2) h2).symm
      · rcases List.mem_cons.mp h2 with h3 | h3
        · intro heq
          rw [heq] at h3
          exact getRotatedOrientation_ne n.2.2 tri.pointsUp false
            (congrArg (fun x => x.2.2) h3).symm
        · cases h3
    · cases hmv : g.movementEdgeTarget n.1 n.2.1 n.2.2 Direction.forward_left with
      | none =>
        rw [hmv] at h
        cases h
      | some t =>
        rw [hmv] at h
        dsimp only at h
        rcases List.mem_cons.mp h with h2 | h2
        · intro heq
          have := movementEdgeTarget_ne g n.1 n.2.1 n.2.2 Direction.forward_left t hmv
          rw [heq] at h2
          exact this ⟨(congrArg (fun x => x.1) h2).symm,
            (congrArg (fun x => x.2.1) h2).symm⟩
        · cases h2
    · cases hmv : g.movementEdgeTarget n.1 n.2.1 n.2.2 Direction.forward_right with
      | none =>
        rw [hmv] at h
        cases h
      | some t =>
        rw [hmv] at h
        dsimp only at h
        rcases List.mem_cons.mp h with h2 | h2
        · intro heq
          have := movementEdgeTarget_ne g n.1 n.2.1 n.2.2 Direction.forward_right t hmv
          rw [heq] at h2
          exact this ⟨(congrArg (fun x => x.1) h2).symm,
            (congrArg (fun x => x.2.1) h2).symm⟩
        · cases h2

/-- The A* loop invariant: every parent link is a graph edge along which the
g score strictly increases, the start node is the unique parentless node
among those with a g score (and keeps g score 0), every open entry has a g
score, and g scores are bounded by the size of the parent map (the fuel
bound of the path reconstruction). -/
structure AStarInv (g : TriangularGrid) (start : GNode) (st : AStarState) :
    Prop where
  edges : ∀ n p : GNode, List.lookup n st.cameFrom = some p → n ∈ nodeEdges g p
  dec : ∀ n p : GNode, List.lookup n st.cameFrom = some p →
    ∃ gn gp : Nat, List.lookup n st.gScore = some gn ∧
      List.lookup p st.gScore = some gp ∧ gp < gn
  startRoot : List.lookup start st.cameFrom = none
  startZero : List.lookup start st.gScore = some 0
  rootOnly : ∀ n : GNode, ¬(n = start) → (List.lookup n st.gScore).isSome →
    (List.lookup n st.cameFrom).isSome
  openHasG : ∀ e ∈ st.openSet, (List.lookup e.1 st.gScore).isSome
  gBound : ∀ n : GNode, ∀ gn : Nat, List.lookup n st.gScore = some gn →
    gn ≤ st.cameFrom.length

/-- One relaxation step preserves the A* invariant. -/
theorem relax_inv (g : TriangularGrid) (start goal cur : GNode) (st : AStarState)
    (nb : GNode) (hnbe : nb ∈ nodeEdges g cur) (hne : ¬(nb = cur))
    (hinv : AStarInv g start st) : AStarInv g start (relax goal cur st nb) := by
  unfold relax
  by_cases hcl : nb ∈ st.closedSet
  · rw [if_pos hcl]
    exact hinv
  · rw [if_neg hcl]
    cases hg : List.lookup cur st.gScore with
    | none => exact hinv
    | some gcur =>
      dsimp only
      by_cases hup : (match List.lookup nb st.gScore with
          | none => true
          | some gnb => decide (gcur + 1 < gnb)) = true
      · rw [if_pos hup]
        have hnbs : ¬(nb = start) := by
          intro hEq
          rw [hEq, hinv.startZero] at hup
          dsimp only at hup
          exact absurd (of_decide_eq_true hup) (by omega)
        refine ⟨?_, ?_, ?_, ?_, ?_, ?_, ?_⟩
        · intro n p hl
          by_cases hn : n = nb
          · subst hn
            rw [lookup_setA_self] at hl
            cases hl
            exact hnbe
          · rw [lookup_setA_ne _ _ _ _ hn] at hl
            exact hinv.edges n p hl
        · intro n p hl
          by_cases hn : n = nb
          · subst hn
            rw [lookup_setA_self] at hl
            cases hl
            refine ⟨gcur + 1, gcur, lookup_setA_self _ _ _, ?_, Nat.lt_succ_self gcur⟩
            rw [lookup_setA_ne _ _ _ _ (fun hEq => hne hEq.symm)]
            exact hg
          · rw [lookup_setA_ne _ _ _ _ hn] at hl
            obtain ⟨gn, gp, h1, h2, h3⟩ := hinv.dec n p hl
            by_cases hp : p = nb
            · subst hp
              have hcond : gcur + 1 < gp := by
                rw [h2] at hup
                dsimp only at hup
                exact of_decide_eq_true hup
              refine ⟨gn, gcur + 1, ?_, lookup_setA_self _ _ _, by omega⟩
              rw [lookup_setA_ne _ _ _ _ hn]
              exact h1
            · refine ⟨gn, gp, ?_, ?_, h3⟩
              · rw [lookup_setA_ne _ _ _ _ hn]
                exact h1
              · rw [lookup_setA_ne _ _ _ _ hp]
                exact h2
        · rw [lookup_setA_ne _ _ _ _ (fun hEq => hnbs hEq.symm)]
          exact hinv.startRoot
        · rw [lookup_setA_ne _ _ _ _ (fun hEq => hnbs hEq.symm)]
          exact hinv.startZero
        · intro n hns hgsome
          by_cases hn : n = nb
          · subst hn
            rw [lookup_setA_self]
            rfl
          · rw [lookup_setA_ne _ _ _ _ hn] at hgsome
            rw [lookup_setA_ne _ _ _ _ hn]
            exact hinv.rootOnly n hns hgsome
        · intro e he
          rcases mem_setA _ _ _ _ he with hEq | hold
          · rw [hEq]
            dsimp only
            rw [lookup_setA_self]
            rfl
          · by_cases hE : e.1 = nb
            · rw [hE, lookup_setA_self]
              rfl
            · rw [lookup_setA_ne _ _ _ _ hE]
              exact hinv.openHasG e hold
        · intro n gn hl
          cases hOld : List.lookup nb st.gScore with
          | none =>
            have hcf : List.lookup nb st.cameFrom = none := by
              cases hcf2 : List.lookup nb st.cameFrom with
              | none => rfl
              | some p =>
                obtain ⟨gn2, gp2, h1, _, _⟩ := hinv.dec nb p hcf2
                rw [hOld] at h1
                cases h1
            show gn ≤ (setA st.cameFrom nb cur).length
            rw [setA_of_lookup_none _ _ _ hcf, List.length_append]
            have hlen1 : ([(nb, cur)] : List (GNode × GNode)).length = 1 := rfl
            rw [hlen1]
            by_cases hn : n = nb
            · subst hn
              rw [lookup_setA_self] at hl
              cases hl
              have := hinv.gBound cur gcur hg
              omega
            · rw [lookup_setA_ne _ _ _ _ hn] at hl
              have := hinv.gBound n gn hl
              omega
          | some gnb =>
            have hcf : (List.lookup nb st.cameFrom).isSome :=
              hinv.rootOnly nb hnbs (by rw [hOld]; rfl)
            obtain ⟨p0, hp0⟩ := Option.isSome_iff_exists.mp hcf
            show gn ≤ (setA st.cameFrom nb cur).length
            rw [setA_length_of_lookup_some _ _ _ p0 hp0]
            by_cases hn : n = nb
            · subst hn
              rw [lookup_setA_self] at hl
              cases hl
              have hcond : gcur + 1 < gnb := by
                rw [hOld] at hup
                dsimp only at hup
                exact of_decide_eq_true hup
              have := hinv.gBound n gnb hOld
              omega
            · rw [lookup_setA_ne _ _ _ _ hn] at hl
              exact hinv.gBound n gn hl
      · rw [if_neg hup]
        exact hinv

/-- Relaxing all edges of the current node preserves the A* invariant. -/
theorem foldl_relax_inv (g : TriangularGrid) (start goal cur : GNode)
    (edges : List GNode) (hsub : ∀ nb ∈ edges, nb ∈ nodeEdges g cur)
    (st : AStarState) (hinv : AStarInv g start st) :
    AStarInv g start (edges.foldl (relax goal cur) st) := by
  induction edges generalizing st with
  | nil => exact hinv
  | cons nb rest ih =>
    rw [List.foldl_cons]
    have hnbe : nb ∈ nodeEdges g cur := hsub nb (List.mem_cons_self _ _)
    exact ih (fun e he => hsub e (List.mem_cons_of_mem _ he)) _
      (relax_inv g start goal cur st nb hnbe (nodeEdges_ne_self g cur nb hnbe) hinv)

/-- Extend a chain by one relation step at its end. -/
theorem chain_snoc {α : Type} {r : α → α → Prop} (a : α) (l : List α) (b : α)
    (hch : List.Chain r a l) :
    ∀ c : α, (a :: l).getLast? = some c → r c b → List.Chain r a (l ++ [b]) := by
  induction l generalizing a with
  | nil =>
    intro c hlast hrb
    simp only [List.getLast?_singleton, Option.some.injEq] at hlast
    subst hlast
    exact List.Chain.cons hrb List.Chain.nil
  | cons x xs ih =>
    intro c hlast hrb
    cases hch with
    | cons hax hch' =>
      rw [List.getLast?_cons_cons] at hlast
      exact List.Chain.cons hax (ih x hch' c hlast hrb)

/-- A prefix of a chain is a chain. -/
theorem chain_take {α : Type} {r : α → α → Prop} :
    ∀ (l : List α) (a : α), List.Chain r a l → ∀ n : Nat, List.Chain r a (l.take n) := by
  intro l
  induction l with
  | nil =>
    intro a _ n
    rw [List.take_nil]
    exact List.Chain.nil
  | cons x xs ih =>
    intro a hch n
    cases hch with
    | cons hax hch' =>
      cases n with
      | zero => exact List.Chain.nil
      | succ n =>
        rw [List.take_succ_cons]
        exact List.Chain.cons hax (ih x hch' n)

/-- Under the A* invariant the parent walk succeeds within the g score of
the goal node plus one steps, starts at the start node, follows graph edges
throughout, ends at the queried node, and every node after the start has a
parent entry. -/
theorem reconstructPath_ok (g : TriangularGrid) (start : GNode)
    (cameFrom : List (GNode × GNode)) (gScore : List (GNode × Nat))
    (hedges : ∀ n p : GNode, List.lookup n cameFrom = some p → n ∈ nodeEdges g p)
    (hdec : ∀ n p : GNode, List.lookup n cameFrom = some p →
      ∃ gn gp : Nat, List.lookup n gScore = some gn ∧
        List.lookup p gScore = some gp ∧ gp < gn)
    (hroot : ∀ n : GNode, ¬(n = start) → (List.lookup n gScore).isSome →
      (List.lookup n cameFrom).isSome) :
    ∀ fuel gcur : Nat, ∀ cur : GNode, List.lookup cur gScore = some gcur →
      gcur < fuel →
      ∃ tail : List GNode, reconstructPath fuel cameFrom cur = some (start :: tail)
        ∧ List.Chain (GraphStep g) start tail
        ∧ (start :: tail).getLast? = some cur
        ∧ (∀ x ∈ tail, (List.lookup x cameFrom).isSome) := by
  intro fuel
  induction fuel with
  | zero =>
    intro gcur cur _ h
    omega
  | succ fuel ih =>
    intro gcur cur hcur hlt
    cases hcf : List.lookup cur cameFrom with
    | none =>
      by_cases hcs : cur = start
      · subst hcs
        refine ⟨[], ?_, List.Chain.nil, rfl, fun x hx => absurd hx (List.not_mem_nil x)⟩
        show reconstructPath (fuel + 1) cameFrom cur = some [cur]
        rw [reconstructPath, hcf]
      · exact absurd (hroot cur hcs (by rw [hcur]; rfl)) (by rw [hcf]; simp)
    | some parent =>
      obtain ⟨gn, gp, h1, h2, h3⟩ := hdec cur parent hcf
      rw [hcur] at h1
      cases h1
      obtain ⟨tail, hres, hchain, hlast, htail⟩ := ih gp parent h2 (by omega)
      refine ⟨tail ++ [cur], ?_, ?_, ?_, ?_⟩
      · show reconstructPath (fuel + 1) cameFrom cur
          = some (start :: (tail ++ [cur]))
        rw [reconstructPath, hcf]
        dsimp only
        rw [hres]
        rfl
      · exact chain_snoc start tail cur hchain parent hlast (hedges cur parent hcf)
      · rw [show start :: (tail ++ [cur]) = (start :: tail) ++ [cur] from rfl]
        exact List.getLast?_concat _
      · intro x hx
        rcases List.mem_append.mp hx with hx2 | hx2
        · exact htail x hx2
        · rcases List.mem_cons.mp hx2 with rfl | hx3
          · rw [hcf]
            rfl
          · cases hx3

/-- Soundness of the fueled A* loop: whatever it returns is at most 5 nodes,
never contains the start node, and prepending the start gives a walk along
GridGraph edges. -/
theorem aStarLoop_valid (g : TriangularGrid) (start goal : GNode) :
    ∀ fuel : Nat, ∀ st : AStarState, AStarInv g start st →
      (aStarLoop g goal fuel st).length ≤ 5
        ∧ start ∉ aStarLoop g goal fuel st
        ∧ List.Chain (GraphStep g) start (aStarLoop g goal fuel st) := by
  intro fuel
  induction fuel with
  | zero =>
    intro st _
    exact ⟨Nat.zero_le 5, List.not_mem_nil start, List.Chain.nil⟩
  | succ fuel ih =>
    intro st hinv
    cases hop : st.openSet with
    | nil =>
      have hres : aStarLoop g goal (fuel + 1) st = [] := by
        rw [aStarLoop, hop]
      rw [hres]
      exact ⟨Nat.zero_le 5, List.not_mem_nil start, List.Chain.nil⟩
    | cons h t =>
      by_cases hgoal : (selectMin t h).1 = goal
      · have hcur_mem : selectMin t h ∈ st.openSet := by
          rcases selectMin_mem t h with h2 | h2
          · rw [hop, h2]
            exact List.mem_cons_self _ _
          · rw [hop]
            exact List.mem_cons_of_mem _ h2
        obtain ⟨gcur, hgcur⟩ := Option.isSome_iff_exists.mp
          (hinv.openHasG _ hcur_mem)
        have hbound := hinv.gBound _ gcur hgcur
        obtain ⟨tail, hres, hchain, hlast, htail⟩ := reconstructPath_ok g start
          st.cameFrom st.gScore hinv.edges hinv.dec hinv.rootOnly
          (st.cameFrom.length + 1) gcur (selectMin t h).1 hgcur (by omega)
        have hres2 : aStarLoop g goal (fuel + 1) st = tail.take 5 := by
          rw [aStarLoop, hop]
          dsimp only
          rw [if_pos hgoal, hres]
          rfl
        rw [hres2]
        refine ⟨List.length_take_le _ _, ?_, ?_⟩
        · intro hmem
          have hsm := htail start (List.mem_of_mem_take hmem)
          rw [hinv.startRoot] at hsm
          cases hsm
        · exact chain_take tail start hchain 5
      · have hres : aStarLoop g goal (fuel + 1) st
            = aStarLoop g goal fuel ((nodeEdges g (selectMin t h).1).foldl
                (relax goal (selectMin t h).1)
                ⟨st.openSet.filter fun e => decide ¬(e.1 = (selectMin t h).1),
                 (selectMin t h).1 :: st.closedSet, st.gScore, st.cameFrom⟩) := by
          rw [aStarLoop, hop]
          dsimp only
          rw [if_neg hgoal]
        rw [hres]
        apply ih
        apply foldl_relax_inv g start goal (selectMin t h).1 _ (fun nb hb => hb)
        exact ⟨hinv.edges, hinv.dec, hinv.startRoot, hinv.startZero, hinv.rootOnly,
          fun e he => hinv.openHasG e (List.mem_of_mem_filter he), hinv.gBound⟩

/-- C9: for every grid (and the GridGraph built from it) and every pair of
existing start and end nodes joined by some sequence of GridGraph edges,
findPathAStar returns a list of at most 5 nodes that excludes the start
node, and prepending the start node gives a sequence in which each
consecutive pair is joined by a GridGraph edge (rotation or movement); a
chain of n nodes after the start traverses exactly n edges, so the edge
count equals the number of nodes returned. -/
theorem findPathAStar_valid (g : TriangularGrid) (startNode endNode : GNode)
    (hs : g.hasGraphNode startNode.1 startNode.2.1 = true)
    (he : g.hasGraphNode endNode.1 endNode.2.1 = true)
    (hpath : Relation.ReflTransGen (GraphStep g) startNode endNode) :
    (findPathAStar g startNode endNode).length ≤ 5
      ∧ startNode ∉ findPathAStar g startNode endNode
      ∧ List.Chain (GraphStep g) startNode (findPathAStar g startNode endNode) := by
  unfold findPathAStar
  apply aStarLoop_valid
  refine ⟨?_, ?_, rfl, ?_, ?_, ?_, ?_⟩
  · intro n p hl
    cases hl
  · intro n p hl
    cases hl
  · simp [List.lookup]
  · intro n hns hg
    rw [List.lookup, show (n == startNode) = false from by simp [hns]] at hg
    cases hg
  · intro e he2
    rcases List.mem_cons.mp he2 with rfl | he3
    · simp [List.lookup]
    · cases he3
  · intro n gn hl
    rw [List.lookup] at hl
    cases hbe : (n == startNode) with
    | true =>
      rw [hbe] at hl
      cases hl
      exact Nat.le_refl 0
    | false =>
      rw [hbe] at hl
      cases hl

/-- C9 witness: the theorem applied to the one-triangle grid, from the node
facing left to the node facing third (joined by one counter-clockwise
rotation edge). -/
theorem findPathAStar_valid_witness :
    ((TriangularGrid.initGrid 1 1).hasGraphNode 0 0 = true
      ∧ Relation.ReflTransGen (GraphStep (TriangularGrid.initGrid 1 1))
          (0, 0, Side.left) (0, 0, Side.third))
    ∧ ((findPathAStar (TriangularGrid.initGrid 1 1) (0, 0, Side.left)
          (0, 0, Side.third)).length ≤ 5
      ∧ (0, 0, Side.left) ∉ findPathAStar (TriangularGrid.initGrid 1 1)
          (0, 0, Side.left) (0, 0, Side.third)
      ∧ List.Chain (GraphStep (TriangularGrid.initGrid 1 1)) (0, 0, Side.left)
          (findPathAStar (TriangularGrid.initGrid 1 1) (0, 0, Side.left)
            (0, 0, Side.third))) :=
  ⟨⟨by decide, Relation.ReflTransGen.single (by decide)⟩,
    findPathAStar_valid (TriangularGrid.initGrid 1 1) (0, 0, Side.left)
      (0, 0, Side.third) (by decide) (by decide)
      (Relation.ReflTransGen.single (by decide))⟩

/-- The GameState of game_state.js: the grid, the turn counter and the two
characters.  The gridGraph field is rebuilt from the grid by buildFromGrid
and is embedded as the nodeEdges / findPathAStar functions over the same
grid.  There is no gameOver field: the class holds exactly these data. -/
structure GameState where
  grid : TriangularGrid
  turnCounter : Nat
  player : Character
  enemy : Character
deriving DecidableEq

/-- GameState.findEnemyPathToPlayer: look up the enemy and player nodes
(present exactly when the triangle exists) and run A*; missing nodes give
the empty path. -/
def GameState.findEnemyPathToPlayer (gs : GameState) : List GNode :=
  if gs.grid.hasGraphNode gs.enemy.row gs.enemy.col = true
      ∧ gs.grid.hasGraphNode gs.player.row gs.player.col = true then
    findPathAStar gs.grid (gs.enemy.row, gs.enemy.col, gs.enemy.orientation)
      (gs.player.row, gs.player.col, gs.player.orientation)
  else []

/-- GameState.moveEnemyTowardsPlayer: take the first node of the A* path
and put the enemy there; an empty path changes nothing. -/
def GameState.moveEnemyTowardsPlayer (gs : GameState) : GameState :=
  match gs.findEnemyPathToPlayer with
  | [] => gs
  | nextNode :: _ =>
    { gs with
        enemy := gs.enemy.setPosition nextNode.1 nextNode.2.1 (some nextNode.2.2.toStr) }

/-- GameState.incrementTurn: advance the counter, then run the enemy
pursuit step. -/
def GameState.incrementTurn (gs : GameState) : GameState :=
  GameState.moveEnemyTowardsPlayer { gs with turnCounter := gs.turnCounter + 1 }

/-- MovementSystem.handleMovementInput with a movement key: move the player
and, on success only, increment the turn (which also moves the enemy).  No
game-over condition is consulted anywhere. -/
def GameState.handleMovementInput (gs : GameState) (dir : Direction) : GameState :=
  if ((gs.player.move gs.grid dir).1).success = true then
    GameState.incrementTurn { gs with player := (gs.player.move gs.grid dir).2 }
  else
    { gs with player := (gs.player.move gs.grid dir).2 }

/-- MovementSystem.handleRotationInput with a rotation key: rotate the
player on its triangle and increment the turn; nothing happens without a
triangle under the player. -/
def GameState.handleRotationInput (gs : GameState) (clockwise : Bool) : GameState :=
  match gs.grid.getTriangle gs.player.row gs.player.col with
  | none => gs
  | some tri =>
    if clockwise = true then
      GameState.incrementTurn { gs with player := { gs.player with
        orientation := rotateClockwise tri.pointsUp gs.player.orientation } }
    else
      GameState.incrementTurn { gs with player := { gs.player with
        orientation := rotateCounterClockwise tri.pointsUp gs.player.orientation } }

/-- The pursuit step never touches the player, the turn counter or the
grid. -/
theorem GameState.incrementTurn_fields (gs : GameState) :
    (gs.incrementTurn).player = gs.player
      ∧ (gs.incrementTurn).turnCounter = gs.turnCounter + 1 := by
  unfold GameState.incrementTurn GameState.moveEnemyTowardsPlayer
  cases hp : ({ gs with turnCounter := gs.turnCounter + 1 }
      : GameState).findEnemyPathToPlayer with
  | nil => exact ⟨rfl, rfl⟩
  | cons a l => exact ⟨rfl, rfl⟩

/-- A successful move lands on the neighbor across the faced side. -/
theorem Character.move_success_neighbor (ch : Character) (g : TriangularGrid)
    (dir : Direction) (h : ((ch.move g dir).1).success = true) :
    ∃ nr nc : Nat, g.neighborCoords ch.row ch.col ch.orientation = some (nr, nc)
      ∧ (ch.move g dir).2.row = nr ∧ (ch.move g dir).2.col = nc := by
  unfold Character.move at h ⊢
  cases htri : g.getTriangle ch.row ch.col with
  | none =>
    rw [htri] at h
    cases h
  | some tri =>
    rw [htri] at h
    dsimp only at h ⊢
    by_cases hside : tri.getSideState ch.orientation ≠ SideState.empty
    · rw [if_pos hside] at h
      cases h
    · rw [if_neg hside] at h ⊢
      cases hnbt : g.neighborTriangle ch.row ch.col ch.orientation with
      | none =>
        rw [hnbt] at h
        cases h
      | some nbt =>
        obtain ⟨nr, nc, nb⟩ := nbt
        rw [hnbt] at h
        dsimp only at h ⊢
        exact ⟨nr, nc, neighborCoords_of_neighborTriangle g hnbt, rfl, rfl⟩

/-- C3 (amended): the code has no game-over mechanism.  GameState holds no
gameOver flag, and the player and the enemy sharing a triangle suppresses
nothing: a movement input whose move succeeds still moves the player to the
neighbor triangle (a genuine position change) and still increments the turn
counter, and a rotation input still increments the turn counter, exactly as
from any non-collided state. -/
theorem collision_never_suppresses_input (gs : GameState) (dir : Direction)
    (hco : gs.player.row = gs.enemy.row ∧ gs.player.col = gs.enemy.col)
    (hsucc : ((gs.player.move gs.grid dir).1).success = true) :
    (gs.handleMovementInput dir).player = (gs.player.move gs.grid dir).2
      ∧ (gs.handleMovementInput dir).turnCounter = gs.turnCounter + 1
      ∧ ¬((gs.handleMovementInput dir).player.row = gs.player.row
          ∧ (gs.handleMovementInput dir).player.col = gs.player.col)
      ∧ (∀ cw : Bool, (gs.grid.getTriangle gs.player.row gs.player.col).isSome →
          (gs.handleRotationInput cw).turnCounter = gs.turnCounter + 1) := by
  have h1 : gs.handleMovementInput dir
      = GameState.incrementTurn { gs with player := (gs.player.move gs.grid dir).2 } := by
    unfold GameState.handleMovementInput
    rw [if_pos hsucc]
  obtain ⟨nr, nc, hnb, hr, hc⟩ := Character.move_success_neighbor _ _ _ hsucc
  have hne := gs.grid.neighborCoords_ne_self hnb
  have hpl : (gs.handleMovementInput dir).player = (gs.player.move gs.grid dir).2 := by
    rw [h1]
    exact (GameState.incrementTurn_fields _).1
  refine ⟨hpl, by rw [h1]; exact (GameState.incrementTurn_fields _).2, ?_, ?_⟩
  · intro hcon
    rw [hpl, hr, hc] at hcon
    exact hne ⟨hcon.1, hcon.2⟩
  · intro cw hex
    unfold GameState.handleRotationInput
    cases htri : gs.grid.getTriangle gs.player.row gs.player.col with
    | none =>
      rw [htri] at hex
      cases hex
    | some tri =>
      dsimp only
      cases cw with
      | true =>
        rw [if_pos rfl]
        exact (GameState.incrementTurn_fields _).2
      | false =>
        rw [if_neg (by simp)]
        exact (GameState.incrementTurn_fields _).2

/-- A collided state of the 1-by-2 demo grid: the player and the enemy
share triangle (0, 0) and the player faces the open right side. -/
def gsDemo : GameState :=
  ⟨demoGrid, 0, ⟨0, 0, Side.right, "player"⟩, ⟨0, 0, Side.right, "enemy"⟩⟩

/-- C3 counterexample: with the player and enemy on the same triangle, a
movement input is not a no-op: the player's position changes and the turn
counter advances -- there is no gameOver latch ending the session. -/
theorem gameOver_latch_counterexample :
    (gsDemo.player.row = gsDemo.enemy.row ∧ gsDemo.player.col = gsDemo.enemy.col)
    ∧ ¬((gsDemo.handleMovementInput Direction.forward_left).player = gsDemo.player)
    ∧ (gsDemo.handleMovementInput Direction.forward_left).turnCounter
        = gsDemo.turnCounter + 1 := by
  refine ⟨⟨rfl, rfl⟩, ?_, ?_⟩
  · decide
  · decide

/-- C3 witness: the amended theorem applied to the collided demo state. -/
theorem collision_never_suppresses_input_witness :
    ((gsDemo.player.row = gsDemo.enemy.row ∧ gsDemo.player.col = gsDemo.enemy.col)
      ∧ ((gsDemo.player.move gsDemo.grid Direction.forward_left).1).success = true)
    ∧ ((gsDemo.handleMovementInput Direction.forward_left).player
          = (gsDemo.player.move gsDemo.grid Direction.forward_left).2
      ∧ (gsDemo.handleMovementInput Direction.forward_left).turnCounter
          = gsDemo.turnCounter + 1
      ∧ ¬((gsDemo.handleMovementInput Direction.forward_left).player.row
            = gsDemo.player.row
          ∧ (gsDemo.handleMovementInput Direction.forward_left).player.col
            = gsDemo.player.col)
      ∧ (∀ cw : Bool,
          (gsDemo.grid.getTriangle gsDemo.player.row gsDemo.player.col).isSome →
          (gsDemo.handleRotationInput cw).turnCounter = gsDemo.turnCounter + 1)) :=
  ⟨⟨⟨rfl, rfl⟩, by decide⟩,
    collision_never_suppresses_input gsDemo Direction.forward_left ⟨rfl, rfl⟩
      (by decide)⟩
end MirrorMurder
